import Mathlib

/-!
Verification of the tournament core of the `backend.rtms` repository.

The Python services (bracket generation, score/winner resolution, group
generation, standings calculation, match scheduling) are shallowly embedded
as pure Lean functions.  Database rows become values, the table of matches
of a division becomes an arena (a `List MatchRec` indexed by creation
order), the Django foreign key `next_match` becomes an `Option Nat` arena
index, and `@transaction.atomic` service methods become functions returning
`Except` (an error result models a rolled-back transaction: nothing is
persisted).  `random.shuffle` is modelled by taking the already-shuffled
participant list as the input: every claim below is either quantified over
all input orders or is order-insensitive, so this loses nothing.
Player profiles are identified by their primary key, modelled as `Nat`.
-/

namespace RTMS

/-- Participant entry produced by `get_participants`: for singles
`partner = none`, for doubles the approved involvement's partner. -/
structure Participant where
  player : Nat
  partner : Option Nat := none
deriving DecidableEq, Repr

/-- Embeds the `MatchStatus` text choices from `apps/matches/constants.py`. -/
inductive MStatus
  | pending
  | inProgress
  | completed
  | cancelled
deriving DecidableEq, Repr

/-- Embeds the `SetWinner` text choices from `apps/matches/constants.py`. -/
inductive SWinner
  | player1
  | player2
deriving DecidableEq, Repr

/-- Embeds the `MatchType` text choices from `apps/matches/constants.py`. -/
inductive MType
  | singles
  | doubles
deriving DecidableEq, Repr

/-- A row of the `Set` model.  `completed` models `completed_at is not null`
(the service stamps `completed_at = timezone.now() if winner else None`). -/
structure SetRec where
  setNumber : Nat
  player1Score : Nat
  player2Score : Nat
  winner : Option SWinner := none
  completed : Bool := false
deriving DecidableEq, Repr

/-- A row of the `Match` model, restricted to the fields the verified
services read or write.  `nextMatch` is an arena index (creation order
within the division), standing in for the `next_match` self foreign key.
`scheduledAt` is a timestamp in minutes; `startedAt`/`completedAt` model
the nullity of the corresponding timestamps. -/
structure MatchRec where
  code : String
  roundNumber : Int
  isLosersBracket : Bool := false
  matchType : MType := .singles
  player1 : Option Nat := none
  player2 : Option Nat := none
  partner1 : Option Nat := none
  partner2 : Option Nat := none
  maxSets : Nat := 5
  pointsPerSet : Nat := 15
  nextMatch : Option Nat := none
  winner : Option Nat := none
  winnerPartner : Option Nat := none
  status : MStatus := .pending
  sets : List SetRec := []
  scheduledAt : Option Nat := none
  location : Option String := none
  startedAt : Bool := false
  completedAt : Bool := false
deriving DecidableEq, Repr

/-- Embeds `Match.sets_to_win`: `(self.max_sets // 2) + 1`. -/
def MatchRec.setsToWin (m : MatchRec) : Nat := m.maxSets / 2 + 1

/-- Embeds `Match.sets_won_by_player1`: count of this match's sets won by player 1. -/
def MatchRec.setsWonByPlayer1 (m : MatchRec) : Nat :=
  (m.sets.filter (fun s => s.winner = some SWinner.player1)).length

/-- Embeds `Match.sets_won_by_player2`: count of this match's sets won by player 2. -/
def MatchRec.setsWonByPlayer2 (m : MatchRec) : Nat :=
  (m.sets.filter (fun s => s.winner = some SWinner.player2)).length

/-- Embeds `Match.is_completed`. -/
def MatchRec.isCompleted (m : MatchRec) : Bool := m.status = MStatus.completed

/-! ## Score/Winner resolver (`MatchScoreService`) -/

/-- Winner determination for one submitted set, from
`MatchScoreService.create_or_update_sets`:
player 1 wins iff `player1_score > player2_score and
player1_score >= points_per_set`, and symmetrically for player 2. -/
def determineSetWinner (pointsPerSet p1Score p2Score : Nat) : Option SWinner :=
  if p1Score > p2Score ∧ p1Score ≥ pointsPerSet then some SWinner.player1
  else if p2Score > p1Score ∧ p2Score ≥ pointsPerSet then some SWinner.player2
  else none

/-- The `Set` row written by `create_or_update_sets` for one submitted set:
scores, computed winner, and `completed_at` stamped exactly when a winner
exists. -/
def buildSet (pointsPerSet setNumber p1Score p2Score : Nat) : SetRec :=
  { setNumber := setNumber
    player1Score := p1Score
    player2Score := p2Score
    winner := determineSetWinner pointsPerSet p1Score p2Score
    completed := (determineSetWinner pointsPerSet p1Score p2Score).isSome }

/-- Embeds `Set.objects.update_or_create(match, set_number, defaults)`: replace the
row with the same `set_number` if it exists, otherwise append. -/
def upsertSet (sets : List SetRec) (s : SetRec) : List SetRec :=
  if sets.any (fun t => t.setNumber = s.setNumber) then
    sets.map (fun t => if t.setNumber = s.setNumber then s else t)
  else sets ++ [s]

/-- One submitted set: `(set_number, player1_score, player2_score)`. -/
abbrev SetData := Nat × Nat × Nat

/-- Embeds `MatchScoreService.create_or_update_sets` over the whole submission. -/
def createOrUpdateSets (m : MatchRec) (setsData : List SetData) : List SetRec :=
  setsData.foldl
    (fun acc sd => upsertSet acc (buildSet m.pointsPerSet sd.1 sd.2.1 sd.2.2))
    m.sets

/-- Embeds `MatchScoreService.calculate_winner`.  Note the faithful quirk: the
returned pair holds the *slot contents* `player1/partner1` (or
`player2/partner2`), which are nullable — the Python tuple `(None, None)`
is truthy, so a winning side whose slot is empty still "wins". -/
def calculateWinner (m : MatchRec) : Option (Option Nat × Option Nat) :=
  if m.setsWonByPlayer1 ≥ m.setsToWin then some (m.player1, m.partner1)
  else if m.setsWonByPlayer2 ≥ m.setsToWin then some (m.player2, m.partner2)
  else none

/-- Slot filling of the next match in `MatchScoreService.update_match_status`:
the winner goes to `player1` if that slot is null, else to `player2` if that
slot is null, else nowhere; for doubles with a winner partner the matching
partner slot is filled alongside. -/
def fillSlot (w wp : Option Nat) (mt : MType) (b : MatchRec) : MatchRec :=
  if b.player1 = none then
    let b1 := { b with player1 := w }
    if mt = MType.doubles ∧ wp.isSome then { b1 with partner1 := wp } else b1
  else if b.player2 = none then
    let b1 := { b with player2 := w }
    if mt = MType.doubles ∧ wp.isSome then { b1 with partner2 := wp } else b1
  else b

/-- Embeds `MatchScoreService.update_match_status` acting on the division's match
arena at index `i`: on a computed winner, complete the match, record the
winner, and fill the first empty slot of `next_match` (if any); otherwise a
pending match moves to in-progress. -/
def updateMatchStatus (arena : List MatchRec) (i : Nat) : List MatchRec :=
  match arena[i]? with
  | none => arena
  | some m =>
    match calculateWinner m with
    | some (w, wp) =>
      let m' := { m with
        winner := w, winnerPartner := wp,
        status := MStatus.completed, completedAt := true }
      let arena' :=
        match m.nextMatch with
        | some j =>
          match arena[j]? with
          | some b => arena.set j (fillSlot w wp m.matchType b)
          | none => arena
        | none => arena
      arena'.set i m'
    | none =>
      if m.status = MStatus.pending then
        arena.set i { m with status := MStatus.inProgress, startedAt := true }
      else arena

/-- Embeds `MatchScoreService.execute` (without the non-fatal standings trigger):
validate the status, upsert the sets, then recompute the winner and update
the match and its next match.  An `Except.error` models the raised business
error (transaction aborted, nothing persisted). -/
def matchScoreExec (arena : List MatchRec) (i : Nat) (setsData : List SetData) :
    Except String (List MatchRec) :=
  match arena[i]? with
  | none => .error "MATCH_NOT_FOUND"
  | some m =>
    if m.status = MStatus.completed then .error "ERROR_MATCH_ALREADY_COMPLETED"
    else if m.status = MStatus.cancelled then .error "ERROR_MATCH_CANCELLED"
    else
      let arena1 := arena.set i { m with sets := createOrUpdateSets m setsData }
      .ok (updateMatchStatus arena1 i)

/-! ## Bracket generation (`MatchBracketGenerationService`) -/

/-- Mutable state of one `MatchBracketGenerationService` invocation: the
arena of created matches (in creation order — object identity becomes the
creation index) plus the two code counters. -/
structure GenState where
  arena : List MatchRec := []
  counter : Nat := 1
  lcounter : Nat := 1
deriving Repr

/-- Embeds `generate_match_code`. -/
def genMatchCode (st : GenState) (isLosers : Bool) : String × GenState :=
  if isLosers then
    ("LM" ++ toString st.lcounter, { st with lcounter := st.lcounter + 1 })
  else
    ("M" ++ toString st.counter, { st with counter := st.counter + 1 })

/-- Embeds `Match.objects.create(...)` inside the generator: append a fresh pending
match to the arena and return its index. -/
def GenState.newMatch (st : GenState) (m : MatchRec) : Nat × GenState :=
  (st.arena.length, { st with arena := st.arena ++ [m] })

/-- Embeds `match.next_match = other; match.save()`: point the arena entry at `i`
to the arena entry at `j`. -/
def setNextM (l : List MatchRec) (i j : Nat) : List MatchRec :=
  match l[i]? with
  | some m => l.set i { m with nextMatch := some j }
  | none => l

/-- Per-invocation configuration (`match_type` from the division's
participant type, `max_sets`, `points_per_set`). -/
structure BracketConfig where
  matchType : MType := .singles
  maxSets : Nat := 5
  pointsPerSet : Nat := 15
deriving Repr

/-- Bracket match row as assembled by the generator's `create_match`. -/
def mkBracketMatch (cfg : BracketConfig) (code : String) (round : Int)
    (isLosers : Bool) (p1 p2 pa1 pa2 : Option Nat) : MatchRec :=
  { code := code
    roundNumber := round
    isLosersBracket := isLosers
    matchType := cfg.matchType
    player1 := p1, player2 := p2, partner1 := pa1, partner2 := pa2
    maxSets := cfg.maxSets
    pointsPerSet := cfg.pointsPerSet
    status := MStatus.pending }

/-- Fuel-based binary logarithm (`log2fuel fuel n = Nat.log2 n` whenever
`n ≤ fuel`), used so that kernel reduction can evaluate the generator on
concrete inputs. -/
def log2fuel : Nat → Nat → Nat
  | 0, _ => 0
  | fuel + 1, n => if n ≥ 2 then log2fuel fuel (n / 2) + 1 else 0

/-- The `while power_of_2 * 2 <= num_participants: power_of_2 *= 2` loop:
largest power of two that is `≤ n`, computed with fuel (`n` doublings always
suffice). -/
def pow2Below (n : Nat) : Nat := go n 1
where
  go : Nat → Nat → Nat
    | 0, p => p
    | fuel + 1, p => if 2 * p ≤ n then go fuel (2 * p) else p

/-- One iteration of the preliminary-round loop of
`generate_single_elimination_bracket`: create the match for the shuffled
participants at positions `2*i` and `2*i + 1` (`participant_index` advances
by two per iteration, so it equals `2*i` at iteration `i`). -/
def prelimStep (cfg : BracketConfig) (ps : List Participant)
    (acc : List Nat × GenState) (i : Nat) : List Nat × GenState :=
  let cs := genMatchCode acc.2 false
  let a := ps[2 * i]?
  let b := ps[2 * i + 1]?
  let r := cs.2.newMatch (mkBracketMatch cfg cs.1 1 false
    (a.map (·.player)) (b.map (·.player))
    (a.bind (·.partner)) (b.bind (·.partner)))
  (acc.1 ++ [r.1], r.2)

/-- One iteration of the first-main-round loop: fill `player1`, then
`player2`, from the remaining direct participants (the accumulator's third
component is `direct_participant_idx`). -/
def frStep (cfg : BracketConfig) (direct : List Participant) (mainStart : Int)
    (acc : List Nat × GenState × Nat) (u : Nat) : List Nat × GenState × Nat :=
  let _ := u
  let cs := genMatchCode acc.2.1 false
  let di0 := acc.2.2
  let a := direct[di0]?
  let di1 := if di0 < direct.length then di0 + 1 else di0
  let b := direct[di1]?
  let di2 := if di1 < direct.length then di1 + 1 else di1
  let r := cs.2.newMatch (mkBracketMatch cfg cs.1 mainStart false
    (a.map (·.player)) (b.map (·.player))
    (a.bind (·.partner)) (b.bind (·.partner)))
  (acc.1 ++ [r.1], r.2, di2)

/-- One iteration of the preliminary-linking loop: for the next first-round
match, link at most one preliminary match (accumulator's second component
is `prelim_match_idx`) into its first empty player slot. -/
def linkStep (prelimIdxs : List Nat) (acc : GenState × Nat) (fidx : Nat) :
    GenState × Nat :=
  match prelimIdxs[acc.2]? with
  | none => acc
  | some pIdx =>
    match acc.1.arena[fidx]? with
    | none => acc
    | some fm =>
      if fm.player1 = none then
        ({ acc.1 with arena := setNextM acc.1.arena pIdx fidx }, acc.2 + 1)
      else if fm.player2 = none then
        ({ acc.1 with arena := setNextM acc.1.arena pIdx fidx }, acc.2 + 1)
      else acc

/-- One iteration of the inner later-round loop (`range(0, len(prev), 2)`,
so iteration `i` looks at previous-round matches `2*i` and `2*i + 1`):
create the empty match of round `roundNum` and point the one or two
previous-round matches at it. -/
def pairStep (cfg : BracketConfig) (roundNum : Int) (prev : List Nat)
    (acc2 : List Nat × GenState) (i : Nat) : List Nat × GenState :=
  let j := 2 * i
  let cs := genMatchCode acc2.2 false
  let r := cs.2.newMatch
    (mkBracketMatch cfg cs.1 roundNum false none none none none)
  let stA := match prev[j]? with
    | some m1 => { r.2 with arena := setNextM r.2.arena m1 r.1 }
    | none => r.2
  let stB := match prev[j + 1]? with
    | some m2 => { stA with arena := setNextM stA.arena m2 r.1 }
    | none => stA
  (acc2.1 ++ [r.1], stB)

/-- One iteration of the outer later-round loop (`round_offset = t + 1`, so
the created round number is `main_bracket_start_round + t + 1`): pair up
the previous round's matches. -/
def roundStep (cfg : BracketConfig) (mainStart : Int)
    (acc : List Nat × GenState × List Nat) (t : Nat) :
    List Nat × GenState × List Nat :=
  let prev := acc.2.2
  let roundNum : Int := mainStart + ((t : Int) + 1)
  let res := (List.range ((prev.length + 1) / 2)).foldl
    (pairStep cfg roundNum prev) ([], acc.2.1)
  (acc.1 ++ res.1, res.2, res.1)

/-- Embeds `generate_single_elimination_bracket`, acting on an already-shuffled
participant list and the generator state.  Returns the created arena
indices in creation order (the Python `all_matches` list) and the new
state.  `num_rounds = math.ceil(math.log2(power_of_2))` is embedded as
`Nat.log2` since `power_of_2` is an exact power of two (so the float
ceiling is exact there). -/
def genSE (cfg : BracketConfig) (ps : List Participant) (st0 : GenState) :
    List Nat × GenState :=
  let n := ps.length
  if n ≤ 1 then ([], st0) else
  let K := pow2Below n
  let e := n - K
  let pr := (List.range e).foldl (prelimStep cfg ps) ([], st0)
  let prelimIdxs := pr.1
  let direct := ps.drop (2 * e)
  let mainStart : Int := if 0 < e then 2 else 1
  let fr := (List.range (K / 2)).foldl (frStep cfg direct mainStart)
    ([], pr.2, 0)
  let frIdxs := fr.1
  let st3 := if 0 < e then (frIdxs.foldl (linkStep prelimIdxs) (fr.2.1, 0)).1
    else fr.2.1
  let numRounds := if K > 1 then log2fuel K K else 1
  let la := (List.range (numRounds - 1)).foldl (roundStep cfg mainStart)
    ([], st3, frIdxs)
  (prelimIdxs ++ frIdxs ++ la.1, la.2.1)

/-- The single-elimination entry point as invoked on a fresh service
(`match_counter = 1`, empty division): the created matches in creation
order are exactly the final arena. -/
def generateSingleEliminationBracket (cfg : BracketConfig)
    (ps : List Participant) : List MatchRec :=
  ((genSE cfg ps {}).2).arena

/-- Round number of the arena entry at index `i`. -/
def roundOf (st : GenState) (i : Nat) : Option Int :=
  (st.arena[i]?).map (·.roundNumber)

/-- Embeds `max((m.round_number for m in ...), default=0)` over a set of arena
indices. -/
def maxRoundOf (st : GenState) (idxs : List Nat) : Int :=
  ((idxs.filterMap (fun i => (st.arena[i]?).map (·.roundNumber))).max?).getD 0

/-- One iteration of the inner later-losers-round loop of
`_generate_losers_bracket`: create an empty losers match of round
`losersRound` and advance the corresponding previous-losers-round match
into it.  (The loser of the corresponding winners-round match is *not*
linked anywhere: the Python body fetches `winners_match` but never uses
it.) -/
def lbPairStep (cfg : BracketConfig) (losersRound : Int) (prevL : List Nat)
    (acc : List Nat × GenState) (i : Nat) : List Nat × GenState :=
  let cs := genMatchCode acc.2 true
  let r := cs.2.newMatch
    (mkBracketMatch cfg cs.1 losersRound true none none none none)
  let st := match prevL[i]? with
    | some pl => { r.2 with arena := setNextM r.2.arena pl r.1 }
    | none => r.2
  (acc.1 ++ [r.1], st)

/-- One iteration of the outer losers-round loop
(`for winners_round_num in range(2, max_winners_round + 1)`), carried as
`(createdLosersIdxs, state, previousLosersRound)`.  The number of matches
created is the size of the previous losers round. -/
def lbRoundStep (cfg : BracketConfig)
    (acc : List Nat × GenState × List Nat) (w : Int) :
    List Nat × GenState × List Nat :=
  let prevL := acc.2.2
  let res := (List.range prevL.length).foldl (lbPairStep cfg w prevL)
    ([], acc.2.1)
  (acc.1 ++ res.1, res.2, if res.1.isEmpty then prevL else res.1)

/-- The first-round loop of `_generate_losers_bracket`: `pairCount` empty
losers matches of round 1. -/
def lbFirstRound (cfg : BracketConfig) (pairCount : Nat) (st : GenState) :
    List Nat × GenState :=
  (List.range pairCount).foldl
    (fun (acc : List Nat × GenState) _ =>
      let cs := genMatchCode acc.2 true
      let r := cs.2.newMatch (mkBracketMatch cfg cs.1 1 true none none none none)
      (acc.1 ++ [r.1], r.2))
    ([], st)

/-- The consolidation step of `_generate_losers_bracket`: if the final
losers round holds more than one match, append one more losers match and
point them all at it. -/
def lbConsolidate (cfg : BracketConfig) (losersIdxs : List Nat)
    (st2 : GenState) : List Nat × GenState :=
  let finalRound := maxRoundOf st2 losersIdxs
  if 0 < finalRound then
    let finalRoundIdxs :=
      losersIdxs.filter (fun i => roundOf st2 i = some finalRound)
    if 1 < finalRoundIdxs.length then
      let cs := genMatchCode st2 true
      let r := cs.2.newMatch
        (mkBracketMatch cfg cs.1 (finalRound + 1) true none none none none)
      let st3 := finalRoundIdxs.foldl
        (fun st i => { st with arena := setNextM st.arena i r.1 }) r.2
      (losersIdxs ++ [r.1], st3)
    else (losersIdxs, st2)
  else (losersIdxs, st2)

/-- Embeds `_generate_losers_bracket` (`loser_match_counter` reset to 1).  Round 1
pairs up — as empty placeholder matches — the would-be losers of
winners-bracket round-1 matches that have a `player2` (non-byes); later
rounds create one match per previous-losers-round match; a consolidation
match is appended if the final losers round has more than one match. -/
def genLB (cfg : BracketConfig) (winnersIdxs : List Nat) (st0 : GenState) :
    List Nat × GenState :=
  let st := { st0 with lcounter := 1 }
  let maxW := maxRoundOf st winnersIdxs
  let firstW := winnersIdxs.filter (fun i => roundOf st i = some 1)
  let losersFromFirst := firstW.filter (fun i =>
    match st.arena[i]? with
    | some m => m.player2.isSome ∧ ¬ m.isCompleted
    | none => false)
  let pairCount := (losersFromFirst.length + 1) / 2
  let fl := lbFirstRound cfg pairCount st
  let wRounds := (List.range (maxW - 1).toNat).map (fun t => (2 : Int) + t)
  let la := wRounds.foldl (lbRoundStep cfg) (fl.1, fl.2, fl.1)
  lbConsolidate cfg la.1 la.2.1

/-- Embeds `_create_grand_final`: pick the winners-bracket final (first match of
the highest winners round), the losers-bracket final (first final-round
losers match with no `next_match`, else the first candidate), create the
`GF1` match with the sentinel round number 999, and point both finals at
it. -/
def createGF (cfg : BracketConfig) (winnersIdxs losersIdxs : List Nat)
    (st : GenState) : Option Nat × GenState :=
  let maxW := maxRoundOf st winnersIdxs
  let wCandidates := winnersIdxs.filter (fun i => roundOf st i = some maxW)
  let winnersFinal := wCandidates.head?
  let losersFinal :=
    if losersIdxs.isEmpty then none
    else
      let maxL := maxRoundOf st losersIdxs
      let lCandidates := losersIdxs.filter (fun i => roundOf st i = some maxL)
      match lCandidates.find? (fun i =>
          match st.arena[i]? with
          | some m => m.nextMatch = none
          | none => false) with
      | some i => some i
      | none => lCandidates.head?
  match winnersFinal with
  | none => (none, st)
  | some wf =>
    let r := st.newMatch (mkBracketMatch cfg "GF1" 999 false none none none none)
    let st1 := { r.2 with arena := setNextM r.2.arena wf r.1 }
    let st2 := match losersFinal with
      | some lf => { st1 with arena := setNextM st1.arena lf r.1 }
      | none => st1
    (some r.1, st2)

/-- Result of `generate_double_elimination_bracket`: the arena plus the
three sections the Python code keeps as separate lists. -/
structure DEResult where
  arena : List MatchRec
  winners : List Nat
  losers : List Nat
  grandFinal : Option Nat
deriving Repr

/-- Embeds `generate_double_elimination_bracket`: winners bracket via the
single-elimination builder (`match_counter` reset to 1), then the losers
bracket, then the grand final.  Both `random.shuffle` calls are modelled by
the input order. -/
def genDE (cfg : BracketConfig) (ps : List Participant) : DEResult :=
  let w := genSE cfg ps { GenState.mk [] 1 1 with counter := 1 }
  let l := genLB cfg w.1 w.2
  let g := createGF cfg w.1 l.1 l.2
  { arena := g.2.arena, winners := w.1, losers := l.1, grandFinal := g.1 }

/-! ## Group generation (`GroupGenerationService`) and standings model -/

/-- Tournament formats from `apps/tournaments` (`TournamentFormat`). -/
inductive TFormat
  | knockout
  | doubleSlash
  | roundRobin
  | roundRobinKnockout
deriving DecidableEq, Repr

/-- The slice of a `TournamentDivision` that `GroupGenerationService` reads:
format, publication flag, approved involvements (post-shuffle order), and
whether groups already exist. -/
structure DivisionState where
  format : TFormat
  isPublished : Bool
  approved : List Participant
  hasGroups : Bool := false
deriving Repr

/-- A row of the `GroupStanding` model: the involvement's identity plus the
mutable counters and positions. -/
structure GroupStanding where
  player : Nat
  partner : Option Nat := none
  matchesPlayed : Nat := 0
  matchesWon : Nat := 0
  matchesLost : Nat := 0
  setsWon : Nat := 0
  setsLost : Nat := 0
  points : Nat := 0
  positionInGroup : Option Nat := none
  globalPosition : Option Nat := none
deriving DecidableEq, Repr

/-- Embeds `GroupStanding.sets_difference`: `sets_won - sets_lost`. -/
def GroupStanding.setsDifference (s : GroupStanding) : Int :=
  (s.setsWon : Int) - (s.setsLost : Int)

/-- A row of the `TournamentGroup` model together with its owned standings
(in database order). -/
structure TournamentGroup where
  groupNumber : Nat
  name : String
  standings : List GroupStanding
deriving DecidableEq, Repr

/-- Integer ceiling division, embedding `math.ceil(a / b)` on exact integer
arguments (the float division is exact in the sizes at play). -/
def ceilDiv (a b : Nat) : Nat := (a + b - 1) / b

/-- Embeds `GroupGenerationService.distribute_participants`: choose the
group count (`ceil(n/max)`, or `ceil(n/min)` when everyone fits at
`min` per group), then slice the shuffled list greedily with
`remaining // remaining_groups` clamped to `[min, max]` per group. -/
def distributeParticipants (minPG maxPG : Nat) (shuffled : List Participant) :
    List (List Participant) :=
  let n := shuffled.length
  let g0 := ceilDiv n maxPG
  let numGroups := if n ≤ g0 * minPG then ceilDiv n minPG else g0
  ((List.range numGroups).foldl
    (fun (acc : List (List Participant) × Nat) gi =>
      let remP := n - acc.2
      let remG := numGroups - gi
      let ppg0 := remP / remG
      let ppg := if ppg0 < minPG then minPG
        else if ppg0 > maxPG then maxPG else ppg0
      (acc.1 ++ [(shuffled.drop acc.2).take ppg], acc.2 + ppg))
    ([], 0)).1

/-- A fresh standing row for an involvement placed into a group. -/
def freshStanding (p : Participant) : GroupStanding :=
  { player := p.player, partner := p.partner }

/-- Embeds `TournamentGroup.validate_participant_count` (hard 3–5 bound). -/
def validParticipantCount (g : TournamentGroup) : Bool :=
  3 ≤ g.standings.length ∧ g.standings.length ≤ 5

/-- The group-creation loop of `generate_groups` (second argument is the
1-based `group_idx`): create, then validate 3–5, else abort everything. -/
def groupsLoop : List (List Participant) → Nat → List TournamentGroup →
    Except String (List TournamentGroup)
  | [], _, acc => .ok acc
  | g :: rest, idx, acc =>
    let grp : TournamentGroup :=
      { groupNumber := idx
        name := "Grupo " ++ String.singleton (Char.ofNat (64 + idx))
        standings := g.map freshStanding }
    if grp.standings.length < 3 then .error "GROUP_TOO_SMALL"
    else if grp.standings.length > 5 then .error "GROUP_TOO_LARGE"
    else groupsLoop rest (idx + 1) (acc ++ [grp])

/-- Embeds `GroupGenerationService.generate_groups`: validate the division,
distribute, then create each group (named `Grupo A`, `Grupo B`, …) with its
standings, validating the 3–5 participant bound immediately after each
creation.  A raised `ValidationError` aborts the whole atomic transaction,
which the `Except.error` result models: no group is persisted. -/
def generateGroups (d : DivisionState) (minPG maxPG : Nat) :
    Except String (List TournamentGroup) :=
  if d.format ≠ TFormat.roundRobinKnockout then .error "WRONG_FORMAT"
  else if ¬ d.isPublished then .error "NOT_PUBLISHED"
  else if d.approved.length < minPG then .error "INSUFFICIENT_APPROVED_PLAYERS"
  else if minPG < 3 then .error "MIN_PER_GROUP_BELOW_3"
  else if maxPG > 5 then .error "MAX_PER_GROUP_ABOVE_5"
  else if minPG > maxPG then .error "MIN_ABOVE_MAX"
  else if d.hasGroups then .error "GROUPS_ALREADY_EXIST"
  else groupsLoop (distributeParticipants minPG maxPG d.approved) 1 []

/-! ## Match scheduler (`MatchBracketGenerationService._schedule_matches`) -/

/-- Stable insertion of `a` into `l`: `a` lands in front of the first
element strictly greater than it, hence after all earlier equal elements. -/
def insortBy (lt : α → α → Bool) (a : α) : List α → List α
  | [] => [a]
  | b :: t => if lt a b then a :: b :: t else b :: insortBy lt a t

/-- Stable sort by a strict comparison, processing the input left to right.
Extensionally equal to Python's stable `list.sort`, whose result is
uniquely determined by sortedness plus stability. -/
def stableSortBy (lt : α → α → Bool) (l : List α) : List α :=
  l.foldl (fun acc a => insortBy lt a acc) []

/-- One generated scheduling slot (the Python dict with keys
`start`, `end`, `location`, `court_id`).  Timestamps are absolute minutes:
`day * 1440 + minute-of-day`. -/
structure Slot where
  start : Nat
  stop : Nat
  location : String
  courtId : Nat
deriving DecidableEq, Repr

/-- Scheduling parameters: date range (as day indices, inclusive), daily
window (minutes of day), court count and per-match duration. -/
structure SchedParams where
  startDay : Nat
  endDay : Nat
  startHour : Nat
  endHour : Nat
  availableCourts : Nat
  durationMinutes : Nat
deriving Repr

/-- Number of iterations of the inner `while current_time + duration <=
end_time_limit` loop.  For `duration = 0` the Python loop would not
terminate; the embedding yields no slots in that degenerate case. -/
def numTimes (p : SchedParams) : Nat :=
  if p.durationMinutes = 0 then 0
  else (p.endHour - p.startHour) / p.durationMinutes

/-- Number of days in the inclusive date range. -/
def numDays (p : SchedParams) : Nat := p.endDay + 1 - p.startDay

/-- The slots of one `(day, time)` pair, one per court
(`location = "Cancha {court_num}"`). -/
def courtSlots (p : SchedParams) (day t : Nat) : List Slot :=
  (List.range p.availableCourts).map (fun c =>
    { start := day * 1440 + t
      stop := day * 1440 + t + p.durationMinutes
      location := "Cancha " ++ toString (c + 1)
      courtId := c + 1 })

/-- The slots of one day: time `start_hour + k * duration` for every `k`
with `start + duration ≤ end_hour`. -/
def daySlots (p : SchedParams) (day : Nat) : List Slot :=
  ((List.range (numTimes p)).map (fun k =>
    courtSlots p day (p.startHour + k * p.durationMinutes))).flatten

/-- Slot generation of `_schedule_matches`: the full `(day, time, court)`
cross-product. -/
def genSlots (p : SchedParams) : List Slot :=
  ((List.range (numDays p)).map (fun d => daySlots p (p.startDay + d))).flatten

/-- The generated slots sorted by start time (`slots.sort(key=...)`). -/
def sortedSlots (p : SchedParams) : List Slot :=
  stableSortBy (fun a b => a.start < b.start) (genSlots p)

/-- The players involved in a match (`players_in_match`). -/
def matchPlayers (m : MatchRec) : List Nat :=
  ((([] ++ m.player1.toList) ++ m.player2.toList) ++ m.partner1.toList)
    ++ m.partner2.toList

/-- Busy intervals recorded for a player (`player_schedules` dict lookup,
defaulting to no intervals). -/
def lookupSched (scheds : List (Nat × List (Nat × Nat))) (q : Nat) :
    List (Nat × Nat) :=
  match scheds.find? (fun e => e.1 = q) with
  | some e => e.2
  | none => []

/-- Record a busy interval for a player
(`player_schedules[player_id].append((start, end))`). -/
def addBusy (scheds : List (Nat × List (Nat × Nat))) (q : Nat)
    (iv : Nat × Nat) : List (Nat × List (Nat × Nat)) :=
  if scheds.any (fun e => e.1 = q) then
    scheds.map (fun e => if e.1 = q then (e.1, e.2 ++ [iv]) else e)
  else scheds ++ [(q, [iv])]

/-- The interval-overlap test `(start < busy_end) and (end > busy_start)`. -/
def overlapsIv (s e bs be : Nat) : Bool := s < be ∧ e > bs

/-- Conflict check of the candidate slot against the players' recorded
busy intervals. -/
def hasConflict (scheds : List (Nat × List (Nat × Nat))) (players : List Nat)
    (s e : Nat) : Bool :=
  players.any (fun q => (lookupSched scheds q).any
    (fun b => overlapsIv s e b.1 b.2))

/-- The inner slot search: first chronological slot that is unused and
conflict-free for the match's players. -/
def findSlotIdx (slots : List Slot) (used : List Nat)
    (scheds : List (Nat × List (Nat × Nat))) (players : List Nat) :
    Option Nat :=
  (List.range slots.length).find? (fun i =>
    if used.contains i then false
    else match slots[i]? with
      | some sl => ! hasConflict scheds players sl.start sl.stop
      | none => false)

/-- Scheduler state: processed matches, consumed slot indices
(`used_slots`), and the per-player busy intervals (`player_schedules`). -/
abbrev SchedAcc := List MatchRec × List Nat × List (Nat × List (Nat × Nat))

/-- One iteration of the match loop of `_schedule_matches`.  Note that the
Python `if slot_index >= len(slots): break` guard can only fire when the
slot list is empty, because `slot_index` is never incremented; a match with
no valid slot is simply left unscheduled. -/
def schedStep (slots : List Slot) (acc : SchedAcc) (m : MatchRec) : SchedAcc :=
  if slots.isEmpty then (acc.1 ++ [m], acc.2.1, acc.2.2)
  else
    match findSlotIdx slots acc.2.1 acc.2.2 (matchPlayers m) with
    | some i =>
      match slots[i]? with
      | some sl =>
        (acc.1 ++ [{ m with scheduledAt := some sl.start,
                            location := some sl.location }],
         acc.2.1 ++ [i],
         (matchPlayers m).foldl
           (fun sc q => addBusy sc q (sl.start, sl.stop)) acc.2.2)
      | none => (acc.1 ++ [m], acc.2.1, acc.2.2)
    | none => (acc.1 ++ [m], acc.2.1, acc.2.2)

/-- Embeds `_schedule_matches`: generate and sort the slots, then greedily
assign each match in input order to the first feasible slot.  The full
final state (matches, used slots, player schedules) is returned. -/
def scheduleMatchesFull (ms : List MatchRec) (p : SchedParams) :
    SchedAcc :=
  ms.foldl (schedStep (sortedSlots p)) ([], [], [])

/-- The scheduler's visible effect: the match list with `scheduled_at` and
`location` filled in for the assigned matches. -/
def scheduleMatches (ms : List MatchRec) (p : SchedParams) :
    List MatchRec :=
  (scheduleMatchesFull ms p).1

/-- Two matches hold distinct `(time-slot, court)` pairs: whenever both are
scheduled, the slot entries they consumed are distinct slot-list positions
with distinct `(start, court)` keys (and match the matches' stored
`scheduled_at`/`location`). -/
def DistinctSlots (slots : List Slot) (m₁ m₂ : MatchRec) : Prop :=
  ∀ s₁ s₂, m₁.scheduledAt = some s₁ → m₂.scheduledAt = some s₂ →
    ∃ (i₁ i₂ : Nat) (sl₁ sl₂ : Slot),
      i₁ ≠ i₂ ∧ slots[i₁]? = some sl₁ ∧ slots[i₂]? = some sl₂ ∧
      sl₁.start = s₁ ∧ m₁.location = some sl₁.location ∧
      sl₂.start = s₂ ∧ m₂.location = some sl₂.location ∧
      (sl₁.start, sl₁.courtId) ≠ (sl₂.start, sl₂.courtId)

/-- No participant of both matches is double-booked: whenever both are
scheduled, their intervals `[start, start + duration)` do not overlap if
they share a player. -/
def NoPlayerOverlap (dur : Nat) (m₁ m₂ : MatchRec) : Prop :=
  ∀ s₁ s₂, m₁.scheduledAt = some s₁ → m₂.scheduledAt = some s₂ →
    ∀ q, q ∈ matchPlayers m₁ → q ∈ matchPlayers m₂ →
      s₁ + dur ≤ s₂ ∨ s₂ + dur ≤ s₁

/-- Loop invariant of the scheduling pass: consumed slot indices are
distinct; every scheduled output match is backed by a consumed slot whose
start/location it carries; every scheduled match's interval is recorded for
each of its players; and the output is pairwise conflict-free. -/
def SchedInv (slots : List Slot) (dur : Nat) (acc : SchedAcc) : Prop :=
  acc.2.1.Nodup ∧
  (∀ m₀ ∈ acc.1, ∀ s₀, m₀.scheduledAt = some s₀ →
    ∃ i ∈ acc.2.1, ∃ sl, slots[i]? = some sl ∧ sl.start = s₀ ∧
      m₀.location = some sl.location) ∧
  (∀ m₀ ∈ acc.1, ∀ s₀, m₀.scheduledAt = some s₀ →
    ∀ q ∈ matchPlayers m₀, (s₀, s₀ + dur) ∈ lookupSched acc.2.2 q) ∧
  List.Pairwise
    (fun m₁ m₂ => DistinctSlots slots m₁ m₂ ∧ NoPlayerOverlap dur m₁ m₂)
    acc.1

/-! ## Generic match update (`MatchUpdateService` via `MatchWriteSerializer`) -/

/-- The update payload reaching `MatchUpdateService.update_match` through
the exposed API: `MatchWriteSerializer`'s writable fields.  `status`,
`winner`, `winner_partner`, `started_at` and `completed_at` are not among
the serializer's fields, so the generic update operation cannot carry
them.  `none` on the outer `Option` means "field absent from the payload"
(partial update). -/
structure MatchUpdateData where
  code : Option String := none
  matchType : Option MType := none
  player1 : Option (Option Nat) := none
  player2 : Option (Option Nat) := none
  partner1 : Option (Option Nat) := none
  partner2 : Option (Option Nat) := none
  maxSets : Option Nat := none
  pointsPerSet : Option Nat := none
  roundNumber : Option Int := none
  isLosersBracket : Option Bool := none
  nextMatch : Option (Option Nat) := none
  scheduledAt : Option (Option Nat) := none
  location : Option (Option String) := none
deriving Repr

/-- The `setattr` loop of `MatchUpdateService.update_match` over the
validated payload. -/
def applyUpdate (m : MatchRec) (d : MatchUpdateData) : MatchRec :=
  { m with
    code := d.code.getD m.code
    matchType := d.matchType.getD m.matchType
    player1 := d.player1.getD m.player1
    player2 := d.player2.getD m.player2
    partner1 := d.partner1.getD m.partner1
    partner2 := d.partner2.getD m.partner2
    maxSets := d.maxSets.getD m.maxSets
    pointsPerSet := d.pointsPerSet.getD m.pointsPerSet
    roundNumber := d.roundNumber.getD m.roundNumber
    isLosersBracket := d.isLosersBracket.getD m.isLosersBracket
    nextMatch := d.nextMatch.getD m.nextMatch
    scheduledAt := d.scheduledAt.getD m.scheduledAt
    location := d.location.getD m.location }

/-- Embeds `MatchUpdateService.execute`: completed matches cannot be
updated; the configuration bounds are validated on the effective values;
then the payload is applied (match-code uniqueness concerns other rows and
is outside the single-match model). -/
def matchUpdateExec (m : MatchRec) (d : MatchUpdateData) :
    Except String MatchRec :=
  if m.status = MStatus.completed then .error "ERROR_MATCH_ALREADY_COMPLETED"
  else if ¬ (3 ≤ d.maxSets.getD m.maxSets ∧ d.maxSets.getD m.maxSets ≤ 10) then
    .error "INVALID_MAX_SETS"
  else if ¬ (1 ≤ d.pointsPerSet.getD m.pointsPerSet ∧
      d.pointsPerSet.getD m.pointsPerSet ≤ 50) then
    .error "INVALID_POINTS_PER_SET"
  else .ok (applyUpdate m d)

/-- Every match in the list is pending with no winner (the state in which
all builders create matches). -/
def ArenaOK (l : List MatchRec) : Prop :=
  ∀ m ∈ l, m.status = MStatus.pending ∧ m.winner = none

/-! ## Standing calculation (`StandingCalculationService`) -/

/-- Embeds `get_group_matches`: the completed matches of the division whose
`round_number` is the negated group number (the group-phase encoding).  The
match list `ms` is taken in the query's deterministic order
(`['division', 'round_number', 'match_code']` with unique codes), so both
reads of one calculation and both calls of a double calculation see the
same order. -/
def groupMatches (ms : List MatchRec) (g : Nat) : List MatchRec :=
  ms.filter (fun m =>
    decide (m.roundNumber = -(g : Int) ∧ m.status = MStatus.completed))

/-- The recurring involvement test `match.player1 == inv.player and (not
match.partner1 or match.partner1 == inv.partner)`: the standing occupies
the match's side 1. -/
def onSide1 (m : MatchRec) (s : GroupStanding) : Bool :=
  decide (m.player1 = some s.player ∧
    (m.partner1 = none ∨ m.partner1 = s.partner))

/-- The symmetric involvement test for the match's side 2. -/
def onSide2 (m : MatchRec) (s : GroupStanding) : Bool :=
  decide (m.player2 = some s.player ∧
    (m.partner2 = none ∨ m.partner2 = s.partner))

/-- The set loop of `update_standing_from_match`: every set won by side 1
is a set win if the standing is on side 1 and a set loss otherwise, and
symmetrically for side 2; sets without a winner count for neither. -/
def setTally (m : MatchRec) (s : GroupStanding) : Nat × Nat :=
  m.sets.foldl
    (fun acc st =>
      match st.winner with
      | some SWinner.player1 =>
        if onSide1 m s then (acc.1 + 1, acc.2) else (acc.1, acc.2 + 1)
      | some SWinner.player2 =>
        if onSide2 m s then (acc.1 + 1, acc.2) else (acc.1, acc.2 + 1)
      | none => acc)
    (0, 0)

/-- Embeds `update_standing_from_match`: one played match, a win worth 3
points or a loss worth 1 point, and the accumulated set tallies. -/
def updateStandingFromMatch (s : GroupStanding) (m : MatchRec)
    (isWinner : Bool) : GroupStanding :=
  { s with
    matchesPlayed := s.matchesPlayed + 1
    matchesWon := s.matchesWon + (if isWinner then 1 else 0)
    matchesLost := s.matchesLost + (if isWinner then 0 else 1)
    points := s.points + (if isWinner then 3 else 1)
    setsWon := s.setsWon + (setTally m s).1
    setsLost := s.setsLost + (setTally m s).2 }

/-- Index selected by the `for standing in standings` scan of the replay
loop: the if/elif chain keeps overwriting its variable, so the last
matching row wins. -/
def lastIdxWhere (p : GroupStanding → Bool) :
    List GroupStanding → Option Nat
  | [] => none
  | s :: t =>
    match lastIdxWhere p t with
    | some i => some (i + 1)
    | none => if p s then some 0 else none

/-- One iteration of the replay loop of `calculate_group_standings`: locate
each side's standing (side 2 only via the `elif`, hence only where side 1
does not match), and when both are found and the match has a winner,
update both rows in place; `is_winner1` is `match.winner == match.player1`. -/
def replayMatch (l : List GroupStanding) (m : MatchRec) :
    List GroupStanding :=
  match lastIdxWhere (fun s => onSide1 m s) l,
      lastIdxWhere (fun s => !onSide1 m s && onSide2 m s) l with
  | some i1, some i2 =>
    if m.winner.isSome then
      match l[i1]? with
      | some s1 =>
        let l1 := l.set i1
          (updateStandingFromMatch s1 m (m.winner == m.player1))
        match l1[i2]? with
        | some s2 =>
          l1.set i2 (updateStandingFromMatch s2 m (!(m.winner == m.player1)))
        | none => l1
      | none => l
    else l
  | _, _ => l

/-- The zeroing pass at the top of `calculate_group_standings`. -/
def resetStanding (s : GroupStanding) : GroupStanding :=
  { s with
    matchesPlayed := 0
    matchesWon := 0
    matchesLost := 0
    setsWon := 0
    setsLost := 0
    points := 0 }

/-- The group sort key `(-points, -sets_difference, -sets_won)`. -/
def sortKey (s : GroupStanding) : Int × Int × Int :=
  (-(s.points : Int), -s.setsDifference, -(s.setsWon : Int))

/-- Strict lexicographic comparison of key triples: Python's `list.sort`
compares key tuples lexicographically. -/
def keyLT (a b : Int × Int × Int) : Bool :=
  decide (a.1 < b.1 ∨ (a.1 = b.1 ∧
    (a.2.1 < b.2.1 ∨ (a.2.1 = b.2.1 ∧ a.2.2 < b.2.2))))

/-- The tie-detection triple of the head-to-head pass: `points`,
`sets_difference`, `sets_won`. -/
def tieKey (s : GroupStanding) : Nat × Int × Nat :=
  (s.points, s.setsDifference, s.setsWon)

/-- Embeds `get_head_to_head_result` over the completed group matches: the
first match between the two involvements that has a winner decides;
`some true` means the first standing won it. -/
def getHeadToHead (s1 s2 : GroupStanding) : List MatchRec → Option Bool
  | [] => none
  | m :: rest =>
    if onSide1 m s1 && onSide2 m s2 then
      if m.winner.isSome then some (m.winner == m.player1)
      else getHeadToHead s1 s2 rest
    else if onSide1 m s2 && onSide2 m s1 then
      if m.winner.isSome then some (m.winner == m.player2)
      else getHeadToHead s1 s2 rest
    else getHeadToHead s1 s2 rest

/-- The `while i < len(standings)` head-to-head pass, with the list length
as fuel (the loop consumes at least one row per iteration): each maximal
run of rows sharing the head's exact tie triple passes unchanged, except
that a run of exactly two is swapped when the second row wins the
head-to-head. -/
def tiePassFuel (gms : List MatchRec) :
    Nat → List GroupStanding → List GroupStanding
  | 0, l => l
  | _ + 1, [] => []
  | fuel + 1, s :: rest =>
    let tail := rest.takeWhile (fun t => tieKey t == tieKey s)
    let rest' := rest.dropWhile (fun t => tieKey t == tieKey s)
    let run :=
      match tail with
      | [t] =>
        match getHeadToHead s t gms with
        | some false => [t, s]
        | _ => [s, t]
      | _ => s :: tail
    run ++ tiePassFuel gms fuel rest'

/-- The head-to-head tie pass over the sorted standings. -/
def tiePass (gms : List MatchRec) (l : List GroupStanding) :
    List GroupStanding :=
  tiePassFuel gms l.length l

/-- The `enumerate(standings, start=1)` assignment of `position_in_group`. -/
def numberFrom (k : Nat) : List GroupStanding → List GroupStanding
  | [] => []
  | s :: rest => { s with positionInGroup := some k } :: numberFrom (k + 1) rest

/-- Embeds `calculate_group_standings`: reset every standing, replay the
completed group matches, re-read the rows (same order: the ordering keys
`position_in_group` and `global_position` are untouched by the replay),
sort by `(-points, -sets_difference, -sets_won)`, run the head-to-head
pass, and assign 1-based `position_in_group`. -/
def calcGroupStandings (ms : List MatchRec) (g : TournamentGroup) :
    List GroupStanding :=
  let gms := groupMatches ms g.groupNumber
  let replayed := gms.foldl replayMatch (g.standings.map resetStanding)
  let sorted :=
    stableSortBy (fun a b => keyLT (sortKey a) (sortKey b)) replayed
  numberFrom 1 (tiePass gms sorted)

/-- The global sort key.  The source line reads
`(-standing.points, -standing.sets_difference,4` followed by
`-standing.sets_won,)`: a missing line break makes the third component
`4 - sets_won`, which orders identically to `-sets_won`. -/
def globalSortKey (s : GroupStanding) : Int × Int × Int :=
  (-(s.points : Int), -s.setsDifference, 4 - (s.setsWon : Int))

/-- The `enumerate(all_standings, start=1)` assignment of
`global_position`. -/
def numberGlobalFrom (k : Nat) : List GroupStanding → List GroupStanding
  | [] => []
  | s :: rest =>
    { s with globalPosition := some k } :: numberGlobalFrom (k + 1) rest

/-- Embeds `calculate_global_standings`: per-group calculation in group
order, concatenation, global stable sort by the (typo-bearing) key, and
1-based `global_position`. -/
def calcGlobalStandings (ms : List MatchRec) (gs : List TournamentGroup) :
    List GroupStanding :=
  numberGlobalFrom 1
    (stableSortBy (fun a b => keyLT (globalSortKey a) (globalSortKey b))
      ((gs.map (fun g => calcGroupStandings ms g)).flatten))

/-- Specification-side predicate: the standing plays in this match (it
occupies a side, and the match produced a winner to replay). -/
def plays (m : MatchRec) (s : GroupStanding) : Bool :=
  m.winner.isSome && (onSide1 m s || onSide2 m s)

/-- Specification-side predicate: the standing's side is the recorded
match winner's side. -/
def winsMatch (m : MatchRec) (s : GroupStanding) : Bool :=
  (onSide1 m s && m.winner == m.player1) ||
    (onSide2 m s && m.winner == m.player2)

/-- The replay loop's per-row winner flag: `is_winner1 = (match.winner ==
match.player1)` for the side-1 row, and its negation for the side-2 row. -/
def winsStep (m : MatchRec) (s : GroupStanding) : Bool :=
  if onSide1 m s then m.winner == m.player1 else !(m.winner == m.player1)

/-- Pointwise effect of one replayed match on one standing row, used to
restate the index-based replay loop as a per-row fold. -/
def stepStanding (s : GroupStanding) (m : MatchRec) : GroupStanding :=
  if m.winner.isSome then
    if onSide1 m s then updateStandingFromMatch s m (m.winner == m.player1)
    else if onSide2 m s then
      updateStandingFromMatch s m (!(m.winner == m.player1))
    else s
  else s

/-- Well-formedness of a group's data, as guaranteed by the builders: rows
have pairwise distinct players, and every completed group match is played
between two of the group's rows, with distinct sides and a winner drawn
from its own two sides. -/
def GroupWF (ms : List MatchRec) (g : TournamentGroup) : Prop :=
  (g.standings.map (fun s => s.player)).Nodup ∧
  ∀ m ∈ groupMatches ms g.groupNumber,
    (∃ s ∈ g.standings, onSide1 m s = true) ∧
    (∃ s ∈ g.standings, onSide2 m s = true) ∧
    m.player1 ≠ m.player2 ∧
    (m.winner = m.player1 ∨ m.winner = m.player2)

instance (ms : List MatchRec) (g : TournamentGroup) :
    Decidable (GroupWF ms g) := by
  unfold GroupWF
  infer_instance

/-- Agreement of two standing rows on everything except the two position
columns: the identity and counters that the calculation reads. -/
def SameRow (a b : GroupStanding) : Prop :=
  a.player = b.player ∧ a.partner = b.partner ∧
  a.matchesPlayed = b.matchesPlayed ∧ a.matchesWon = b.matchesWon ∧
  a.matchesLost = b.matchesLost ∧ a.setsWon = b.setsWon ∧
  a.setsLost = b.setsLost ∧ a.points = b.points

/-- The documented tie-break outcome: wherever two adjacent rows tie on
the exact triple and form a maximal run of exactly two (both neighbours,
if present, differ on the triple), the second row did not win their
head-to-head. -/
def TieResolved (gms : List MatchRec) (l : List GroupStanding) : Prop :=
  ∀ pre a b post, l = pre ++ a :: b :: post → tieKey a = tieKey b →
    (pre = [] ∨ ∃ p, pre.getLast? = some p ∧ tieKey p ≠ tieKey a) →
    (post = [] ∨ ∃ q, post.head? = some q ∧ tieKey q ≠ tieKey a) →
    getHeadToHead a b gms ≠ some false

/-- A pending match whose player-1 slot is empty, used to exhibit the
resolver completing a match with a null winner. -/
def cexMatch7 : MatchRec :=
  { code := "M1"
    roundNumber := 2
    player2 := some 5
    maxSets := 3 }

/-- A fully-populated pending match on which the resolver behaves. -/
def wMatch7 : MatchRec :=
  { code := "M1"
    roundNumber := 1
    player1 := some 1
    player2 := some 2
    maxSets := 3 }

/-- One-match arena around [[wMatch7]]. -/
def wArena7 : List MatchRec := [wMatch7]

/-- A submission in which player 1 wins both sets 15–3 and 15–7. -/
def wSets7 : List SetData := [(1, 15, 3), (2, 15, 7)]

/-- The arena produced by scoring [[wArena7]] with [[wSets7]]. -/
def wOut7 : List MatchRec := (matchScoreExec wArena7 0 wSets7).toOption.getD []

/-- A pending match submitted to the generic update service. -/
def wUpd7 : MatchRec := { code := "A1", roundNumber := 1 }

/-- A small scheduling window: one day, one court, one hour, 60-minute
matches. -/
def wParams7 : SchedParams :=
  { startDay := 0
    endDay := 0
    startHour := 8
    endHour := 9
    availableCourts := 1
    durationMinutes := 60 }

/-- The global pass's only effect on a row outside its own enumeration:
a rewrite of `global_position`. -/
def gposRewrite (u : GroupStanding → Option Nat) (s : GroupStanding) :
    GroupStanding :=
  { s with globalPosition := u s }

/-- A concrete global-position rewrite used in witnesses. -/
def c10u : GroupStanding → Option Nat := fun s => some s.player

/-- A three-row group used to instantiate the standings theorems. -/
def c6Group : TournamentGroup :=
  { groupNumber := 1
    name := "Group A"
    standings := [{ player := 1 }, { player := 2 }, { player := 3 }] }

/-- A completed 15–5 set won by the given side. -/
def c6Set (n : Nat) (w : SWinner) : SetRec :=
  { setNumber := n
    player1Score := 15
    player2Score := 5
    winner := some w
    completed := true }

/-- Three completed group matches: player 1 beats 2, player 3 beats 2 and
takes a three-set match from player 1. -/
def c6Matches : List MatchRec :=
  [{ code := "G1"
     roundNumber := -1
     player1 := some 1
     player2 := some 2
     winner := some 1
     status := .completed
     sets := [c6Set 1 .player1, c6Set 2 .player1] },
   { code := "G2"
     roundNumber := -1
     player1 := some 2
     player2 := some 3
     winner := some 3
     status := .completed
     sets := [c6Set 1 .player2, c6Set 2 .player2] },
   { code := "G3"
     roundNumber := -1
     player1 := some 1
     player2 := some 3
     winner := some 3
     status := .completed
     sets := [c6Set 1 .player2, c6Set 2 .player1, c6Set 3 .player2] }]

/-! ## Theorems -/

/-- Folding a step that increments a numeric projection by `d` per input. -/
theorem foldl_proj_eq {σ β : Type _} (f : σ → β → σ) (g : σ → Nat) (d : Nat)
    (h : ∀ s b, g (f s b) = g s + d) :
    ∀ (l : List β) (s : σ), g (l.foldl f s) = g s + d * l.length := by
  intro l
  induction l with
  | nil => intro s; simp
  | cons x xs ih =>
    intro s
    simp only [List.foldl_cons, List.length_cons]
    rw [ih, h]
    ring

theorem setNextM_length (l : List MatchRec) (i j : Nat) :
    (setNextM l i j).length = l.length := by
  unfold setNextM
  cases l[i]? <;> simp

theorem genMatchCode_arena (st : GenState) (b : Bool) :
    (genMatchCode st b).2.arena = st.arena := by
  unfold genMatchCode
  cases b <;> simp

theorem prelimStep_spec (cfg : BracketConfig) (ps : List Participant)
    (acc : List Nat × GenState) (i : Nat) :
    (prelimStep cfg ps acc i).1.length = acc.1.length + 1 ∧
    (prelimStep cfg ps acc i).2.arena.length = acc.2.arena.length + 1 := by
  unfold prelimStep GenState.newMatch
  simp [genMatchCode_arena]

theorem frStep_spec (cfg : BracketConfig) (direct : List Participant)
    (mainStart : Int) (acc : List Nat × GenState × Nat) (u : Nat) :
    (frStep cfg direct mainStart acc u).1.length = acc.1.length + 1 ∧
    (frStep cfg direct mainStart acc u).2.1.arena.length
      = acc.2.1.arena.length + 1 := by
  unfold frStep GenState.newMatch
  simp [genMatchCode_arena]

theorem linkStep_spec (prelimIdxs : List Nat) (acc : GenState × Nat)
    (fidx : Nat) :
    (linkStep prelimIdxs acc fidx).1.arena.length = acc.1.arena.length := by
  unfold linkStep
  cases prelimIdxs[acc.2]? with
  | none => rfl
  | some pIdx =>
    cases acc.1.arena[fidx]? with
    | none => rfl
    | some fm =>
      by_cases h1 : fm.player1 = none
      · simp [h1, setNextM_length]
      · by_cases h2 : fm.player2 = none <;> simp [h1, h2, setNextM_length]

theorem pairStep_spec (cfg : BracketConfig) (roundNum : Int) (prev : List Nat)
    (acc2 : List Nat × GenState) (i : Nat) :
    (pairStep cfg roundNum prev acc2 i).1.length = acc2.1.length + 1 ∧
    (pairStep cfg roundNum prev acc2 i).2.arena.length
      = acc2.2.arena.length + 1 := by
  unfold pairStep GenState.newMatch
  rcases hA : prev[2 * i]? with _ | m1 <;> rcases hB : prev[2 * i + 1]? with _ | m2 <;>
    simp [hA, hB, genMatchCode_arena, setNextM_length]

/-- The later-rounds loop: starting from a previous round of `2 ^ c`
matches and folding over `c` outer iterations creates exactly `2 ^ c - 1`
matches. -/
theorem rounds_count (cfg : BracketConfig) (mainStart : Int) :
    ∀ (l : List Nat) (all prev : List Nat) (st : GenState),
    prev.length = 2 ^ l.length →
    (l.foldl (roundStep cfg mainStart) (all, st, prev)).1.length
        = all.length + (2 ^ l.length - 1) ∧
    (l.foldl (roundStep cfg mainStart) (all, st, prev)).2.1.arena.length
        = st.arena.length + (2 ^ l.length - 1) := by
  intro l
  induction l with
  | nil => intro all prev st _; simp
  | cons x xs ih =>
    intro all prev st hp
    simp only [List.foldl_cons]
    have hstep : roundStep cfg mainStart (all, st, prev) x
        = (all ++ ((List.range ((prev.length + 1) / 2)).foldl
              (pairStep cfg (mainStart + ((x : Int) + 1)) prev) ([], st)).1,
           ((List.range ((prev.length + 1) / 2)).foldl
              (pairStep cfg (mainStart + ((x : Int) + 1)) prev) ([], st)).2,
           ((List.range ((prev.length + 1) / 2)).foldl
              (pairStep cfg (mainStart + ((x : Int) + 1)) prev) ([], st)).1) := by
      rfl
    set res := (List.range ((prev.length + 1) / 2)).foldl
      (pairStep cfg (mainStart + ((x : Int) + 1)) prev) ([], st) with hres
    have hlen1 : res.1.length = (prev.length + 1) / 2 := by
      rw [hres]
      have := foldl_proj_eq (pairStep cfg (mainStart + ((x : Int) + 1)) prev)
        (fun a => a.1.length) 1
        (fun s b => (pairStep_spec cfg _ prev s b).1)
        (List.range ((prev.length + 1) / 2)) ([], st)
      simpa using this
    have hlen2 : res.2.arena.length = st.arena.length + (prev.length + 1) / 2 := by
      rw [hres]
      have := foldl_proj_eq (pairStep cfg (mainStart + ((x : Int) + 1)) prev)
        (fun a => a.2.arena.length) 1
        (fun s b => (pairStep_spec cfg _ prev s b).2)
        (List.range ((prev.length + 1) / 2)) ([], st)
      simpa using this
    have hpow : 2 ^ (xs.length + 1) = 2 * 2 ^ xs.length := by ring
    have hhalf : (prev.length + 1) / 2 = 2 ^ xs.length := by
      rw [hp]
      simp only [List.length_cons] at *
      omega
    have hres1 : res.1.length = 2 ^ xs.length := by rw [hlen1, hhalf]
    have := ih (all ++ res.1) res.1 res.2 hres1
    rw [hstep]
    refine ⟨?_, ?_⟩
    · rw [this.1]
      have h1 : (1 : Nat) ≤ 2 ^ xs.length := Nat.one_le_two_pow
      simp only [List.length_append, List.length_cons, hres1, hpow]
      omega
    · rw [this.2, hlen2, hhalf]
      have h1 : (1 : Nat) ≤ 2 ^ xs.length := Nat.one_le_two_pow
      simp only [List.length_cons, hpow]
      omega

/-- Fuel sufficiency of `log2fuel` on exact powers of two. -/
theorem log2fuel_pow (k : Nat) : ∀ fuel, 2 ^ k ≤ fuel → log2fuel fuel (2 ^ k) = k := by
  induction k with
  | zero =>
    intro fuel h
    rcases fuel with _ | f
    · omega
    · simp [log2fuel]
  | succ k ih =>
    intro fuel h
    have hk : (2 : Nat) ≤ 2 ^ (k + 1) := by
      have h1 : (2 : Nat) ^ 1 ≤ 2 ^ (k + 1) := Nat.pow_le_pow_right (by norm_num) (by omega)
      simpa using h1
    rcases fuel with _ | f
    · omega
    · simp only [log2fuel, if_pos hk]
      have hdiv : 2 ^ (k + 1) / 2 = 2 ^ k := by
        rw [pow_succ, Nat.mul_div_cancel _ (by norm_num)]
      have hlt : 2 ^ k < 2 ^ (k + 1) := Nat.pow_lt_pow_right (by norm_num) (by omega)
      rw [hdiv, ih f (by omega)]

theorem pow2Below_go_spec (n : Nat) :
    ∀ (fuel p : Nat), 0 < p → p ≤ n → n < p * 2 ^ fuel →
    (∃ j, pow2Below.go n fuel p = p * 2 ^ j) ∧
    pow2Below.go n fuel p ≤ n ∧ n < 2 * pow2Below.go n fuel p := by
  intro fuel
  induction fuel with
  | zero =>
    intro p hp hpn hlt
    simp at hlt
    omega
  | succ f ih =>
    intro p hp hpn hlt
    simp only [pow2Below.go]
    split
    · rename_i h2p
      have hlt' : n < 2 * p * 2 ^ f := by
        rw [pow_succ] at hlt
        calc n < p * (2 ^ f * 2) := hlt
        _ = 2 * p * 2 ^ f := by ring
      obtain ⟨⟨j, hj⟩, hle, hlt2⟩ := ih (2 * p) (by omega) h2p hlt'
      exact ⟨⟨j + 1, by rw [hj]; ring⟩, hle, hlt2⟩
    · rename_i h2p
      exact ⟨⟨0, by simp⟩, hpn, by omega⟩

theorem pow2Below_spec (n : Nat) (h : 1 ≤ n) :
    (∃ k, pow2Below n = 2 ^ k) ∧ pow2Below n ≤ n ∧ n < 2 * pow2Below n := by
  have hpow : n < 1 * 2 ^ n := by
    simpa using Nat.lt_two_pow n
  have := pow2Below_go_spec n n 1 one_pos h hpow
  simpa [pow2Below] using this

/-- Match count of `generate_single_elimination_bracket`: `excess`
preliminary matches plus `K/2 + K/4 + ... + 1 = K - 1` main-bracket
matches, for a total of `N - 1`. -/
theorem genSE_count (cfg : BracketConfig) (ps : List Participant)
    (st0 : GenState) (h : 2 ≤ ps.length) :
    (genSE cfg ps st0).1.length = ps.length - 1 ∧
    (genSE cfg ps st0).2.arena.length
      = st0.arena.length + (ps.length - 1) := by
  obtain ⟨⟨k, hK⟩, hKle, hKlt⟩ := pow2Below_spec ps.length (by omega)
  have hK2 : 2 ≤ pow2Below ps.length := by omega
  have hk1 : 1 ≤ k := by
    rcases k with _ | k
    · rw [hK] at hK2; norm_num at hK2
    · omega
  have hlog : log2fuel (pow2Below ps.length) (pow2Below ps.length) = k := by
    rw [hK]
    exact log2fuel_pow k (2 ^ k) le_rfl
  have hhalf : pow2Below ps.length / 2 = 2 ^ (k - 1) := by
    rcases k with _ | k
    · omega
    · rw [hK, pow_succ, Nat.mul_div_cancel _ (by norm_num)]
      simp
  unfold genSE
  rw [if_neg (by omega)]
  simp only []
  set e := ps.length - pow2Below ps.length with he
  set pr := (List.range e).foldl (prelimStep cfg ps) ([], st0) with hpr
  have hpr1 : pr.1.length = e := by
    rw [hpr]
    have := foldl_proj_eq (prelimStep cfg ps) (fun a => a.1.length) 1
      (fun s b => (prelimStep_spec cfg ps s b).1) (List.range e) ([], st0)
    simpa using this
  have hpr2 : pr.2.arena.length = st0.arena.length + e := by
    rw [hpr]
    have := foldl_proj_eq (prelimStep cfg ps) (fun a => a.2.arena.length) 1
      (fun s b => (prelimStep_spec cfg ps s b).2) (List.range e) ([], st0)
    simpa using this
  set mainStart : Int := if 0 < e then 2 else 1 with hms
  set fr := (List.range (pow2Below ps.length / 2)).foldl
    (frStep cfg (ps.drop (2 * e)) mainStart) ([], pr.2, 0) with hfr
  have hfr1 : fr.1.length = pow2Below ps.length / 2 := by
    rw [hfr]
    have := foldl_proj_eq (frStep cfg (ps.drop (2 * e)) mainStart)
      (fun a => a.1.length) 1
      (fun s b => (frStep_spec cfg _ mainStart s b).1)
      (List.range (pow2Below ps.length / 2)) ([], pr.2, 0)
    simpa using this
  have hfr2 : fr.2.1.arena.length = pr.2.arena.length + pow2Below ps.length / 2 := by
    rw [hfr]
    have := foldl_proj_eq (frStep cfg (ps.drop (2 * e)) mainStart)
      (fun a => a.2.1.arena.length) 1
      (fun s b => (frStep_spec cfg _ mainStart s b).2)
      (List.range (pow2Below ps.length / 2)) ([], pr.2, 0)
    simpa using this
  set st3 := if 0 < e then (fr.1.foldl (linkStep pr.1) (fr.2.1, 0)).1
    else fr.2.1 with hst3
  have hst3a : st3.arena.length = fr.2.1.arena.length := by
    rw [hst3]
    split
    · have := foldl_proj_eq (linkStep pr.1) (fun a => a.1.arena.length) 0
        (fun s b => by simpa using linkStep_spec pr.1 s b)
        fr.1 (fr.2.1, 0)
      simpa using this
    · rfl
  have hnr : (if pow2Below ps.length > 1 then
      log2fuel (pow2Below ps.length) (pow2Below ps.length) else 1) = k := by
    rw [if_pos (by omega), hlog]
  rw [hnr]
  set la := (List.range (k - 1)).foldl (roundStep cfg mainStart)
    ([], st3, fr.1) with hla
  have hfrlen : fr.1.length = 2 ^ (List.range (k - 1)).length := by
    rw [hfr1, hhalf]
    simp
  have hrc := rounds_count cfg mainStart (List.range (k - 1)) [] fr.1 st3 hfrlen
  rw [← hla] at hrc
  have hKval : 2 ^ k = pow2Below ps.length := hK.symm
  have hpow2 : 2 ^ k = 2 * 2 ^ (k - 1) := by
    rcases k with _ | k
    · omega
    · simp [pow_succ]
      ring
  have h2k1 : (1 : Nat) ≤ 2 ^ (k - 1) := Nat.one_le_two_pow
  have hlen : (List.range (k - 1)).length = k - 1 := by simp
  constructor
  · simp only [List.length_append]
    rw [hpr1, hfr1, hrc.1, hlen, hhalf]
    simp only [List.length_nil]
    omega
  · rw [hrc.2, hst3a, hfr2, hpr2, hlen, hhalf]
    omega

/-- C1 — For every participant list of size `N ≥ 2`, single-elimination
bracket generation creates exactly `N - 1` matches in total (preliminary
round included), and the winners-bracket section of the double-elimination
builder (which reuses the same builder) also has `N - 1` matches. -/
theorem bracket_match_count (cfg : BracketConfig) (ps : List Participant)
    (h : 2 ≤ ps.length) :
    (generateSingleEliminationBracket cfg ps).length = ps.length - 1 ∧
    (genDE cfg ps).winners.length = ps.length - 1 := by
  constructor
  · unfold generateSingleEliminationBracket
    have h1 := (genSE_count cfg ps {} h).2
    simpa using h1
  · have h2 := (genSE_count cfg ps { GenState.mk [] 1 1 with counter := 1 } h).1
    exact h2

/-- Witness for `bracket_match_count` at five singles participants
(the spec's own scenario: 1 preliminary + 2 first-round + 1 final = 4). -/
theorem bracket_match_count_witness :
    2 ≤ ([⟨1, none⟩, ⟨2, none⟩, ⟨3, none⟩, ⟨4, none⟩, ⟨5, none⟩] :
      List Participant).length ∧
    (generateSingleEliminationBracket {}
      [⟨1, none⟩, ⟨2, none⟩, ⟨3, none⟩, ⟨4, none⟩, ⟨5, none⟩]).length = 4 ∧
    (genDE {} [⟨1, none⟩, ⟨2, none⟩, ⟨3, none⟩, ⟨4, none⟩, ⟨5, none⟩]).winners.length
      = 4 :=
  ⟨by decide,
   (bracket_match_count {} _ (by decide)).1,
   (bracket_match_count {} _ (by decide)).2⟩

/-- C2 (code bug) — With 6 participants, single-elimination generation
leaves the second preliminary match (`M2`) with a null `nextMatchRef`: the
linking loop advances through at most one preliminary match per
first-main-round match, so when a first-round match has two empty slots
(here `M4`) only one preliminary match is linked into it and the others
dangle, contradicting both the claim and the code's own comment that each
preliminary winner goes to the first available slot. -/
theorem prelim_match_left_unlinked :
    ((generateSingleEliminationBracket {}
        [⟨10, none⟩, ⟨20, none⟩, ⟨30, none⟩, ⟨40, none⟩, ⟨50, none⟩, ⟨60, none⟩]).filter
      (fun m => m.roundNumber = 1)).map (fun m => (m.code, m.nextMatch))
      = [("M1", some 3), ("M2", none)] := by decide

/-- C3 (code bug) — In a 2-participant double-elimination bracket,
completing winners-round-1 match `M1` (players 10, 20; three 15–0 sets)
propagates the winner to the grand final but places the loser nowhere: the
round-1 losers-bracket match `LM1` still has both player slots null,
because `update_match_status` only fills the `next_match` of the completed
match with the *winner*; no code ever routes a loser into the losers
bracket. -/
theorem loser_never_dropped_to_losers_bracket :
    (let res := (matchScoreExec (genDE {} [⟨10, none⟩, ⟨20, none⟩]).arena 0
        [(1, 15, 0), (2, 15, 0), (3, 15, 0)]).toOption
     (res.map (fun a => a.map (fun m => (m.code, m.isLosersBracket)))
        = some [("M1", false), ("LM1", true), ("GF1", false)]) ∧
     (res.map (fun a => a.map (fun m => (m.status, m.winner)))
        = some [(MStatus.completed, some 10), (MStatus.pending, none),
                (MStatus.pending, none)]) ∧
     (res.map (fun a => a.map (fun m => (m.player1, m.player2)))
        = some [(some 10, some 20), (none, none), (some 10, none)])) := by
  refine ⟨by decide, by decide, by decide⟩

/-- C5 — When match A (at arena index `i`) with `nextMatchRef = B` (at
index `j`) is completed with winner slot `w`, `B.player1` is set to `w` if
it was null; otherwise `B.player2` is set to `w` if null; an already-filled
slot is never overwritten (both filled: `B` unchanged); and apart from the
filled player slot (and its partner slot, only possible for doubles) every
other field of `B` is unchanged.  A itself becomes Completed with winner
`w`. -/
theorem completion_fills_first_empty_slot
    (arena : List MatchRec) (i j : Nat) (m b : MatchRec) (w wp : Option Nat)
    (hm : arena[i]? = some m)
    (hnext : m.nextMatch = some j)
    (hij : j ≠ i)
    (hb : arena[j]? = some b)
    (hw : calculateWinner m = some (w, wp)) :
    ∃ b', (updateMatchStatus arena i)[j]? = some b' ∧
      (b.player1 = none →
        b'.player1 = w ∧ b'.player2 = b.player2 ∧ b'.partner2 = b.partner2) ∧
      (b.player1 ≠ none → b.player2 = none →
        b'.player2 = w ∧ b'.player1 = b.player1 ∧ b'.partner1 = b.partner1) ∧
      (b.player1 ≠ none → b.player2 ≠ none → b' = b) ∧
      (b'.code = b.code ∧ b'.roundNumber = b.roundNumber ∧
       b'.isLosersBracket = b.isLosersBracket ∧ b'.matchType = b.matchType ∧
       b'.maxSets = b.maxSets ∧ b'.pointsPerSet = b.pointsPerSet ∧
       b'.nextMatch = b.nextMatch ∧ b'.winner = b.winner ∧
       b'.winnerPartner = b.winnerPartner ∧ b'.status = b.status ∧
       b'.sets = b.sets ∧ b'.scheduledAt = b.scheduledAt ∧
       b'.location = b.location) ∧
      (m.matchType = MType.singles →
        b'.partner1 = b.partner1 ∧ b'.partner2 = b.partner2) ∧
      (∃ a', (updateMatchStatus arena i)[i]? = some a' ∧
        a'.status = MStatus.completed ∧ a'.winner = w) := by
  have hjlen : j < arena.length := by
    by_contra hc
    rw [List.getElem?_eq_none (by omega)] at hb
    exact Option.noConfusion hb
  have hilen : i < arena.length := by
    by_contra hc
    rw [List.getElem?_eq_none (by omega)] at hm
    exact Option.noConfusion hm
  refine ⟨fillSlot w wp m.matchType b, ?_, ?_, ?_, ?_, ?_, ?_, ?_⟩
  · unfold updateMatchStatus
    simp only [hm, hw, hnext, hb]
    rw [List.getElem?_set_ne hij.symm, List.getElem?_set_self (by simpa using hjlen)]
  · intro h1
    unfold fillSlot
    rw [if_pos h1]
    by_cases hd : m.matchType = MType.doubles ∧ wp.isSome <;> simp [hd]
  · intro h1 h2
    unfold fillSlot
    rw [if_neg h1, if_pos h2]
    by_cases hd : m.matchType = MType.doubles ∧ wp.isSome <;> simp [hd]
  · intro h1 h2
    unfold fillSlot
    rw [if_neg h1, if_neg h2]
  · unfold fillSlot
    by_cases h1 : b.player1 = none
    · rw [if_pos h1]
      by_cases hd : m.matchType = MType.doubles ∧ wp.isSome <;> simp [hd]
    · rw [if_neg h1]
      by_cases h2 : b.player2 = none
      · rw [if_pos h2]
        by_cases hd : m.matchType = MType.doubles ∧ wp.isSome <;> simp [hd]
      · rw [if_neg h2]
        simp
  · intro hs
    have hd : ¬ (m.matchType = MType.doubles ∧ wp.isSome) := by
      rintro ⟨hd1, -⟩
      rw [hs] at hd1
      exact MType.noConfusion hd1
    unfold fillSlot
    by_cases h1 : b.player1 = none
    · rw [if_pos h1]
      simp [hd]
    · rw [if_neg h1]
      by_cases h2 : b.player2 = none
      · rw [if_pos h2]
        simp [hd]
      · rw [if_neg h2]
        simp
  · refine ⟨{ m with
        winner := w
        winnerPartner := wp
        status := MStatus.completed
        completedAt := true }, ?_, rfl, rfl⟩
    unfold updateMatchStatus
    simp only [hm, hw, hnext, hb]
    rw [List.getElem?_set_self (by simpa using hilen)]

/-- Witness for `completion_fills_first_empty_slot`: a two-match arena
where completing match 0 (players 7 and 8, three decided sets) sends the
winner 7 into slot `player1` of match 1. -/
theorem completion_fills_first_empty_slot_witness :
    ∃ b', (updateMatchStatus
      [{ code := "M1"
         roundNumber := 1
         player1 := some 7
         player2 := some 8
         nextMatch := some 1
         sets := [buildSet 15 1 15 3, buildSet 15 2 15 6, buildSet 15 3 15 2] },
       { code := "M2", roundNumber := 2 }] 0)[1]? = some b' ∧
      b'.player1 = some 7 ∧ b'.player2 = none := by
  obtain ⟨b', hb', hfill, -, -, -, -, -⟩ :=
    completion_fills_first_empty_slot
      [{ code := "M1"
         roundNumber := 1
         player1 := some 7
         player2 := some 8
         nextMatch := some 1
         sets := [buildSet 15 1 15 3, buildSet 15 2 15 6, buildSet 15 3 15 2] },
       { code := "M2", roundNumber := 2 }]
      0 1
      { code := "M1"
        roundNumber := 1
        player1 := some 7
        player2 := some 8
        nextMatch := some 1
        sets := [buildSet 15 1 15 3, buildSet 15 2 15 6, buildSet 15 3 15 2] }
      { code := "M2", roundNumber := 2 }
      (some 7) none
      (by decide) (by decide) (by decide) (by decide) (by decide)
  obtain ⟨h1, h2, h3⟩ := hfill rfl
  exact ⟨b', hb', h1, by rw [h2]⟩

/-- C4 — For each submitted set, the set winner is player1 exactly when
player1's score is strictly greater than player2's score and at least
`points_per_set`, and symmetrically for player2; with `pointsPerSet = 15`,
scores (15, 10) and (16, 14) give winner player1, and (15, 15) gives no set
winner and the stored set is not completed. -/
theorem set_winner_rule (pps s1 s2 : Nat) :
    (determineSetWinner pps s1 s2 = some SWinner.player1 ↔ s1 > s2 ∧ s1 ≥ pps) ∧
    (determineSetWinner pps s1 s2 = some SWinner.player2 ↔ s2 > s1 ∧ s2 ≥ pps) ∧
    determineSetWinner 15 15 10 = some SWinner.player1 ∧
    determineSetWinner 15 16 14 = some SWinner.player1 ∧
    determineSetWinner 15 15 15 = none ∧
    (buildSet 15 1 15 15).winner = none ∧ (buildSet 15 1 15 15).completed = false := by
  refine ⟨?_, ?_, by decide, by decide, by decide, by decide, by decide⟩
  · unfold determineSetWinner
    constructor
    · intro h
      by_cases h1 : s1 > s2 ∧ s1 ≥ pps
      · exact h1
      · simp only [if_neg h1] at h
        by_cases h2 : s2 > s1 ∧ s2 ≥ pps <;> simp [h2] at h
    · intro h; simp [h]
  · unfold determineSetWinner
    constructor
    · intro h
      by_cases h1 : s1 > s2 ∧ s1 ≥ pps
      · simp [h1] at h
      · simp only [if_neg h1] at h
        by_cases h2 : s2 > s1 ∧ s2 ≥ pps
        · exact h2
        · simp [h2] at h
    · intro h
      have h1 : ¬(s1 > s2 ∧ s1 ≥ pps) := by
        intro h1; exact absurd h1.1 (Nat.lt_asymm h.1)
      simp [h1, h]

theorem groupsLoop_ok_bounds :
    ∀ (parts : List (List Participant)) (idx : Nat)
      (acc gs : List TournamentGroup),
    groupsLoop parts idx acc = .ok gs →
    (∀ g ∈ acc, 3 ≤ g.standings.length ∧ g.standings.length ≤ 5) →
    ∀ g ∈ gs, 3 ≤ g.standings.length ∧ g.standings.length ≤ 5 := by
  intro parts
  induction parts with
  | nil =>
    intro idx acc gs hok hacc
    simp only [groupsLoop] at hok
    cases hok
    exact hacc
  | cons p rest ih =>
    intro idx acc gs hok hacc
    simp only [groupsLoop] at hok
    split at hok
    · exact absurd hok (by simp)
    · split at hok
      · exact absurd hok (by simp)
      · rename_i hsmall hlarge
        refine ih (idx + 1) _ gs hok ?_
        intro g hg
        rcases List.mem_append.mp hg with hg | hg
        · exact hacc g hg
        · simp only [List.mem_singleton] at hg
          subst hg
          simp only [List.length_map] at hsmall hlarge ⊢
          constructor <;> omega

theorem groupsLoop_bad_errors :
    ∀ (parts : List (List Participant)) (idx : Nat)
      (acc : List TournamentGroup),
    (∃ p ∈ parts, p.length < 3 ∨ 5 < p.length) →
    ∃ e, groupsLoop parts idx acc = .error e := by
  intro parts
  induction parts with
  | nil =>
    intro idx acc h
    obtain ⟨p, hp, -⟩ := h
    exact absurd hp (List.not_mem_nil p)
  | cons p rest ih =>
    intro idx acc h
    simp only [groupsLoop]
    split
    · exact ⟨_, rfl⟩
    · split
      · exact ⟨_, rfl⟩
      · rename_i hsmall hlarge
        simp only [List.length_map] at hsmall hlarge
        obtain ⟨q, hq, hbad⟩ := h
        rcases List.mem_cons.mp hq with rfl | hq
        · omega
        · exact ih (idx + 1) _ ⟨q, hq, hbad⟩

/-- C9 — Group generation succeeds only when every created group has 3–5
standings: every group of a successful run is within the bound, and (since
the whole service runs in one atomic transaction, modelled by the `Except`
result) a distribution containing any out-of-bound group makes the entire
operation fail, with no groups or standings persisted. -/
theorem group_generation_all_or_nothing (d : DivisionState)
    (minPG maxPG : Nat) :
    (∀ gs, generateGroups d minPG maxPG = Except.ok gs →
       ∀ g ∈ gs, 3 ≤ g.standings.length ∧ g.standings.length ≤ 5) ∧
    ((∃ p ∈ distributeParticipants minPG maxPG d.approved,
        p.length < 3 ∨ 5 < p.length) →
       ∃ e, generateGroups d minPG maxPG = Except.error e) := by
  constructor
  · intro gs hok
    unfold generateGroups at hok
    iterate 7 (split at hok; · exact absurd hok (by simp))
    exact groupsLoop_ok_bounds _ 1 [] gs hok (by simp)
  · intro hbad
    unfold generateGroups
    iterate 7 (split; · exact ⟨_, rfl⟩)
    exact groupsLoop_bad_errors _ 1 [] hbad

/-- Witness for `group_generation_all_or_nothing`: seven approved singles
players are split into groups of sizes 3 and 4 (both within bounds), and a
six-player division with `min = max = 4` distributes as 4 + 2, so the
whole generation fails. -/
theorem group_generation_all_or_nothing_witness :
    (∀ gs, generateGroups
        { format := TFormat.roundRobinKnockout, isPublished := true,
          approved := [⟨1, none⟩, ⟨2, none⟩, ⟨3, none⟩, ⟨4, none⟩,
            ⟨5, none⟩, ⟨6, none⟩, ⟨7, none⟩] } 3 5 = Except.ok gs →
       ∀ g ∈ gs, 3 ≤ g.standings.length ∧ g.standings.length ≤ 5) ∧
    (∃ e, generateGroups
        { format := TFormat.roundRobinKnockout, isPublished := true,
          approved := [⟨1, none⟩, ⟨2, none⟩, ⟨3, none⟩, ⟨4, none⟩,
            ⟨5, none⟩, ⟨6, none⟩] } 4 4 = Except.error e) :=
  ⟨(group_generation_all_or_nothing
      { format := TFormat.roundRobinKnockout, isPublished := true,
        approved := [⟨1, none⟩, ⟨2, none⟩, ⟨3, none⟩, ⟨4, none⟩,
          ⟨5, none⟩, ⟨6, none⟩, ⟨7, none⟩] } 3 5).1,
   (group_generation_all_or_nothing
      { format := TFormat.roundRobinKnockout, isPublished := true,
        approved := [⟨1, none⟩, ⟨2, none⟩, ⟨3, none⟩, ⟨4, none⟩,
          ⟨5, none⟩, ⟨6, none⟩] } 4 4).2 (by decide)⟩

theorem insortBy_perm (lt : α → α → Bool) (a : α) :
    ∀ l : List α, (insortBy lt a l).Perm (a :: l) := by
  intro l
  induction l with
  | nil => simp [insortBy]
  | cons b t ih =>
    simp only [insortBy]
    split
    · exact List.Perm.refl _
    · exact (List.Perm.cons b ih).trans (List.Perm.swap a b t)

theorem stableSortBy_perm (lt : α → α → Bool) (l : List α) :
    (stableSortBy lt l).Perm l := by
  suffices h : ∀ (l acc : List α),
      (l.foldl (fun acc a => insortBy lt a acc) acc).Perm (acc ++ l) by
    simpa using h l []
  intro l
  induction l with
  | nil => intro acc; simp
  | cons a t ih =>
    intro acc
    simp only [List.foldl_cons]
    exact (ih _).trans
      (((insortBy_perm lt a acc).append_right t).trans List.perm_middle.symm)

theorem addBusy_keeps_key (q₀ : Nat) (iv : Nat × Nat)
    (e : Nat × List (Nat × Nat)) :
    (if e.1 = q₀ then (e.1, e.2 ++ [iv]) else e).1 = e.1 := by
  split <;> rfl

theorem lookupSched_addBusy (sc : List (Nat × List (Nat × Nat)))
    (q₀ : Nat) (iv : Nat × Nat) (q : Nat) :
    lookupSched (addBusy sc q₀ iv) q =
      if q = q₀ then lookupSched sc q₀ ++ [iv] else lookupSched sc q := by
  unfold addBusy
  split
  · rename_i hany
    unfold lookupSched
    rw [List.find?_map]
    have hpred : ((fun e => decide (e.1 = q)) ∘
        (fun e => if e.1 = q₀ then (e.1, e.2 ++ [iv]) else e))
        = (fun (e : Nat × List (Nat × Nat)) => decide (e.1 = q)) := by
      funext e
      simp only [Function.comp_apply, addBusy_keeps_key]
    rw [hpred]
    by_cases hq : q = q₀
    · subst hq
      rcases hf : sc.find? (fun e => decide (e.1 = q)) with _ | e
      · rw [List.any_eq_true] at hany
        obtain ⟨e, he, hekey⟩ := hany
        rw [List.find?_eq_none] at hf
        exact absurd hekey (by simpa using hf e he)
      · rw [hf]
        have hekey : e.1 = q := by simpa using List.find?_some hf
        rw [if_pos rfl]
        simp [hekey]
    · rw [if_neg hq]
      rcases hf : sc.find? (fun e => decide (e.1 = q)) with _ | e
      · rw [hf]; rfl
      · rw [hf]
        have hekey : e.1 = q := by simpa using List.find?_some hf
        simp [hekey, hq]
  · rename_i hany
    unfold lookupSched
    rw [List.find?_append]
    by_cases hq : q = q₀
    · subst hq
      have hnone : sc.find? (fun e => decide (e.1 = q)) = none := by
        rw [List.find?_eq_none]
        intro e he
        simp only [decide_eq_true_eq]
        intro hkey
        exact hany (List.any_eq_true.mpr ⟨e, he, by simpa using hkey⟩)
      rw [hnone, if_pos rfl]
      simp [List.find?]
    · rcases hf : sc.find? (fun e => decide (e.1 = q)) with _ | e
      · rw [hf, if_neg hq]
        simp [List.find?, Ne.symm hq]
      · rw [hf, if_neg hq]
        simp

theorem lookupSched_foldl_addBusy_mem (players : List Nat) (iv : Nat × Nat) :
    ∀ (sc : List (Nat × List (Nat × Nat))) (q : Nat) (x : Nat × Nat),
    x ∈ lookupSched sc q →
    x ∈ lookupSched (players.foldl (fun sc q' => addBusy sc q' iv) sc) q := by
  induction players with
  | nil => intro sc q x hx; exact hx
  | cons p t ih =>
    intro sc q x hx
    simp only [List.foldl_cons]
    refine ih _ q x ?_
    rw [lookupSched_addBusy]
    split
    · rename_i hq; subst hq; exact List.mem_append_left _ hx
    · exact hx

theorem lookupSched_foldl_addBusy_self (players : List Nat) (iv : Nat × Nat) :
    ∀ (sc : List (Nat × List (Nat × Nat))) (q : Nat), q ∈ players →
    iv ∈ lookupSched (players.foldl (fun sc q' => addBusy sc q' iv) sc) q := by
  induction players with
  | nil => intro sc q hq; exact absurd hq (List.not_mem_nil q)
  | cons p t ih =>
    intro sc q hq
    simp only [List.foldl_cons]
    rcases List.mem_cons.mp hq with rfl | hq
    · by_cases ht : q ∈ t
      · exact ih _ q ht
      · refine lookupSched_foldl_addBusy_mem t iv _ q iv ?_
        rw [lookupSched_addBusy, if_pos rfl]
        exact List.mem_append_right _ (List.mem_singleton.mpr rfl)
    · exact ih _ q hq

theorem nodup_ne_of_getElem? {l : List α} (h : l.Nodup) {i j : Nat}
    {a b : α} (hij : i ≠ j) (ha : l[i]? = some a) (hb : l[j]? = some b) :
    a ≠ b := by
  intro hab
  subst hab
  rw [List.getElem?_eq_some_iff] at ha hb
  obtain ⟨hi, ha⟩ := ha
  obtain ⟨hj, hb⟩ := hb
  exact hij (h.getElem_inj_iff.mp (ha.trans hb.symm))

theorem mem_genSlots_shape (p : SchedParams) :
    ∀ sl ∈ genSlots p, ∃ d k c,
      d < numDays p ∧ k < numTimes p ∧ c < p.availableCourts ∧
      sl = { start := (p.startDay + d) * 1440 +
               (p.startHour + k * p.durationMinutes)
             stop := (p.startDay + d) * 1440 +
               (p.startHour + k * p.durationMinutes) + p.durationMinutes
             location := "Cancha " ++ toString (c + 1)
             courtId := c + 1 } := by
  intro sl hsl
  unfold genSlots at hsl
  rw [List.mem_flatten] at hsl
  obtain ⟨L, hL, hslL⟩ := hsl
  rw [List.mem_map] at hL
  obtain ⟨d, hd, rfl⟩ := hL
  unfold daySlots at hslL
  rw [List.mem_flatten] at hslL
  obtain ⟨T, hT, hslT⟩ := hslL
  rw [List.mem_map] at hT
  obtain ⟨k, hk, rfl⟩ := hT
  unfold courtSlots at hslT
  rw [List.mem_map] at hslT
  obtain ⟨c, hc, rfl⟩ := hslT
  rw [List.mem_range] at hd hk hc
  exact ⟨d, k, c, hd, hk, hc, rfl⟩

theorem sortedSlots_stop (p : SchedParams) :
    ∀ (i : Nat) (sl : Slot), (sortedSlots p)[i]? = some sl →
      sl.stop = sl.start + p.durationMinutes := by
  intro i sl hi
  have hmem : sl ∈ sortedSlots p := List.getElem?_mem hi
  have hmem' : sl ∈ genSlots p := (stableSortBy_perm _ _).mem_iff.mp hmem
  obtain ⟨d, k, c, -, -, -, rfl⟩ := mem_genSlots_shape p sl hmem'
  rfl

theorem time_bound (p : SchedParams) (hdur : 0 < p.durationMinutes)
    (k : Nat) (hk : k < numTimes p) :
    p.startHour + k * p.durationMinutes + p.durationMinutes ≤ p.endHour := by
  unfold numTimes at hk
  rw [if_neg (by omega)] at hk
  have h1 : k + 1 ≤ (p.endHour - p.startHour) / p.durationMinutes := hk
  have h2 : (k + 1) * p.durationMinutes ≤
      ((p.endHour - p.startHour) / p.durationMinutes) * p.durationMinutes :=
    Nat.mul_le_mul_right _ h1
  have h3 : ((p.endHour - p.startHour) / p.durationMinutes) *
      p.durationMinutes ≤ p.endHour - p.startHour := Nat.div_mul_le_self _ _
  have h4 : (k + 1) * p.durationMinutes = k * p.durationMinutes +
      p.durationMinutes := by ring
  omega

theorem nodup_genSlots_keys (p : SchedParams) (hdur : 0 < p.durationMinutes)
    (hend : p.endHour ≤ 1440) :
    ((genSlots p).map (fun sl => (sl.start, sl.courtId))).Nodup := by
  unfold genSlots
  rw [List.map_flatten, List.nodup_flatten]
  refine ⟨?_, ?_⟩
  · intro l hl
    rw [List.map_map, List.mem_map] at hl
    obtain ⟨d, -, rfl⟩ := hl
    simp only [Function.comp_apply]
    unfold daySlots
    rw [List.map_flatten, List.nodup_flatten]
    refine ⟨?_, ?_⟩
    · intro l2 hl2
      rw [List.map_map, List.mem_map] at hl2
      obtain ⟨k, -, rfl⟩ := hl2
      simp only [Function.comp_apply]
      unfold courtSlots
      rw [List.map_map]
      refine List.Nodup.map ?_ (List.nodup_range _)
      intro c1 c2 hc
      simpa using congrArg Prod.snd hc
    · rw [List.map_map, List.pairwise_map]
      refine (List.pairwise_lt_range _).imp ?_
      intro k1 k2 h12
      simp only [Function.comp_apply]
      rw [List.disjoint_left]
      intro x hx1 hx2
      rw [List.mem_map] at hx1 hx2
      obtain ⟨sl1, hsl1, rfl⟩ := hx1
      obtain ⟨sl2, hsl2, hkey⟩ := hx2
      unfold courtSlots at hsl1 hsl2
      rw [List.mem_map] at hsl1 hsl2
      obtain ⟨c1, -, rfl⟩ := hsl1
      obtain ⟨c2, -, rfl⟩ := hsl2
      have hfst : (p.startDay + d) * 1440 +
          (p.startHour + k2 * p.durationMinutes) = (p.startDay + d) * 1440 +
          (p.startHour + k1 * p.durationMinutes) := by
        simpa using congrArg Prod.fst hkey
      have hne : k1 * p.durationMinutes ≠ k2 * p.durationMinutes := by
        intro he
        exact absurd (Nat.eq_of_mul_eq_mul_right hdur he) (by omega)
      omega
  · rw [List.map_map, List.pairwise_map]
    refine (List.pairwise_lt_range _).imp ?_
    intro d1 d2 h12
    simp only [Function.comp_apply]
    rw [List.disjoint_left]
    intro x hx1 hx2
    unfold daySlots at hx1 hx2
    rw [List.map_flatten, List.mem_flatten] at hx1 hx2
    obtain ⟨l1, hl1, hx1⟩ := hx1
    obtain ⟨l2, hl2, hx2⟩ := hx2
    rw [List.map_map, List.mem_map] at hl1 hl2
    obtain ⟨k1, hk1, rfl⟩ := hl1
    obtain ⟨k2, hk2, rfl⟩ := hl2
    rw [List.mem_range] at hk1 hk2
    simp only [Function.comp_apply] at hx1 hx2
    rw [List.mem_map] at hx1 hx2
    obtain ⟨sl1, hsl1, rfl⟩ := hx1
    obtain ⟨sl2, hsl2, hkey⟩ := hx2
    unfold courtSlots at hsl1 hsl2
    rw [List.mem_map] at hsl1 hsl2
    obtain ⟨c1, -, rfl⟩ := hsl1
    obtain ⟨c2, -, rfl⟩ := hsl2
    have hfst : (p.startDay + d2) * 1440 +
        (p.startHour + k2 * p.durationMinutes) = (p.startDay + d1) * 1440 +
        (p.startHour + k1 * p.durationMinutes) := by
      simpa using congrArg Prod.fst hkey
    have hb1 := time_bound p hdur k1 hk1
    have hb2 := time_bound p hdur k2 hk2
    omega

theorem findSlotIdx_spec (slots : List Slot) (used : List Nat)
    (scheds : List (Nat × List (Nat × Nat))) (players : List Nat) (i : Nat)
    (hfind : findSlotIdx slots used scheds players = some i) :
    i ∉ used ∧ ∃ sl, slots[i]? = some sl ∧
      hasConflict scheds players sl.start sl.stop = false := by
  unfold findSlotIdx at hfind
  have hpred := List.find?_some hfind
  by_cases hc : used.contains i = true
  · rw [if_pos hc] at hpred
    exact absurd hpred (by simp)
  · rw [if_neg hc] at hpred
    rcases hsl : slots[i]? with _ | sl
    · rw [hsl] at hpred
      exact absurd hpred (by simp)
    · rw [hsl] at hpred
      refine ⟨by simpa using hc, sl, rfl, ?_⟩
      simpa using hpred

theorem hasConflict_false_spec (scheds : List (Nat × List (Nat × Nat)))
    (players : List Nat) (s e : Nat)
    (h : hasConflict scheds players s e = false) :
    ∀ q ∈ players, ∀ b ∈ lookupSched scheds q, e ≤ b.1 ∨ b.2 ≤ s := by
  intro q hq b hb
  unfold hasConflict at h
  rw [List.any_eq_false] at h
  have h2 := h q hq
  rw [Bool.not_eq_true, List.any_eq_false] at h2
  have h3 := h2 b hb
  simp only [overlapsIv, decide_eq_true_eq, not_and, not_lt] at h3
  by_cases hs : s < b.2
  · exact Or.inl (h3 hs)
  · exact Or.inr (by omega)

theorem matchPlayers_assign (m : MatchRec) (s : Nat) (loc : String) :
    matchPlayers { m with scheduledAt := some s, location := some loc }
      = matchPlayers m := rfl

theorem schedStep_inv (slots : List Slot) (dur : Nat)
    (hS1 : ∀ (i : Nat) (sl : Slot), slots[i]? = some sl →
      sl.stop = sl.start + dur)
    (hS2 : ∀ (i j : Nat) (si sj : Slot), slots[i]? = some si →
      slots[j]? = some sj → i ≠ j →
      (si.start, si.courtId) ≠ (sj.start, sj.courtId))
    (acc : SchedAcc) (m : MatchRec) (hm : m.scheduledAt = none)
    (hinv : SchedInv slots dur acc) :
    SchedInv slots dur (schedStep slots acc m) := by
  obtain ⟨hnodup, hcorr, hbusy, hpw⟩ := hinv
  have hskip : SchedInv slots dur (acc.1 ++ [m], acc.2.1, acc.2.2) := by
    refine ⟨hnodup, ?_, ?_, ?_⟩
    · intro m₀ hm₀ s₀ hs₀
      rcases List.mem_append.mp hm₀ with h | h
      · exact hcorr m₀ h s₀ hs₀
      · rw [List.mem_singleton] at h
        subst h
        rw [hm] at hs₀
        exact Option.noConfusion hs₀
    · intro m₀ hm₀ s₀ hs₀
      rcases List.mem_append.mp hm₀ with h | h
      · exact hbusy m₀ h s₀ hs₀
      · rw [List.mem_singleton] at h
        subst h
        rw [hm] at hs₀
        exact Option.noConfusion hs₀
    · rw [List.pairwise_append]
      refine ⟨hpw, List.pairwise_singleton _ _, ?_⟩
      intro m₀ hm₀ m₁ hm₁
      rw [List.mem_singleton] at hm₁
      subst hm₁
      constructor
      · intro s₀ s₁ hs₀ hs₁
        rw [hm] at hs₁
        exact Option.noConfusion hs₁
      · intro s₀ s₁ hs₀ hs₁
        rw [hm] at hs₁
        exact Option.noConfusion hs₁
  rcases hempty : slots.isEmpty with _ | _
  case true =>
    have heq : schedStep slots acc m = (acc.1 ++ [m], acc.2.1, acc.2.2) := by
      simp only [schedStep, hempty]
      rfl
    rw [heq]
    exact hskip
  case false =>
  rcases hfind : findSlotIdx slots acc.2.1 acc.2.2 (matchPlayers m)
      with _ | i
  · have heq : schedStep slots acc m = (acc.1 ++ [m], acc.2.1, acc.2.2) := by
      simp only [schedStep, hempty, hfind]
      rfl
    rw [heq]
    exact hskip
  · obtain ⟨hiused, sl, hsl, hconf⟩ := findSlotIdx_spec _ _ _ _ i hfind
    have heq : schedStep slots acc m =
        (acc.1 ++ [{ m with scheduledAt := some sl.start,
                            location := some sl.location }],
         acc.2.1 ++ [i],
         (matchPlayers m).foldl
           (fun sc q => addBusy sc q (sl.start, sl.stop)) acc.2.2) := by
      simp only [schedStep, hempty, hfind, hsl]
      rfl
    rw [heq]
    clear heq
    have hstop := hS1 i sl hsl
    have hover := hasConflict_false_spec _ _ _ _ hconf
    refine ⟨?_, ?_, ?_, ?_⟩
    · simp only [List.nodup_append, List.nodup_singleton]
      exact ⟨hnodup, trivial, by simpa using fun h => hiused h⟩
    · intro m₀ hm₀ s₀ hs₀
      rcases List.mem_append.mp hm₀ with h | h
      · obtain ⟨i₀, hi₀, sl₀, hsl₀, hst₀, hlo₀⟩ := hcorr m₀ h s₀ hs₀
        exact ⟨i₀, List.mem_append_left _ hi₀, sl₀, hsl₀, hst₀, hlo₀⟩
      · rw [List.mem_singleton] at h
        subst h
        simp only [] at hs₀
        have : s₀ = sl.start := by
          have := hs₀
          simp at this
          omega
        subst this
        exact ⟨i, List.mem_append_right _ (List.mem_singleton.mpr rfl),
          sl, hsl, rfl, rfl⟩
    · intro m₀ hm₀ s₀ hs₀ q hq
      rcases List.mem_append.mp hm₀ with h | h
      · exact lookupSched_foldl_addBusy_mem _ _ _ _ _
          (hbusy m₀ h s₀ hs₀ q hq)
      · rw [List.mem_singleton] at h
        subst h
        have hq' : q ∈ matchPlayers m := by
          rwa [matchPlayers_assign] at hq
        have : s₀ = sl.start := by
          have := hs₀
          simp at this
          omega
        subst this
        rw [← hstop]
        exact lookupSched_foldl_addBusy_self _ _ _ _ hq'
    · rw [List.pairwise_append]
      refine ⟨hpw, List.pairwise_singleton _ _, ?_⟩
      intro m₀ hm₀ m₁ hm₁
      rw [List.mem_singleton] at hm₁
      subst hm₁
      constructor
      · intro s₀ s₁ hs₀ hs₁
        obtain ⟨i₀, hi₀, sl₀, hsl₀, hst₀, hlo₀⟩ := hcorr m₀ hm₀ s₀ hs₀
        have hii : i₀ ≠ i := fun he => hiused (he ▸ hi₀)
        have hs₁' : s₁ = sl.start := by
          have := hs₁
          simp at this
          omega
        subst hs₁'
        exact ⟨i₀, i, sl₀, sl, hii, hsl₀, hsl, hst₀, hlo₀, rfl, rfl,
          hS2 i₀ i sl₀ sl hsl₀ hsl hii⟩
      · intro s₀ s₁ hs₀ hs₁ q hq₀ hq₁
        have hq₁' : q ∈ matchPlayers m := by
          rwa [matchPlayers_assign] at hq₁
        have hb := hbusy m₀ hm₀ s₀ hs₀ q hq₀
        have hd := hover q hq₁' (s₀, s₀ + dur) hb
        have hs₁' : s₁ = sl.start := by
          have := hs₁
          simp at this
          omega
        subst hs₁'
        simp only [] at hd
        omega

theorem foldl_schedStep_inv (slots : List Slot) (dur : Nat)
    (hS1 : ∀ (i : Nat) (sl : Slot), slots[i]? = some sl →
      sl.stop = sl.start + dur)
    (hS2 : ∀ (i j : Nat) (si sj : Slot), slots[i]? = some si →
      slots[j]? = some sj → i ≠ j →
      (si.start, si.courtId) ≠ (sj.start, sj.courtId)) :
    ∀ (ms : List MatchRec) (acc : SchedAcc),
    (∀ m ∈ ms, m.scheduledAt = none) → SchedInv slots dur acc →
    SchedInv slots dur (ms.foldl (schedStep slots) acc) := by
  intro ms
  induction ms with
  | nil => intro acc _ hinv; exact hinv
  | cons m t ih =>
    intro acc hms hinv
    simp only [List.foldl_cons]
    exact ih _ (fun m' hm' => hms m' (List.mem_cons_of_mem m hm'))
      (schedStep_inv slots dur hS1 hS2 acc m
        (hms m (List.mem_cons_self m t)) hinv)

/-- C8 — A scheduling pass never assigns two matches to the same
(time-slot, court) pair, and never assigns any participant two overlapping
intervals `[slotStart, slotStart + duration)`; this holds over all
assignments the pass makes (the consumed slot indices are also pairwise
distinct).  Hypotheses: the input matches are unscheduled, the match
duration is positive (a zero duration would not terminate in the Python
slot-generation loop), and the daily end time is a valid time of day. -/
theorem scheduler_no_double_booking (ms : List MatchRec) (p : SchedParams)
    (hm : ∀ m ∈ ms, m.scheduledAt = none)
    (hdur : 0 < p.durationMinutes) (hend : p.endHour ≤ 1440) :
    List.Pairwise (fun m₁ m₂ => DistinctSlots (sortedSlots p) m₁ m₂ ∧
      NoPlayerOverlap p.durationMinutes m₁ m₂) (scheduleMatches ms p) ∧
    (scheduleMatchesFull ms p).2.1.Nodup := by
  have hS1 := sortedSlots_stop p
  have hS2 : ∀ (i j : Nat) (si sj : Slot), (sortedSlots p)[i]? = some si →
      (sortedSlots p)[j]? = some sj → i ≠ j →
      (si.start, si.courtId) ≠ (sj.start, sj.courtId) := by
    have hnd : ((sortedSlots p).map (fun sl => (sl.start, sl.courtId))).Nodup := by
      refine (List.Perm.nodup_iff ?_).mpr (nodup_genSlots_keys p hdur hend)
      exact (stableSortBy_perm _ _).map _
    intro i j si sj hi hj hij
    refine nodup_ne_of_getElem? hnd hij ?_ ?_
    · rw [List.getElem?_map, hi]
      rfl
    · rw [List.getElem?_map, hj]
      rfl
  have hinv := foldl_schedStep_inv (sortedSlots p) p.durationMinutes hS1 hS2
    ms ([], [], []) hm ⟨List.nodup_nil, by simp, by simp, List.Pairwise.nil⟩
  exact ⟨hinv.2.2.2, hinv.1⟩

/-- Witness for `scheduler_no_double_booking`: three matches sharing player
1 on one day with two courts and two hourly slots. -/
theorem scheduler_no_double_booking_witness :
    List.Pairwise (fun m₁ m₂ =>
      DistinctSlots (sortedSlots
        { startDay := 0
          endDay := 0
          startHour := 540
          endHour := 660
          availableCourts := 2
          durationMinutes := 60 }) m₁ m₂ ∧ NoPlayerOverlap 60 m₁ m₂)
      (scheduleMatches
        [{ code := "A", roundNumber := 1, player1 := some 1, player2 := some 2 },
         { code := "B", roundNumber := 1, player1 := some 1, player2 := some 3 },
         { code := "C", roundNumber := 1, player1 := some 1, player2 := some 4 }]
        { startDay := 0
          endDay := 0
          startHour := 540
          endHour := 660
          availableCourts := 2
          durationMinutes := 60 }) :=
  (scheduler_no_double_booking
    [{ code := "A", roundNumber := 1, player1 := some 1, player2 := some 2 },
     { code := "B", roundNumber := 1, player1 := some 1, player2 := some 3 },
     { code := "C", roundNumber := 1, player1 := some 1, player2 := some 4 }]
    { startDay := 0
      endDay := 0
      startHour := 540
      endHour := 660
      availableCourts := 2
      durationMinutes := 60 }
    (by decide) (by decide) (by decide)).1

theorem foldl_pres {σ β : Type _} (f : σ → β → σ) (P : σ → Prop)
    (hstep : ∀ s b, P s → P (f s b)) :
    ∀ (l : List β) (s : σ), P s → P (l.foldl f s) := by
  intro l
  induction l with
  | nil => intro s h; exact h
  | cons b t ih =>
    intro s h
    simp only [List.foldl_cons]
    exact ih _ (hstep s b h)

theorem arenaOK_append (l : List MatchRec) (m : MatchRec)
    (h : ArenaOK l) (hm : m.status = MStatus.pending ∧ m.winner = none) :
    ArenaOK (l ++ [m]) := by
  intro x hx
  rcases List.mem_append.mp hx with hx | hx
  · exact h x hx
  · rw [List.mem_singleton] at hx
    subst hx
    exact hm

theorem arenaOK_setNextM (l : List MatchRec) (i j : Nat) (h : ArenaOK l) :
    ArenaOK (setNextM l i j) := by
  unfold setNextM
  rcases hi : l[i]? with _ | m
  · exact h
  · intro x hx
    rcases List.mem_or_eq_of_mem_set hx with hx | hx
    · exact h x hx
    · subst hx
      exact h m (List.getElem?_mem hi)

theorem arenaOK_mk (cfg : BracketConfig) (c : String) (r : Int) (lb : Bool)
    (p1 p2 pa1 pa2 : Option Nat) :
    (mkBracketMatch cfg c r lb p1 p2 pa1 pa2).status = MStatus.pending ∧
    (mkBracketMatch cfg c r lb p1 p2 pa1 pa2).winner = none := ⟨rfl, rfl⟩

theorem arenaOK_genSE (cfg : BracketConfig) (ps : List Participant)
    (st0 : GenState) (h : ArenaOK st0.arena) :
    ArenaOK (genSE cfg ps st0).2.arena := by
  simp only [genSE]
  split
  · exact h
  · simp only []
    have hpr : ∀ (acc : List Nat × GenState) (i : Nat),
        ArenaOK acc.2.arena → ArenaOK (prelimStep cfg ps acc i).2.arena := by
      intro acc i ha
      unfold prelimStep GenState.newMatch
      simp only [genMatchCode_arena]
      exact arenaOK_append _ _ ha (arenaOK_mk _ _ _ _ _ _ _ _)
    have hfr : ∀ (acc : List Nat × GenState × Nat) (u : Nat)
        (mainStart : Int),
        ArenaOK acc.2.1.arena →
        ArenaOK (frStep cfg (ps.drop (2 * (ps.length - pow2Below ps.length)))
          mainStart acc u).2.1.arena := by
      intro acc u mainStart ha
      unfold frStep GenState.newMatch
      simp only [genMatchCode_arena]
      exact arenaOK_append _ _ ha (arenaOK_mk _ _ _ _ _ _ _ _)
    have hlink : ∀ (pidx : List Nat) (acc : GenState × Nat) (fi : Nat),
        ArenaOK acc.1.arena → ArenaOK (linkStep pidx acc fi).1.arena := by
      intro pidx acc fi ha
      unfold linkStep
      rcases pidx[acc.2]? with _ | pIdx
      · exact ha
      · rcases acc.1.arena[fi]? with _ | fm
        · exact ha
        · by_cases h1 : fm.player1 = none
          · simp only [if_pos h1]
            exact arenaOK_setNextM _ _ _ ha
          · by_cases h2 : fm.player2 = none <;>
              simp only [if_pos, if_neg, h1, h2, ite_true, ite_false] <;>
              first
                | exact arenaOK_setNextM _ _ _ ha
                | exact ha
    have hpair : ∀ (rn : Int) (prev : List Nat) (acc : List Nat × GenState)
        (i : Nat), ArenaOK acc.2.arena →
        ArenaOK (pairStep cfg rn prev acc i).2.arena := by
      intro rn prev acc i ha
      unfold pairStep GenState.newMatch
      simp only [genMatchCode_arena]
      rcases prev[2 * i]? with _ | m1 <;> rcases prev[2 * i + 1]? with _ | m2 <;>
        simp only [] <;>
        first
          | exact arenaOK_append _ _ ha (arenaOK_mk _ _ _ _ _ _ _ _)
          | exact arenaOK_setNextM _ _ _
              (arenaOK_append _ _ ha (arenaOK_mk _ _ _ _ _ _ _ _))
          | exact arenaOK_setNextM _ _ _ (arenaOK_setNextM _ _ _
              (arenaOK_append _ _ ha (arenaOK_mk _ _ _ _ _ _ _ _)))
    have hround : ∀ (mainStart : Int) (acc : List Nat × GenState × List Nat)
        (t : Nat), ArenaOK acc.2.1.arena →
        ArenaOK (roundStep cfg mainStart acc t).2.1.arena := by
      intro mainStart acc t ha
      unfold roundStep
      simp only []
      exact foldl_pres _ (fun (a : List Nat × GenState) => ArenaOK a.2.arena)
        (fun s b hb => hpair _ _ s b hb) _ (([], acc.2.1)) ha
    refine foldl_pres _ (fun (a : List Nat × GenState × List Nat) =>
        ArenaOK a.2.1.arena) (fun s b hb => hround _ s b hb) _ _ ?_
    split
    · refine foldl_pres _ (fun (a : GenState × Nat) => ArenaOK a.1.arena)
        (fun s b hb => hlink _ s b hb) _ _ ?_
      exact foldl_pres _ (fun (a : List Nat × GenState × Nat) =>
        ArenaOK a.2.1.arena) (fun s b hb => hfr s b _ hb) _ _
        (foldl_pres _ (fun (a : List Nat × GenState) => ArenaOK a.2.arena)
          (fun s b hb => hpr s b hb) _ _ h)
    · exact foldl_pres _ (fun (a : List Nat × GenState × Nat) =>
        ArenaOK a.2.1.arena) (fun s b hb => hfr s b _ hb) _ _
        (foldl_pres _ (fun (a : List Nat × GenState) => ArenaOK a.2.arena)
          (fun s b hb => hpr s b hb) _ _ h)

theorem arenaOK_lbFirstRound (cfg : BracketConfig) (n : Nat)
    (st : GenState) (h : ArenaOK st.arena) :
    ArenaOK (lbFirstRound cfg n st).2.arena := by
  unfold lbFirstRound
  refine foldl_pres _ (fun (a : List Nat × GenState) => ArenaOK a.2.arena)
    ?_ _ _ h
  intro s b hb
  simp only [GenState.newMatch, genMatchCode_arena]
  exact arenaOK_append _ _ hb (arenaOK_mk _ _ _ _ _ _ _ _)

theorem arenaOK_lbPairStep (cfg : BracketConfig) (w : Int) (prevL : List Nat)
    (acc : List Nat × GenState) (i : Nat) (ha : ArenaOK acc.2.arena) :
    ArenaOK (lbPairStep cfg w prevL acc i).2.arena := by
  unfold lbPairStep GenState.newMatch
  simp only [genMatchCode_arena]
  rcases prevL[i]? with _ | pl <;> simp only [] <;>
    first
      | exact arenaOK_append _ _ ha (arenaOK_mk _ _ _ _ _ _ _ _)
      | exact arenaOK_setNextM _ _ _
          (arenaOK_append _ _ ha (arenaOK_mk _ _ _ _ _ _ _ _))

theorem arenaOK_lbRoundStep (cfg : BracketConfig)
    (acc : List Nat × GenState × List Nat) (w : Int)
    (ha : ArenaOK acc.2.1.arena) :
    ArenaOK (lbRoundStep cfg acc w).2.1.arena := by
  unfold lbRoundStep
  simp only []
  exact foldl_pres _ (fun (a : List Nat × GenState) => ArenaOK a.2.arena)
    (fun s b hb => arenaOK_lbPairStep cfg _ _ s b hb) _ _ ha

theorem arenaOK_lbConsolidate (cfg : BracketConfig) (idxs : List Nat)
    (st2 : GenState) (h : ArenaOK st2.arena) :
    ArenaOK (lbConsolidate cfg idxs st2).2.arena := by
  simp only [lbConsolidate]
  split
  · split
    · simp only [GenState.newMatch, genMatchCode_arena]
      refine foldl_pres _ (fun (a : GenState) => ArenaOK a.arena) ?_ _ _ ?_
      · intro s b hb
        exact arenaOK_setNextM _ _ _ hb
      · exact arenaOK_append _ _ h (arenaOK_mk _ _ _ _ _ _ _ _)
    · exact h
  · exact h

theorem arenaOK_genLB (cfg : BracketConfig) (wIdxs : List Nat)
    (st0 : GenState) (h : ArenaOK st0.arena) :
    ArenaOK (genLB cfg wIdxs st0).2.arena := by
  simp only [genLB]
  refine arenaOK_lbConsolidate _ _ _ ?_
  refine foldl_pres _ (fun (a : List Nat × GenState × List Nat) =>
    ArenaOK a.2.1.arena) (fun s b hb => arenaOK_lbRoundStep cfg s b hb) _ _ ?_
  exact arenaOK_lbFirstRound _ _ _ h

theorem arenaOK_createGF (cfg : BracketConfig) (wIdxs lIdxs : List Nat)
    (st : GenState) (h : ArenaOK st.arena) :
    ArenaOK (createGF cfg wIdxs lIdxs st).2.arena := by
  simp only [createGF]
  split
  · exact h
  · simp only [GenState.newMatch]
    split <;>
      first
        | exact arenaOK_setNextM _ _ _ (arenaOK_setNextM _ _ _
            (arenaOK_append _ _ h (arenaOK_mk _ _ _ _ _ _ _ _)))
        | exact arenaOK_setNextM _ _ _
            (arenaOK_append _ _ h (arenaOK_mk _ _ _ _ _ _ _ _))

theorem arenaOK_genDE (cfg : BracketConfig) (ps : List Participant) :
    ArenaOK (genDE cfg ps).arena := by
  simp only [genDE]
  refine arenaOK_createGF _ _ _ _ ?_
  refine arenaOK_genLB _ _ _ ?_
  refine arenaOK_genSE _ _ _ ?_
  intro m hm
  exact absurd hm (List.not_mem_nil m)

theorem calculateWinner_shape (m : MatchRec) (w wp : Option Nat)
    (h : calculateWinner m = some (w, wp)) :
    (w = m.player1 ∧ wp = m.partner1) ∨ (w = m.player2 ∧ wp = m.partner2) := by
  unfold calculateWinner at h
  split at h
  · injection h with h
    injection h with h1 h2
    exact Or.inl ⟨h1.symm, h2.symm⟩
  · split at h
    · injection h with h
      injection h with h1 h2
      exact Or.inr ⟨h1.symm, h2.symm⟩
    · cases h

theorem fillSlot_frame (w wp : Option Nat) (mt : MType) (b : MatchRec) :
    (fillSlot w wp mt b).status = b.status ∧
    (fillSlot w wp mt b).winner = b.winner := by
  unfold fillSlot
  by_cases h1 : b.player1 = none
  · rw [if_pos h1]
    by_cases hd : mt = MType.doubles ∧ wp.isSome <;> simp [hd]
  · rw [if_neg h1]
    by_cases h2 : b.player2 = none
    · rw [if_pos h2]
      by_cases hd : mt = MType.doubles ∧ wp.isSome <;> simp [hd]
    · rw [if_neg h2]
      exact ⟨rfl, rfl⟩

theorem matchUpdateExec_frame (m : MatchRec) (d : MatchUpdateData)
    (m' : MatchRec) (h : matchUpdateExec m d = .ok m') :
    m'.status = m.status ∧ m'.winner = m.winner ∧
    m.status ≠ MStatus.completed := by
  unfold matchUpdateExec at h
  split at h
  · cases h
  · split at h
    · cases h
    · split at h
      · cases h
      · rename_i hnc _ _
        cases h
        exact ⟨rfl, rfl, hnc⟩

theorem schedStep_out (slots : List Slot) (acc : SchedAcc) (m : MatchRec) :
    ∃ x, (schedStep slots acc m).1 = acc.1 ++ [x] ∧
      x.status = m.status ∧ x.winner = m.winner := by
  rcases hempty : slots.isEmpty with _ | _
  case true =>
    refine ⟨m, ?_, rfl, rfl⟩
    simp only [schedStep, hempty]
    rfl
  case false =>
    rcases hfind : findSlotIdx slots acc.2.1 acc.2.2 (matchPlayers m)
      with _ | i
    · refine ⟨m, ?_, rfl, rfl⟩
      simp only [schedStep, hempty, hfind]
      rfl
    · rcases hsl : slots[i]? with _ | sl
      · refine ⟨m, ?_, rfl, rfl⟩
        simp only [schedStep, hempty, hfind, hsl]
        rfl
      · refine ⟨{ m with
            scheduledAt := some sl.start
            location := some sl.location }, ?_, rfl, rfl⟩
        simp only [schedStep, hempty, hfind, hsl]
        rfl

theorem scheduleMatches_frame (ms : List MatchRec) (p : SchedParams) :
    ∀ m' ∈ scheduleMatches ms p,
      ∃ m ∈ ms, m'.status = m.status ∧ m'.winner = m.winner := by
  suffices h : ∀ (t : List MatchRec) (acc : SchedAcc),
      ∀ m' ∈ (t.foldl (schedStep (sortedSlots p)) acc).1,
      m' ∈ acc.1 ∨ ∃ m ∈ t, m'.status = m.status ∧ m'.winner = m.winner by
    intro m' hm'
    rcases h ms ([], [], []) m' hm' with h0 | h0
    · exact absurd h0 (List.not_mem_nil m')
    · exact h0
  intro t
  induction t with
  | nil => intro acc m' hm'; exact Or.inl hm'
  | cons m ts ih =>
    intro acc m' hm'
    simp only [List.foldl_cons] at hm'
    rcases ih _ m' hm' with h0 | h0
    · obtain ⟨x, hx, hxs, hxw⟩ := schedStep_out (sortedSlots p) acc m
      rw [hx] at h0
      rcases List.mem_append.mp h0 with h1 | h1
      · exact Or.inl h1
      · rw [List.mem_singleton] at h1
        subst h1
        exact Or.inr ⟨m, List.mem_cons_self m ts, hxs, hxw⟩
    · obtain ⟨m0, hm0, hfr⟩ := h0
      exact Or.inr ⟨m0, List.mem_cons_of_mem m hm0, hfr⟩

theorem matchScoreExec_winner_inv (arena : List MatchRec) (i : Nat)
    (sd : List SetData) (arena' : List MatchRec)
    (hok : matchScoreExec arena i sd = .ok arena')
    (hinv : ∀ m ∈ arena, m.status = MStatus.completed → m.winner ≠ none)
    (hslots : ∀ mi, arena[i]? = some mi →
      mi.player1 ≠ none ∧ mi.player2 ≠ none) :
    ∀ m' ∈ arena', m'.status = MStatus.completed → m'.winner ≠ none := by
  unfold matchScoreExec at hok
  rcases hm : arena[i]? with _ | m
  · simp only [hm] at hok
    exact Except.noConfusion hok
  · simp only [hm] at hok
    by_cases hnc : m.status = MStatus.completed
    · rw [if_pos hnc] at hok
      cases hok
    · rw [if_neg hnc] at hok
      by_cases hnc2 : m.status = MStatus.cancelled
      · rw [if_pos hnc2] at hok
        cases hok
      · rw [if_neg hnc2] at hok
        have hok' := Except.ok.inj hok
        subst hok'
        set m1 : MatchRec := { m with sets := createOrUpdateSets m sd }
          with hm1
        have hinv1 : ∀ x ∈ arena.set i m1,
            x.status = MStatus.completed → x.winner ≠ none := by
          intro x hx
          rcases List.mem_or_eq_of_mem_set hx with hx | hx
          · exact hinv x hx
          · subst hx
            intro hst
            exact absurd hst hnc
        have hm1i : (arena.set i m1)[i]? = some m1 := by
          have hilen : i < arena.length := by
            by_contra hc
            rw [List.getElem?_eq_none (by omega)] at hm
            exact Option.noConfusion hm
          rw [List.getElem?_set_self (by simpa using hilen)]
        intro m' hm' hst'
        unfold updateMatchStatus at hm'
        simp only [hm1i] at hm'
        rcases hcw : calculateWinner m1 with _ | wpair
        · simp only [hcw] at hm'
          split at hm'
          · rcases List.mem_or_eq_of_mem_set hm' with hx | hx
            · exact hinv1 m' hx hst'
            · subst hx
              simp at hst'
          · exact hinv1 m' hm' hst'
        · rcases wpair with ⟨w, wp⟩
          simp only [hcw] at hm'
          have hw : w ≠ none := by
            rcases calculateWinner_shape m1 w wp hcw with ⟨hw, -⟩ | ⟨hw, -⟩
            · rw [hw]
              exact (hslots m hm).1
            · rw [hw]
              exact (hslots m hm).2
          rcases List.mem_or_eq_of_mem_set hm' with hx | hx
          · rcases hm1n : m.nextMatch with _ | j
            · simp only [hm1n] at hx
              exact hinv1 m' hx hst'
            · simp only [hm1n] at hx
              rcases hbj : (arena.set i m1)[j]? with _ | b
              · simp only [hbj] at hx
                exact hinv1 m' hx hst'
              · simp only [hbj] at hx
                rcases List.mem_or_eq_of_mem_set hx with hy | hy
                · exact hinv1 m' hy hst'
                · subst hy
                  rw [(fillSlot_frame w wp m.matchType b).2]
                  refine hinv1 b (List.getElem?_mem hbj) ?_
                  rw [← (fillSlot_frame w wp m.matchType b).1]
                  exact hst'
          · subst hx
            simpa using hw

/-- Side-1 membership reads only the player and partner columns. -/
theorem onSide1_congr (m : MatchRec) (a b : GroupStanding)
    (hp : a.player = b.player) (hpa : a.partner = b.partner) :
    onSide1 m a = onSide1 m b := by
  unfold onSide1
  rw [hp, hpa]

/-- Side-2 membership reads only the player and partner columns. -/
theorem onSide2_congr (m : MatchRec) (a b : GroupStanding)
    (hp : a.player = b.player) (hpa : a.partner = b.partner) :
    onSide2 m a = onSide2 m b := by
  unfold onSide2
  rw [hp, hpa]

/-- Set tallies read only the player and partner columns. -/
theorem setTally_congr (m : MatchRec) (a b : GroupStanding)
    (hp : a.player = b.player) (hpa : a.partner = b.partner) :
    setTally m a = setTally m b := by
  unfold setTally
  rw [onSide1_congr m a b hp hpa, onSide2_congr m a b hp hpa]

/-- The per-row replay step keeps the identity and position columns. -/
theorem stepStanding_fields (s : GroupStanding) (m : MatchRec) :
    (stepStanding s m).player = s.player ∧
    (stepStanding s m).partner = s.partner ∧
    (stepStanding s m).positionInGroup = s.positionInGroup ∧
    (stepStanding s m).globalPosition = s.globalPosition := by
  unfold stepStanding updateStandingFromMatch
  split
  · split
    · exact ⟨rfl, rfl, rfl, rfl⟩
    · split
      · exact ⟨rfl, rfl, rfl, rfl⟩
      · exact ⟨rfl, rfl, rfl, rfl⟩
  · exact ⟨rfl, rfl, rfl, rfl⟩

/-- Participation is invariant under the per-row replay step. -/
theorem plays_step (n m : MatchRec) (s : GroupStanding) :
    plays n (stepStanding s m) = plays n s := by
  unfold plays
  rw [onSide1_congr n _ s (stepStanding_fields s m).1 (stepStanding_fields s m).2.1,
    onSide2_congr n _ s (stepStanding_fields s m).1 (stepStanding_fields s m).2.1]

/-- The winner flag is invariant under the per-row replay step. -/
theorem winsStep_step (n m : MatchRec) (s : GroupStanding) :
    winsStep n (stepStanding s m) = winsStep n s := by
  unfold winsStep
  rw [onSide1_congr n _ s (stepStanding_fields s m).1 (stepStanding_fields s m).2.1]

/-- Set tallies are invariant under the per-row replay step. -/
theorem setTally_step (n m : MatchRec) (s : GroupStanding) :
    setTally n (stepStanding s m) = setTally n s :=
  setTally_congr n _ s (stepStanding_fields s m).1 (stepStanding_fields s m).2.1

/-- Closed form of the replay fold on one row: counters accumulate over
the played matches by the loop's accounting. -/
theorem foldl_stepStanding_eq (gms : List MatchRec) (s : GroupStanding) :
    gms.foldl stepStanding s = { s with
      matchesPlayed := s.matchesPlayed + (gms.filter (fun m => plays m s)).length
      matchesWon := s.matchesWon +
        (gms.filter (fun m => plays m s && winsStep m s)).length
      matchesLost := s.matchesLost +
        (gms.filter (fun m => plays m s && !winsStep m s)).length
      points := s.points +
        3 * (gms.filter (fun m => plays m s && winsStep m s)).length +
        (gms.filter (fun m => plays m s && !winsStep m s)).length
      setsWon := s.setsWon +
        ((gms.filter (fun m => plays m s)).map (fun m => (setTally m s).1)).sum
      setsLost := s.setsLost +
        ((gms.filter (fun m => plays m s)).map (fun m => (setTally m s).2)).sum } := by
  induction gms generalizing s with
  | nil => rfl
  | cons m t ih =>
    rw [List.foldl_cons, ih (stepStanding s m)]
    simp only [plays_step, winsStep_step, setTally_step]
    rcases hpl : plays m s with _ | _
    case false =>
      have hstep : stepStanding s m = s := by
        unfold stepStanding
        unfold plays at hpl
        rcases hw : m.winner.isSome with _ | _
        · rfl
        · rw [hw] at hpl
          simp only [Bool.true_and] at hpl
          rw [if_pos rfl]
          rcases h1 : onSide1 m s with _ | _
          · rcases h2 : onSide2 m s with _ | _
            · simp
            · rw [h1, h2] at hpl
              cases hpl
          · rw [h1] at hpl
            cases hpl
      rw [hstep]
      have hf1 : List.filter (fun x => plays x s) (m :: t)
          = List.filter (fun x => plays x s) t := by simp [hpl]
      have hf2 : List.filter (fun x => plays x s && winsStep x s) (m :: t)
          = List.filter (fun x => plays x s && winsStep x s) t := by
        simp [List.filter_cons, hpl]
      have hf3 : List.filter (fun x => plays x s && !winsStep x s) (m :: t)
          = List.filter (fun x => plays x s && !winsStep x s) t := by
        simp [List.filter_cons, hpl]
      rw [hf1, hf2, hf3]
    case true =>
      have hw : m.winner.isSome = true := by
        unfold plays at hpl
        rcases hw : m.winner.isSome with _ | _
        · rw [hw] at hpl
          cases hpl
        · rfl
      have hstep : stepStanding s m
          = updateStandingFromMatch s m (winsStep m s) := by
        unfold stepStanding winsStep
        rw [if_pos hw]
        rcases h1 : onSide1 m s with _ | _
        · rcases h2 : onSide2 m s with _ | _
          · exfalso
            unfold plays at hpl
            rw [hw, h1, h2] at hpl
            cases hpl
          · simp
        · simp
      rw [hstep]
      have hf1 : List.filter (fun x => plays x s) (m :: t)
          = m :: List.filter (fun x => plays x s) t := by simp [hpl]
      rcases hwin : winsStep m s with _ | _
      case false =>
        have hf2 : List.filter (fun x => plays x s && winsStep x s) (m :: t)
            = List.filter (fun x => plays x s && winsStep x s) t := by
          simp [List.filter_cons, hpl, hwin]
        have hf3 : List.filter (fun x => plays x s && !winsStep x s) (m :: t)
            = m :: List.filter (fun x => plays x s && !winsStep x s) t := by
          simp [List.filter_cons, hpl, hwin]
        rw [hf1, hf2, hf3]
        cases s
        simp [updateStandingFromMatch, GroupStanding.mk.injEq,
          List.map_cons, List.sum_cons]
        all_goals omega
      case true =>
        have hf2 : List.filter (fun x => plays x s && winsStep x s) (m :: t)
            = m :: List.filter (fun x => plays x s && winsStep x s) t := by
          simp [List.filter_cons, hpl, hwin]
        have hf3 : List.filter (fun x => plays x s && !winsStep x s) (m :: t)
            = List.filter (fun x => plays x s && !winsStep x s) t := by
          simp [List.filter_cons, hpl, hwin]
        rw [hf1, hf2, hf3]
        cases s
        simp [updateStandingFromMatch, GroupStanding.mk.injEq,
          List.map_cons, List.sum_cons]
        all_goals omega

/-- A selected index points at a row satisfying the scan predicate. -/
theorem lastIdxWhere_spec (p : GroupStanding → Bool)
    (l : List GroupStanding) (i : Nat) (h : lastIdxWhere p l = some i) :
    ∃ s, l[i]? = some s ∧ p s = true := by
  induction l generalizing i with
  | nil => cases h
  | cons a t ih =>
    unfold lastIdxWhere at h
    rcases ht : lastIdxWhere p t with _ | j
    · simp only [ht] at h
      rcases hpa : p a with _ | _
      · rw [hpa] at h
        simp at h
      · rw [hpa] at h
        simp at h
        subst h
        exact ⟨a, by simp, hpa⟩
    · simp only [ht] at h
      obtain ⟨s, hs, hps⟩ := ih j ht
      refine ⟨s, ?_, hps⟩
      have : i = j + 1 := by
        cases h
        rfl
      subst this
      simpa using hs

/-- A scan over a list containing a matching row selects some index. -/
theorem lastIdxWhere_isSome (p : GroupStanding → Bool)
    (l : List GroupStanding) (h : ∃ s ∈ l, p s = true) :
    (lastIdxWhere p l).isSome = true := by
  induction l with
  | nil =>
    obtain ⟨s, hs, -⟩ := h
    exact absurd hs (List.not_mem_nil s)
  | cons a t ih =>
    unfold lastIdxWhere
    rcases ht : lastIdxWhere p t with _ | j
    · simp only [ht]
      obtain ⟨s, hs, hps⟩ := h
      rcases List.mem_cons.mp hs with rfl | hs'
      · rw [hps]
        rfl
      · have := ih ⟨s, hs', hps⟩
        rw [ht] at this
        cases this
    · simp [ht]

/-- Distinct indices of a list with pairwise distinct mapped values carry
rows with distinct images. -/
theorem map_nodup_idx_eq {α β : Type _} (f : α → β) (l : List α)
    (hnd : (l.map f).Nodup) (i j : Nat) (a b : α)
    (ha : l[i]? = some a) (hb : l[j]? = some b) (hf : f a = f b) :
    i = j := by
  by_contra hij
  have hma : (l.map f)[i]? = some (f a) := by
    rw [List.getElem?_map, ha]
    rfl
  have hmb : (l.map f)[j]? = some (f b) := by
    rw [List.getElem?_map, hb]
    rfl
  exact nodup_ne_of_getElem? hnd hij hma hmb hf

/-- The replay loop acts on each row independently: with pairwise distinct
players, a match between two of the listed rows updates exactly its two
rows, which is the pointwise step applied to every row. -/
theorem replayMatch_eq_map (l : List GroupStanding) (m : MatchRec)
    (hnd : (l.map (fun s => s.player)).Nodup)
    (h1 : ∃ s ∈ l, onSide1 m s = true)
    (h2 : ∃ s ∈ l, onSide2 m s = true)
    (hne : m.player1 ≠ m.player2) :
    replayMatch l m = l.map (fun s => stepStanding s m) := by
  have hside12 : ∀ s : GroupStanding, onSide1 m s = true →
      onSide2 m s = true → False := by
    intro s hq hp
    unfold onSide1 at hq
    unfold onSide2 at hp
    rw [decide_eq_true_eq] at hq hp
    exact hne (hq.1.trans hp.1.symm)
  have h2' : ∃ s ∈ l, (!onSide1 m s && onSide2 m s) = true := by
    obtain ⟨s, hs, hps⟩ := h2
    refine ⟨s, hs, ?_⟩
    have hof : onSide1 m s = false := by
      rcases hq : onSide1 m s with _ | _
      · rfl
      · exact absurd (hside12 s hq hps) (fun h => h)
    rw [hof, hps]
    rfl
  obtain ⟨i1, hi1⟩ := Option.isSome_iff_exists.mp
    (lastIdxWhere_isSome (fun s => onSide1 m s) l h1)
  obtain ⟨i2, hi2⟩ := Option.isSome_iff_exists.mp
    (lastIdxWhere_isSome (fun s => !onSide1 m s && onSide2 m s) l h2')
  obtain ⟨s1, hs1, hp1⟩ := lastIdxWhere_spec _ l i1 hi1
  obtain ⟨s2, hs2, hp2⟩ := lastIdxWhere_spec _ l i2 hi2
  have hp2s : onSide1 m s2 = false ∧ onSide2 m s2 = true := by
    rcases hq : onSide1 m s2 with _ | _ <;> rw [hq] at hp2
    · exact ⟨rfl, by simpa using hp2⟩
    · simp at hp2
  have hplayer1 : ∀ s : GroupStanding, onSide1 m s = true →
      m.player1 = some s.player := by
    intro s hq
    unfold onSide1 at hq
    rw [decide_eq_true_eq] at hq
    exact hq.1
  have hplayer2 : ∀ s : GroupStanding, onSide2 m s = true →
      m.player2 = some s.player := by
    intro s hq
    unfold onSide2 at hq
    rw [decide_eq_true_eq] at hq
    exact hq.1
  have huniq1 : ∀ j s', l[j]? = some s' → onSide1 m s' = true → j = i1 := by
    intro j s' hj hpj
    refine map_nodup_idx_eq _ l hnd j i1 s' s1 hj hs1 ?_
    have e1 := hplayer1 s' hpj
    have e2 := hplayer1 s1 hp1
    rw [e1] at e2
    exact Option.some.inj e2
  have huniq2 : ∀ j s', l[j]? = some s' → onSide2 m s' = true → j = i2 := by
    intro j s' hj hpj
    refine map_nodup_idx_eq _ l hnd j i2 s' s2 hj hs2 ?_
    have e1 := hplayer2 s' hpj
    have e2 := hplayer2 s2 hp2s.2
    rw [e1] at e2
    exact Option.some.inj e2
  have hne12 : i1 ≠ i2 := by
    intro h
    subst h
    rw [hs1] at hs2
    cases hs2
    rw [hp1] at hp2s
    cases hp2s.1
  unfold replayMatch
  simp only [hi1, hi2]
  rcases hw : m.winner.isSome with _ | _
  · simp only [Bool.false_eq_true, if_false]
    have hid : ∀ s ∈ l, stepStanding s m = s := by
      intro s _
      unfold stepStanding
      rw [hw]
      simp
    rw [List.map_congr_left hid, List.map_id']
  · simp only [if_true, hs1]
    have hl1 : (l.set i1
        (updateStandingFromMatch s1 m (m.winner == m.player1)))[i2]?
        = some s2 := by
      rw [List.getElem?_set_ne hne12]
      exact hs2
    simp only [hl1]
    have hlen1 : i1 < l.length := by
      rcases List.getElem?_eq_some_iff.mp hs1 with ⟨h, -⟩
      exact h
    have hlen2 : i2 < l.length := by
      rcases List.getElem?_eq_some_iff.mp hs2 with ⟨h, -⟩
      exact h
    apply List.ext_getElem?
    intro k
    rw [List.getElem?_map]
    by_cases hk1 : k = i1
    · subst hk1
      rw [List.getElem?_set_ne (fun h => hne12 h.symm),
        List.getElem?_set_self (by simpa using hlen1), hs1]
      have : stepStanding s1 m
          = updateStandingFromMatch s1 m (m.winner == m.player1) := by
        unfold stepStanding
        rw [hw, hp1]
        simp
      simp only [Option.map_some']
      rw [this]
    · by_cases hk2 : k = i2
      · subst hk2
        rw [List.getElem?_set_self (by simpa using hlen2), hs2]
        have : stepStanding s2 m
            = updateStandingFromMatch s2 m (!(m.winner == m.player1)) := by
          unfold stepStanding
          rw [hw, hp2s.1, hp2s.2]
          simp
        simp only [Option.map_some']
        rw [this]
      · rw [List.getElem?_set_ne (fun h => hk2 h.symm),
          List.getElem?_set_ne (fun h => hk1 h.symm)]
        rcases hk : l[k]? with _ | sk
        · rfl
        · have ho1 : onSide1 m sk = false := by
            rcases hq : onSide1 m sk with _ | _
            · rfl
            · exact absurd (huniq1 k sk hk hq) hk1
          have ho2 : onSide2 m sk = false := by
            rcases hq : onSide2 m sk with _ | _
            · rfl
            · exact absurd (huniq2 k sk hk hq) hk2
          have : stepStanding sk m = sk := by
            unfold stepStanding
            rw [hw, ho1, ho2]
            simp
          simp only [Option.map_some']
          rw [this]

/-- The whole replay phase is the per-row fold applied to every row. -/
theorem foldl_replayMatch_eq (gms : List MatchRec) (l : List GroupStanding)
    (hnd : (l.map (fun s => s.player)).Nodup)
    (hex : ∀ m ∈ gms, (∃ s ∈ l, onSide1 m s = true) ∧
      (∃ s ∈ l, onSide2 m s = true) ∧ m.player1 ≠ m.player2) :
    gms.foldl replayMatch l = l.map (fun s => gms.foldl stepStanding s) := by
  induction gms generalizing l with
  | nil => simp
  | cons m t ih =>
    obtain ⟨hm1, hm2, hmne⟩ := hex m (List.mem_cons_self m t)
    rw [List.foldl_cons, replayMatch_eq_map l m hnd hm1 hm2 hmne]
    have hnd' : ((l.map (fun s => stepStanding s m)).map
        (fun s => s.player)).Nodup := by
      rw [List.map_map]
      have hcmp : ((fun s : GroupStanding => s.player) ∘
          fun s => stepStanding s m) = fun s => s.player := by
        funext s
        exact (stepStanding_fields s m).1
      rw [hcmp]
      exact hnd
    have hex' : ∀ n ∈ t,
        (∃ s ∈ l.map (fun s => stepStanding s m), onSide1 n s = true) ∧
        (∃ s ∈ l.map (fun s => stepStanding s m), onSide2 n s = true) ∧
        n.player1 ≠ n.player2 := by
      intro n hn
      obtain ⟨⟨sa, hsa, hpa⟩, ⟨sb, hsb, hpb⟩, hnp⟩ :=
        hex n (List.mem_cons_of_mem m hn)
      refine ⟨⟨stepStanding sa m, List.mem_map_of_mem _ hsa, ?_⟩,
        ⟨stepStanding sb m, List.mem_map_of_mem _ hsb, ?_⟩, hnp⟩
      · rw [onSide1_congr n _ sa (stepStanding_fields sa m).1
          (stepStanding_fields sa m).2.1]
        exact hpa
      · rw [onSide2_congr n _ sb (stepStanding_fields sb m).1
          (stepStanding_fields sb m).2.1]
        exact hpb
    rw [ih _ hnd' hex', List.map_map]
    rfl

/-- The strict key comparison is irreflexive. -/
theorem keyLT_irrefl (a : Int × Int × Int) : keyLT a a = false := by
  unfold keyLT
  rw [decide_eq_false_iff_not]
  omega

/-- The strict key comparison is asymmetric. -/
theorem keyLT_asymm (a b : Int × Int × Int) (h : keyLT a b = true) :
    keyLT b a = false := by
  unfold keyLT at *
  rw [decide_eq_true_eq] at h
  rw [decide_eq_false_iff_not]
  omega

/-- The strict key comparison is transitive. -/
theorem keyLT_trans (a b c : Int × Int × Int) (h1 : keyLT a b = true)
    (h2 : keyLT b c = true) : keyLT a c = true := by
  unfold keyLT at *
  rw [decide_eq_true_eq] at h1 h2
  rw [decide_eq_true_eq]
  omega

/-- Mutually incomparable keys are equal. -/
theorem keyLT_antisymm (a b : Int × Int × Int) (h1 : keyLT a b = false)
    (h2 : keyLT b a = false) : a = b := by
  obtain ⟨a1, a2, a3⟩ := a
  obtain ⟨b1, b2, b3⟩ := b
  unfold keyLT at *
  rw [decide_eq_false_iff_not] at h1 h2
  simp only [Prod.mk.injEq]
  simp only [] at h1 h2
  omega

/-- Inserting an element no smaller than any accumulated one appends it. -/
theorem insortBy_sorted_append {α : Type _} (lt : α → α → Bool) (a : α)
    (acc : List α) (h : ∀ b ∈ acc, lt a b = false) :
    insortBy lt a acc = acc ++ [a] := by
  induction acc with
  | nil => rfl
  | cons b t ih =>
    unfold insortBy
    rw [h b (List.mem_cons_self b t)]
    simp only [Bool.false_eq_true, if_false, List.cons_append, List.cons.injEq,
      true_and]
    exact ih (fun x hx => h x (List.mem_cons_of_mem b hx))

/-- The stable sort leaves a sorted list unchanged. -/
theorem stableSortBy_sorted_id {α : Type _} (lt : α → α → Bool) (l : List α)
    (h : l.Pairwise (fun x y => lt y x = false)) : stableSortBy lt l = l := by
  suffices hs : ∀ (l acc : List α), l.Pairwise (fun x y => lt y x = false) →
      (∀ x ∈ l, ∀ b ∈ acc, lt x b = false) →
      l.foldl (fun acc a => insortBy lt a acc) acc = acc ++ l by
    simpa using hs l [] h (by simp)
  intro l
  induction l with
  | nil =>
    intro acc _ _
    simp
  | cons a t ih =>
    intro acc hp hcond
    rw [List.foldl_cons,
      insortBy_sorted_append lt a acc (hcond a (List.mem_cons_self a t)),
      ih (acc ++ [a]) (List.pairwise_cons.mp hp).2 ?_]
    · simp
    · intro x hx b hb
      rcases List.mem_append.mp hb with hb | hb
      · exact hcond x (List.mem_cons_of_mem a hx) b hb
      · rw [List.mem_singleton.mp hb]
        exact (List.pairwise_cons.mp hp).1 x hx

/-- Insertion preserves sortedness when the comparison is transitive and
asymmetric. -/
theorem insortBy_pairwise {α : Type _} (lt : α → α → Bool)
    (htr : ∀ x y z, lt x y = true → lt y z = true → lt x z = true)
    (hasym : ∀ x y, lt x y = true → lt y x = false) (a : α) (acc : List α)
    (h : acc.Pairwise (fun x y => lt y x = false)) :
    (insortBy lt a acc).Pairwise (fun x y => lt y x = false) := by
  induction acc with
  | nil => simp [insortBy]
  | cons b t ih =>
    rw [List.pairwise_cons] at h
    unfold insortBy
    rcases hab : lt a b with _ | _
    · simp only [Bool.false_eq_true, if_false]
      rw [List.pairwise_cons]
      constructor
      · intro y hy
        rcases List.mem_cons.mp ((insortBy_perm lt a t).mem_iff.mp hy)
            with rfl | hy'
        · exact hab
        · exact h.1 y hy'
      · exact ih h.2
    · simp only [if_true]
      rw [List.pairwise_cons]
      constructor
      · intro y hy
        rcases List.mem_cons.mp hy with rfl | hy'
        · exact hasym a y hab
        · rcases hq : lt y a with _ | _
          · rfl
          · exact absurd (htr y a b hq hab)
              (by rw [h.1 y hy']; simp)
      · exact List.pairwise_cons.mpr h

/-- The stable sort produces a sorted list. -/
theorem stableSortBy_pairwise {α : Type _} (lt : α → α → Bool)
    (htr : ∀ x y z, lt x y = true → lt y z = true → lt x z = true)
    (hasym : ∀ x y, lt x y = true → lt y x = false) (l : List α) :
    (stableSortBy lt l).Pairwise (fun x y => lt y x = false) := by
  suffices hs : ∀ (l acc : List α),
      acc.Pairwise (fun x y => lt y x = false) →
      (l.foldl (fun acc a => insortBy lt a acc) acc).Pairwise
        (fun x y => lt y x = false) from hs l [] (by simp)
  intro l
  induction l with
  | nil =>
    intro acc h
    simpa using h
  | cons a t ih =>
    intro acc h
    rw [List.foldl_cons]
    exact ih _ (insortBy_pairwise lt htr hasym a acc h)

/-- Head-to-head reads only the player and partner columns of either row. -/
theorem getHeadToHead_congr (a a' b b' : GroupStanding)
    (gms : List MatchRec)
    (hpa : a.player = a'.player) (hpaa : a.partner = a'.partner)
    (hpb : b.player = b'.player) (hpbb : b.partner = b'.partner) :
    getHeadToHead a b gms = getHeadToHead a' b' gms := by
  induction gms with
  | nil => rfl
  | cons m t ih =>
    unfold getHeadToHead
    rw [onSide1_congr m a a' hpa hpaa, onSide2_congr m b b' hpb hpbb,
      onSide1_congr m b b' hpb hpbb, onSide2_congr m a a' hpa hpaa, ih]

/-- With a winner drawn from two distinct sides, equality against one side
is the negation of equality against the other. -/
theorem winner_beq_flip (w p1 p2 : Option Nat) (hne : p1 ≠ p2)
    (hw : w = p1 ∨ w = p2) : (w == p1) = !(w == p2) := by
  rcases hw with rfl | rfl
  · have hf : (w == p2) = false := beq_eq_false_iff_ne.mpr hne
    rw [hf, beq_self_eq_true]
    rfl
  · have hf : (w == p1) = false :=
      beq_eq_false_iff_ne.mpr (fun h => hne h.symm)
    rw [hf, beq_self_eq_true]
    rfl

/-- Head-to-head is antisymmetric between rows with distinct players, over
matches whose winner is one of two distinct sides. -/
theorem getHeadToHead_antisymm (gms : List MatchRec) (a b : GroupStanding)
    (hwfm : ∀ m ∈ gms, m.player1 ≠ m.player2 ∧
      (m.winner = m.player1 ∨ m.winner = m.player2))
    (hab : a.player ≠ b.player) (r : Bool)
    (h : getHeadToHead a b gms = some r) :
    getHeadToHead b a gms = some (!r) := by
  induction gms with
  | nil => cases h
  | cons m t ih =>
    obtain ⟨hne, hwin⟩ := hwfm m (List.mem_cons_self m t)
    have hex : ¬(onSide1 m a = true ∧ onSide1 m b = true) := by
      rintro ⟨ha, hb⟩
      unfold onSide1 at ha hb
      rw [decide_eq_true_eq] at ha hb
      rw [ha.1] at hb
      exact hab (Option.some.inj hb.1)
    have iht : getHeadToHead a b t = some r →
        getHeadToHead b a t = some (!r) :=
      ih (fun n hn => hwfm n (List.mem_cons_of_mem m hn))
    unfold getHeadToHead at h ⊢
    by_cases hc1 : (onSide1 m a && onSide2 m b) = true
    · by_cases hc2 : (onSide1 m b && onSide2 m a) = true
      · rw [Bool.and_eq_true] at hc1 hc2
        exact absurd ⟨hc1.1, hc2.1⟩ hex
      · rw [if_pos hc1] at h
        rw [if_neg hc2, if_pos hc1]
        by_cases hw : m.winner.isSome = true
        · rw [if_pos hw] at h
          rw [if_pos hw]
          cases h
          congr 1
          rw [winner_beq_flip m.winner m.player1 m.player2 hne hwin]
          rw [Bool.not_not]
        · rw [if_neg hw] at h
          rw [if_neg hw]
          exact iht h
    · by_cases hc2 : (onSide1 m b && onSide2 m a) = true
      · rw [if_neg hc1, if_pos hc2] at h
        rw [if_pos hc2]
        by_cases hw : m.winner.isSome = true
        · rw [if_pos hw] at h
          rw [if_pos hw]
          cases h
          congr 1
          exact winner_beq_flip m.winner m.player1 m.player2 hne hwin
        · rw [if_neg hw] at h
          rw [if_neg hw]
          exact iht h
      · rw [if_neg hc1, if_neg hc2] at h
        rw [if_neg hc2, if_neg hc1]
        exact iht h

/-- Rows kept by the tie scan share the head's tie triple. -/
theorem mem_takeWhile_tieKey (s : GroupStanding)
    (rest : List GroupStanding) :
    ∀ t ∈ rest.takeWhile (fun t => tieKey t == tieKey s),
      tieKey t = tieKey s := by
  intro t ht
  have h := List.mem_takeWhile_imp ht
  simpa using h

/-- The first row surviving a while-drop fails the predicate. -/
theorem dropWhile_head_false {α : Type _} (p : α → Bool) (l : List α) :
    ∀ x, (l.dropWhile p).head? = some x → p x = false := by
  induction l with
  | nil =>
    intro x h
    cases h
  | cons a t ih =>
    intro x h
    rw [List.dropWhile_cons] at h
    split at h
    · exact ih x h
    · rename_i hq
      cases h
      rcases hb : p a with _ | _
      · rfl
      · exact absurd hb hq

/-- One step of the tie pass: the output is the processed head run
followed by the pass over the remaining rows, where the head run is the
scanned run unchanged — the two-row swap case excepted. -/
theorem tiePassFuel_cons_eq (gms : List MatchRec) (fuel : Nat)
    (s : GroupStanding) (rest : List GroupStanding) :
    ∃ run : List GroupStanding,
      tiePassFuel gms (fuel + 1) (s :: rest)
        = run ++ tiePassFuel gms fuel
            (rest.dropWhile (fun t => tieKey t == tieKey s)) ∧
      run ≠ [] ∧
      (∀ x ∈ run, tieKey x = tieKey s) ∧
      run.Perm (s :: rest.takeWhile (fun t => tieKey t == tieKey s)) ∧
      ((run = s :: rest.takeWhile (fun t => tieKey t == tieKey s) ∧
          ∀ t, rest.takeWhile (fun t => tieKey t == tieKey s) = [t] →
            getHeadToHead s t gms ≠ some false) ∨
        (∃ t, rest.takeWhile (fun t => tieKey t == tieKey s) = [t] ∧
          getHeadToHead s t gms = some false ∧ run = [t, s])) := by
  rcases htail : rest.takeWhile (fun t => tieKey t == tieKey s)
      with _ | ⟨t, ts⟩
  · refine ⟨[s], ?_, by simp, ?_, List.Perm.refl _,
      Or.inl ⟨rfl, fun t h => by simp at h⟩⟩
    · simp only [tiePassFuel, htail]
    · intro x hx
      rw [List.mem_singleton.mp hx]
  · rcases ts with _ | ⟨t2, ts'⟩
    · have hkt : tieKey t = tieKey s := by
        refine mem_takeWhile_tieKey s rest t ?_
        rw [htail]
        exact List.mem_singleton.mpr rfl
      have hkeys2 : ∀ x ∈ [s, t], tieKey x = tieKey s := by
        intro x hx
        rcases List.mem_cons.mp hx with rfl | hx
        · rfl
        · rw [List.mem_singleton.mp hx]
          exact hkt
      have hkeys2x : ∀ x ∈ [t, s], tieKey x = tieKey s := by
        intro x hx
        rcases List.mem_cons.mp hx with rfl | hx
        · exact hkt
        · rw [List.mem_singleton.mp hx]
      rcases hh : getHeadToHead s t gms with _ | b
      · refine ⟨[s, t], ?_, by simp, hkeys2, List.Perm.refl _,
          Or.inl ⟨rfl, ?_⟩⟩
        · simp only [tiePassFuel, htail, hh]
        · intro t' h
          cases h
          rw [hh]
          simp
      · rcases b with _ | _
        · refine ⟨[t, s], ?_, by simp, hkeys2x, List.Perm.swap s t [],
            Or.inr ⟨t, rfl, hh, rfl⟩⟩
          simp only [tiePassFuel, htail, hh]
        · refine ⟨[s, t], ?_, by simp, hkeys2, List.Perm.refl _,
            Or.inl ⟨rfl, ?_⟩⟩
          · simp only [tiePassFuel, htail, hh]
          · intro t' h
            cases h
            rw [hh]
            simp
    · refine ⟨s :: t :: t2 :: ts', ?_, by simp, ?_, List.Perm.refl _,
        Or.inl ⟨rfl, fun t' h => by simp at h⟩⟩
      · simp only [tiePassFuel, htail]
      · intro x hx
        rcases List.mem_cons.mp hx with rfl | hx
        · rfl
        · refine mem_takeWhile_tieKey s rest x ?_
          rw [htail]
          exact hx

/-- The tie pass permutes the standings. -/
theorem tiePassFuel_perm (gms : List MatchRec) :
    ∀ (fuel : Nat) (l : List GroupStanding), l.length ≤ fuel →
      (tiePassFuel gms fuel l).Perm l := by
  intro fuel
  induction fuel with
  | zero =>
    intro l _
    exact List.Perm.refl l
  | succ fuel ih =>
    intro l hlen
    rcases l with _ | ⟨s, rest⟩
    · exact List.Perm.refl []
    · obtain ⟨run, heq, -, -, hperm, -⟩ := tiePassFuel_cons_eq gms fuel s rest
      rw [heq]
      have hrec := ih (rest.dropWhile (fun t => tieKey t == tieKey s)) (by
        have hd : (rest.dropWhile (fun t => tieKey t == tieKey s)).length
            ≤ rest.length := (List.dropWhile_sublist _).length_le
        simp only [List.length_cons] at hlen
        omega)
      have hfin : (s :: rest.takeWhile (fun t => tieKey t == tieKey s)) ++
          rest.dropWhile (fun t => tieKey t == tieKey s) = s :: rest := by
        rw [List.cons_append, List.takeWhile_append_dropWhile]
      exact hfin ▸ (hperm.append hrec)

/-- The first output row of the tie pass carries the input head's tie
triple. -/
theorem tiePassFuel_head_key (gms : List MatchRec) (fuel : Nat)
    (s : GroupStanding) (rest : List GroupStanding) :
    ∃ h t', tiePassFuel gms (fuel + 1) (s :: rest) = h :: t' ∧
      tieKey h = tieKey s := by
  obtain ⟨run, heq, hne, hkeys, -, -⟩ := tiePassFuel_cons_eq gms fuel s rest
  rcases run with _ | ⟨h, hs⟩
  · exact absurd rfl hne
  · exact ⟨h, hs ++ _, by rw [heq]; rfl,
      hkeys h (List.mem_cons_self h hs)⟩

/-- A list all of whose pairs are related is pairwise related. -/
theorem pairwise_of_all {α : Type _} {R : α → α → Prop} :
    ∀ l : List α, (∀ x ∈ l, ∀ y ∈ l, R x y) → l.Pairwise R := by
  intro l
  induction l with
  | nil => intro _; exact List.Pairwise.nil
  | cons a t ih =>
    intro h
    rw [List.pairwise_cons]
    exact ⟨fun y hy => h a (List.mem_cons_self a t) y
        (List.mem_cons_of_mem a hy),
      ih (fun x hx y hy => h x (List.mem_cons_of_mem a hx) y
        (List.mem_cons_of_mem a hy))⟩

/-- Equal tie triples give equal sort keys. -/
theorem sortKey_eq_of_tieKey_eq (a b : GroupStanding)
    (h : tieKey a = tieKey b) : sortKey a = sortKey b := by
  unfold tieKey at h
  rw [Prod.mk.injEq, Prod.mk.injEq] at h
  obtain ⟨h1, h2, h3⟩ := h
  unfold sortKey
  rw [h1, h2, h3]

/-- The tie pass preserves sortedness of the standings. -/
theorem tiePassFuel_pairwise (gms : List MatchRec) :
    ∀ (fuel : Nat) (l : List GroupStanding), l.length ≤ fuel →
      l.Pairwise (fun x y => keyLT (sortKey y) (sortKey x) = false) →
      (tiePassFuel gms fuel l).Pairwise
        (fun x y => keyLT (sortKey y) (sortKey x) = false) := by
  intro fuel
  induction fuel with
  | zero =>
    intro l _ h
    exact h
  | succ fuel ih =>
    intro l hlen hp
    rcases l with _ | ⟨s, rest⟩
    · exact hp
    · obtain ⟨run, heq, -, hkeys, -, -⟩ := tiePassFuel_cons_eq gms fuel s rest
      rw [heq]
      rw [List.pairwise_append]
      have hlen' : (rest.dropWhile (fun t => tieKey t == tieKey s)).length
          ≤ fuel := by
        have hd : (rest.dropWhile (fun t => tieKey t == tieKey s)).length
            ≤ rest.length := (List.dropWhile_sublist _).length_le
        simp only [List.length_cons] at hlen
        omega
      have hsub : (rest.dropWhile (fun t => tieKey t == tieKey s)).Sublist
          (s :: rest) :=
        (List.dropWhile_sublist _).trans (List.sublist_cons_self s rest)
      refine ⟨?_, ih _ hlen' (hp.sublist hsub), ?_⟩
      · refine pairwise_of_all run ?_
        intro x hx y hy
        rw [sortKey_eq_of_tieKey_eq y x
          ((hkeys y hy).trans (hkeys x hx).symm)]
        exact keyLT_irrefl _
      · intro x hx y hy
        have hy' : y ∈ rest := by
          have hyd := (tiePassFuel_perm gms fuel _ hlen').mem_iff.mp hy
          exact (List.dropWhile_sublist
            (fun t => tieKey t == tieKey s)).mem hyd
        have hsy : keyLT (sortKey y) (sortKey s) = false :=
          (List.pairwise_cons.mp hp).1 y hy'
        rw [sortKey_eq_of_tieKey_eq x s (hkeys x hx)]
        exact hsy

/-- The tie pass of an empty list is empty at any fuel. -/
theorem tiePassFuel_nil (gms : List MatchRec) (fuel : Nat) :
    tiePassFuel gms fuel [] = [] := by
  rcases fuel with _ | fuel
  · rfl
  · rfl

/-- The last element of a list is a member. -/
theorem getLast?_mem_list {α : Type _} :
    ∀ (l : List α) (a : α), l.getLast? = some a → a ∈ l := by
  intro l
  induction l with
  | nil =>
    intro a h
    cases h
  | cons b t ih =>
    intro a h
    rcases t with _ | ⟨c, t'⟩
    · cases h
      exact List.mem_singleton.mpr rfl
    · rw [List.getLast?_cons_cons] at h
      exact List.mem_cons_of_mem b (ih a h)

/-- The last element of an append with a nonempty right part. -/
theorem getLast?_append_right {α : Type _} (l₁ l₂ : List α) (h : l₂ ≠ []) :
    (l₁ ++ l₂).getLast? = l₂.getLast? := by
  induction l₁ with
  | nil => rfl
  | cons a t ih =>
    rcases hb : t ++ l₂ with _ | ⟨c, u⟩
    · rcases List.append_eq_nil.mp hb with ⟨-, h2⟩
      exact absurd h2 h
    · rw [List.cons_append, hb, List.getLast?_cons_cons, ← hb, ih]

/-- Dropping the head run of a tie-resolved sorted list keeps it
tie-resolved: the run boundary supplies the missing left neighbour. -/
theorem tieResolved_drop (gms : List MatchRec) (s : GroupStanding)
    (rest : List GroupStanding) (h : TieResolved gms (s :: rest)) :
    TieResolved gms
      (rest.dropWhile (fun t => tieKey t == tieKey s)) := by
  intro pre a b post heq htie hpreC hpostC
  have hsplit : s :: rest
      = (s :: (rest.takeWhile (fun t => tieKey t == tieKey s) ++ pre))
        ++ a :: b :: post := by
    conv_lhs => rw [← List.takeWhile_append_dropWhile
      (fun t => tieKey t == tieKey s) rest, heq]
    simp
  refine h _ a b post hsplit htie (Or.inr ?_) hpostC
  rcases hpreC with hP | ⟨p, hp, hpk⟩
  · subst hP
    have hka : tieKey a ≠ tieKey s := by
      have hd := dropWhile_head_false (fun t => tieKey t == tieKey s) rest a
        (by rw [heq]; rfl)
      simpa using hd
    rcases hlast : (s :: (rest.takeWhile (fun t => tieKey t == tieKey s)
        ++ [])).getLast? with _ | q
    · rw [List.getLast?_eq_none_iff] at hlast
      cases hlast
    · refine ⟨q, rfl, ?_⟩
      have hqmem := getLast?_mem_list _ q hlast
      have hkq : tieKey q = tieKey s := by
        rcases List.mem_cons.mp hqmem with rfl | hqt
        · rfl
        · rw [List.append_nil] at hqt
          exact mem_takeWhile_tieKey s rest q hqt
      rw [hkq]
      exact fun hEq => hka hEq.symm
  · refine ⟨p, ?_, hpk⟩
    have hpre_ne : pre ≠ [] := by
      intro hnil
      rw [hnil] at hp
      cases hp
    have hassoc : s :: (rest.takeWhile (fun t => tieKey t == tieKey s)
        ++ pre) = (s :: rest.takeWhile (fun t => tieKey t == tieKey s))
        ++ pre := by
      simp
    rw [hassoc, getLast?_append_right _ pre hpre_ne]
    exact hp

/-- The tie pass leaves a sorted, tie-resolved list unchanged. -/
theorem tiePassFuel_id (gms : List MatchRec) :
    ∀ (fuel : Nat) (l : List GroupStanding), l.length ≤ fuel →
      l.Pairwise (fun x y => keyLT (sortKey y) (sortKey x) = false) →
      TieResolved gms l → tiePassFuel gms fuel l = l := by
  intro fuel
  induction fuel with
  | zero =>
    intro l _ _ _
    rfl
  | succ fuel ih =>
    intro l hlen hp htr
    rcases l with _ | ⟨s, rest⟩
    · rfl
    · obtain ⟨run, heq, hne, hkeys, hperm, hdisj⟩ :=
        tiePassFuel_cons_eq gms fuel s rest
      rw [heq]
      have hlen' : (rest.dropWhile (fun t => tieKey t == tieKey s)).length
          ≤ fuel := by
        have hd : (rest.dropWhile (fun t => tieKey t == tieKey s)).length
            ≤ rest.length := (List.dropWhile_sublist _).length_le
        simp only [List.length_cons] at hlen
        omega
      have hsub : (rest.dropWhile (fun t => tieKey t == tieKey s)).Sublist
          (s :: rest) :=
        (List.dropWhile_sublist _).trans (List.sublist_cons_self s rest)
      have hrec : tiePassFuel gms fuel
          (rest.dropWhile (fun t => tieKey t == tieKey s))
          = rest.dropWhile (fun t => tieKey t == tieKey s) :=
        ih _ hlen' (hp.sublist hsub) (tieResolved_drop gms s rest htr)
      rw [hrec]
      have hrun : run
          = s :: rest.takeWhile (fun t => tieKey t == tieKey s) := by
        rcases hdisj with ⟨h, -⟩ | ⟨t, htail, hh, -⟩
        · exact h
        · exfalso
          have hrest : rest = t ::
              rest.dropWhile (fun t => tieKey t == tieKey s) := by
            conv_lhs => rw [← List.takeWhile_append_dropWhile
              (fun t => tieKey t == tieKey s) rest]
            rw [htail]
            rfl
          have happ : s :: rest = [] ++ s :: t ::
              rest.dropWhile (fun t => tieKey t == tieKey s) := by
            rw [← hrest]
            rfl
          have hkey : tieKey s = tieKey t := by
            have := mem_takeWhile_tieKey s rest t
              (by rw [htail]; exact List.mem_singleton.mpr rfl)
            exact this.symm
          have hright : rest.dropWhile (fun t => tieKey t == tieKey s) = []
              ∨ ∃ q, (rest.dropWhile
                  (fun t => tieKey t == tieKey s)).head? = some q ∧
                tieKey q ≠ tieKey s := by
            rcases hd : rest.dropWhile (fun t => tieKey t == tieKey s)
                with _ | ⟨q, qs⟩
            · exact Or.inl rfl
            · refine Or.inr ⟨q, rfl, ?_⟩
              have := dropWhile_head_false
                (fun t => tieKey t == tieKey s) rest q (by rw [hd]; rfl)
              simpa using this
          exact htr [] s t _ happ hkey (Or.inl rfl) hright hh
      rw [hrun, List.cons_append, List.takeWhile_append_dropWhile]

/-- The output of the tie pass is tie-resolved: every maximal two-row tie
ends up ordered so that its second row did not win the head-to-head. -/
theorem tiePassFuel_tieResolved (gms : List MatchRec)
    (hwfm : ∀ m ∈ gms, m.player1 ≠ m.player2 ∧
      (m.winner = m.player1 ∨ m.winner = m.player2)) :
    ∀ (fuel : Nat) (l : List GroupStanding), l.length ≤ fuel →
      (l.map (fun s => s.player)).Nodup →
      TieResolved gms (tiePassFuel gms fuel l) := by
  intro fuel
  induction fuel with
  | zero =>
    intro l hlen _
    have hnil : l = [] := List.length_eq_zero.mp (Nat.le_zero.mp hlen)
    subst hnil
    intro pre a b post heq _ _ _
    rw [tiePassFuel_nil] at heq
    simp at heq
  | succ fuel ih =>
    intro l hlen hnd
    rcases l with _ | ⟨s, rest⟩
    · intro pre a b post heq _ _ _
      rw [tiePassFuel_nil] at heq
      simp at heq
    · obtain ⟨run, heq0, hne, hkeys, hperm, hdisj⟩ :=
        tiePassFuel_cons_eq gms fuel s rest
      have hlen' : (rest.dropWhile (fun t => tieKey t == tieKey s)).length
          ≤ fuel := by
        have hd : (rest.dropWhile (fun t => tieKey t == tieKey s)).length
            ≤ rest.length := (List.dropWhile_sublist _).length_le
        simp only [List.length_cons] at hlen
        omega
      have hndd : ((rest.dropWhile (fun t => tieKey t == tieKey s)).map
          (fun s => s.player)).Nodup :=
        List.Nodup.sublist
          (((List.dropWhile_sublist _).trans
            (List.sublist_cons_self s rest)).map _) hnd
      have ihrec := ih (rest.dropWhile (fun t => tieKey t == tieKey s))
        hlen' hndd
      rw [heq0]
      intro pre a b post heqA htie hpreC hpostC
      rcases List.append_eq_append_iff.mp heqA with
        ⟨w, hw1, hw2⟩ | ⟨w, hw1, hw2⟩
      · refine ihrec w a b post hw2 htie ?_ hpostC
        rcases w with _ | ⟨w0, wrest⟩
        · exact Or.inl rfl
        · right
          rcases hpreC with hP | ⟨p, hp, hpk⟩
          · exfalso
            rw [hP] at hw1
            rcases List.append_eq_nil.mp hw1.symm with ⟨-, hcn⟩
            cases hcn
          · refine ⟨p, ?_, hpk⟩
            rw [hw1, getLast?_append_right run (w0 :: wrest) (by simp)]
              at hp
            exact hp
      · rcases w with _ | ⟨x, wrest⟩
        · refine ihrec [] a b post ?_ htie (Or.inl rfl) hpostC
          rw [List.nil_append] at hw2
          rw [List.nil_append]
          exact hw2.symm
        · rcases wrest with _ | ⟨y, wrest'⟩
          · exfalso
            rw [List.singleton_append] at hw2
            injection hw2 with hax hrest2
            subst hax
            have hdropne : rest.dropWhile (fun t => tieKey t == tieKey s)
                ≠ [] := by
              intro h0
              rw [h0, tiePassFuel_nil] at hrest2
              cases hrest2
            obtain ⟨d0, drest, hd⟩ : ∃ d0 drest,
                rest.dropWhile (fun t => tieKey t == tieKey s)
                  = d0 :: drest := by
              rcases hdq : rest.dropWhile (fun t => tieKey t == tieKey s)
                  with _ | ⟨d0, dr⟩
              · exact absurd hdq hdropne
              · exact ⟨d0, dr, rfl⟩
            rcases fuel with _ | fuel'
            · rw [Nat.le_zero, List.length_eq_zero] at hlen'
              exact hdropne hlen'
            · obtain ⟨h0, t0, hrec_eq, hkey0⟩ :=
                tiePassFuel_head_key gms fuel' d0 drest
              rw [hd, hrec_eq] at hrest2
              injection hrest2 with hbh htl0
              subst hbh
              have hka : tieKey a = tieKey s :=
                hkeys a (by
                  rw [hw1]
                  exact List.mem_append_right pre
                    (List.mem_cons_self a []))
              have hkd := dropWhile_head_false
                (fun t => tieKey t == tieKey s) rest d0
                (by rw [hd]; rfl)
              rw [beq_eq_false_iff_ne] at hkd
              exact hkd (((htie.symm.trans hka).symm.trans hkey0).symm)
          · rw [List.cons_append, List.cons_append] at hw2
            injection hw2 with hax h2
            injection h2 with hby hpost2
            subst hax
            subst hby
            rcases hdisj with ⟨hrunshape, hpairprop⟩ | ⟨t, htail, hh, hrunshape⟩
            · rcases wrest' with _ | ⟨c, crest⟩
              · rcases pre with _ | ⟨p0, prest⟩
                · rw [hrunshape] at hw1
                  rw [List.nil_append] at hw1
                  injection hw1 with has htake
                  subst has
                  exact hpairprop b htake
                · exfalso
                  rcases hpreC with hP | ⟨p, hp, hpk⟩
                  · cases hP
                  · have hpmem : p ∈ run := by
                      rw [hw1]
                      refine List.mem_append_left _ ?_
                      exact getLast?_mem_list _ p hp
                    have hka : tieKey a = tieKey s :=
                      hkeys a (by
                        rw [hw1]
                        exact List.mem_append_right _
                          (List.mem_cons_self a [b]))
                    exact hpk ((hkeys p hpmem).trans hka.symm)
              · exfalso
                rcases hpostC with hP | ⟨q, hq, hqk⟩
                · rw [hpost2] at hP
                  cases hP
                · rw [hpost2] at hq
                  cases hq
                  have hka : tieKey a = tieKey s :=
                    hkeys a (by
                      rw [hw1]
                      exact List.mem_append_right _
                        (List.mem_cons_self a (b :: c :: crest)))
                  have hkc : tieKey c = tieKey s :=
                    hkeys c (by
                      rw [hw1]
                      refine List.mem_append_right _ ?_
                      exact List.mem_cons_of_mem a
                        (List.mem_cons_of_mem b
                          (List.mem_cons_self c crest)))
                  exact hqk (hkc.trans hka.symm)
            · have hpe : pre = [] ∧ a = t ∧ b = s ∧ wrest' = [] := by
                rcases pre with _ | ⟨p0, prest⟩
                · rw [hrunshape] at hw1
                  rw [List.nil_append] at hw1
                  injection hw1 with h1 h2
                  injection h2 with h3 h4
                  exact ⟨rfl, h1.symm, h3.symm, h4.symm⟩
                · exfalso
                  rw [hrunshape] at hw1
                  have hlenq := congrArg List.length hw1
                  simp [List.length_append] at hlenq
                  omega
              obtain ⟨-, hat, hbs, -⟩ := hpe
              subst hat
              subst hbs
              have htmem : a ∈ rest := by
                have hx : a ∈ rest.takeWhile
                    (fun t => tieKey t == tieKey b) := by
                  rw [htail]
                  exact List.mem_singleton.mpr rfl
                exact (List.takeWhile_sublist _).mem hx
              have hne_pl : b.player ≠ a.player := by
                intro hEq
                rw [List.map_cons, List.nodup_cons] at hnd
                exact hnd.1 (by
                  rw [hEq]
                  exact List.mem_map_of_mem _ htmem)
              have hanti := getHeadToHead_antisymm gms b a hwfm
                hne_pl false hh
              rw [hanti]
              simp

/-- Rows agreeing outside the position columns have equal sort keys. -/
theorem sortKey_sameRow (a b : GroupStanding) (h : SameRow a b) :
    sortKey a = sortKey b := by
  obtain ⟨-, -, -, -, -, hsw, hsl, hpt⟩ := h
  unfold sortKey GroupStanding.setsDifference
  rw [hsw, hsl, hpt]

/-- Rows agreeing outside the position columns have equal tie triples. -/
theorem tieKey_sameRow (a b : GroupStanding) (h : SameRow a b) :
    tieKey a = tieKey b := by
  obtain ⟨-, -, -, -, -, hsw, hsl, hpt⟩ := h
  unfold tieKey GroupStanding.setsDifference
  rw [hsw, hsl, hpt]

/-- Position assignment relates pointwise to the input rows. -/
theorem numberFrom_forall2 :
    ∀ (l : List GroupStanding) (k : Nat),
      List.Forall₂ SameRow l (numberFrom k l) := by
  intro l
  induction l with
  | nil =>
    intro k
    exact List.Forall₂.nil
  | cons s t ih =>
    intro k
    exact List.Forall₂.cons
      ⟨rfl, rfl, rfl, rfl, rfl, rfl, rfl, rfl⟩ (ih (k + 1))

/-- Rewriting only the global position relates pointwise to the input. -/
theorem map_gpos_forall2 (u : GroupStanding → Option Nat) :
    ∀ l : List GroupStanding,
      List.Forall₂ SameRow l
        (l.map (fun s => { s with globalPosition := u s })) := by
  intro l
  induction l with
  | nil => exact List.Forall₂.nil
  | cons s t ih =>
    exact List.Forall₂.cons ⟨rfl, rfl, rfl, rfl, rfl, rfl, rfl, rfl⟩ ih

/-- Each member of the right list of a pointwise relation has a related
member on the left. -/
theorem forall2_mem_right {α β : Type _} {R : α → β → Prop}
    {l : List α} {l' : List β} (h : List.Forall₂ R l l') :
    ∀ x' ∈ l', ∃ x ∈ l, R x x' := by
  induction h with
  | nil =>
    intro x' hx'
    exact absurd hx' (List.not_mem_nil x')
  | cons hR htl ih =>
    intro x' hx'
    rcases List.mem_cons.mp hx' with rfl | hx'
    · exact ⟨_, List.mem_cons_self _ _, hR⟩
    · obtain ⟨x, hx, hRx⟩ := ih x' hx'
      exact ⟨x, List.mem_cons_of_mem _ hx, hRx⟩

/-- Sortedness transfers along the pointwise row relation. -/
theorem forall2_pairwise_key {l l' : List GroupStanding}
    (h : List.Forall₂ SameRow l l')
    (hp : l.Pairwise (fun x y => keyLT (sortKey y) (sortKey x) = false)) :
    l'.Pairwise (fun x y => keyLT (sortKey y) (sortKey x) = false) := by
  induction h with
  | nil => exact List.Pairwise.nil
  | cons hR htl ih =>
    rw [List.pairwise_cons] at hp ⊢
    refine ⟨?_, ih hp.2⟩
    intro y' hy'
    obtain ⟨y, hy, hRy⟩ := forall2_mem_right htl y' hy'
    rw [← sortKey_sameRow _ _ hRy, ← sortKey_sameRow _ _ hR]
    exact hp.1 y hy

/-- A pointwise relation splits along an append of the right list. -/
theorem forall2_append_decomp {α β : Type _} {R : α → β → Prop} :
    ∀ {l : List α} (p' q' : List β), List.Forall₂ R l (p' ++ q') →
      ∃ p q, l = p ++ q ∧ List.Forall₂ R p p' ∧ List.Forall₂ R q q' := by
  intro l p'
  induction p' generalizing l with
  | nil =>
    intro q' h
    exact ⟨[], l, rfl, List.Forall₂.nil, h⟩
  | cons x' p'' ih =>
    intro q' h
    rcases l with _ | ⟨x, l''⟩
    · cases h
    · rcases h with _ | ⟨hR, htl⟩
      obtain ⟨p, q, hl, hp, hq⟩ := ih q' htl
      exact ⟨x :: p, q, by rw [hl]; rfl, List.Forall₂.cons hR hp, hq⟩

/-- The last elements of pointwise-related lists are related. -/
theorem forall2_getLast {α β : Type _} {R : α → β → Prop} :
    ∀ {l : List α} {l' : List β}, List.Forall₂ R l l' →
      ∀ x', l'.getLast? = some x' →
        ∃ x, l.getLast? = some x ∧ R x x' := by
  intro l l' h
  induction h with
  | nil =>
    intro x' hx'
    cases hx'
  | cons hR htl ih =>
    rename_i a a' t t'
    intro x' hx'
    rcases htl with _ | ⟨hR2, htl2⟩
    · cases hx'
      exact ⟨a, rfl, hR⟩
    · rw [List.getLast?_cons_cons] at hx'
      obtain ⟨x, hx, hRx⟩ := ih x' hx'
      refine ⟨x, ?_, hRx⟩
      rw [List.getLast?_cons_cons]
      exact hx

/-- Tie resolution transfers along the pointwise row relation. -/
theorem forall2_tieResolved (gms : List MatchRec)
    {l l' : List GroupStanding} (h : List.Forall₂ SameRow l l')
    (ht : TieResolved gms l) : TieResolved gms l' := by
  intro pre' a' b' post' heq htie hpreC hpostC
  subst heq
  obtain ⟨pre, rest0, hl, hpre, hrest⟩ :=
    forall2_append_decomp pre' (a' :: b' :: post') h
  rcases hrest with _ | ⟨hRa, hrest2⟩
  rcases hrest2 with _ | ⟨hRb, hpost⟩
  rename_i a b post
  subst hl
  have hka := tieKey_sameRow a a' hRa
  have hkb := tieKey_sameRow b b' hRb
  have hcon := ht pre a b post rfl (by rw [hka, hkb]; exact htie) ?_ ?_
  · intro hfalse
    refine hcon ?_
    rw [← hfalse]
    exact getHeadToHead_congr a a' b b' gms hRa.1 hRa.2.1 hRb.1 hRb.2.1
  · rcases hpreC with hP | ⟨p', hp', hpk'⟩
    · subst hP
      rcases hpre with _ | _
      · exact Or.inl rfl
    · right
      obtain ⟨p, hp, hRp⟩ := forall2_getLast hpre p' hp'
      refine ⟨p, hp, ?_⟩
      rw [tieKey_sameRow p p' hRp, hka]
      exact hpk'
  · rcases hpostC with hP | ⟨q', hq', hqk'⟩
    · subst hP
      rcases hpost with _ | _
      · exact Or.inl rfl
    · right
      rcases hpost with _ | ⟨hRq, hpost2⟩
      · cases hq'
      · rename_i x0 y0 t0 t1
        cases hq'
        refine ⟨x0, rfl, ?_⟩
        rw [tieKey_sameRow x0 _ hRq, hka]
        exact hqk'

/-- Participation reads only the player and partner columns. -/
theorem plays_congr (m : MatchRec) (a b : GroupStanding)
    (hp : a.player = b.player) (hpa : a.partner = b.partner) :
    plays m a = plays m b := by
  unfold plays
  rw [onSide1_congr m a b hp hpa, onSide2_congr m a b hp hpa]

/-- The winner flag reads only the player and partner columns. -/
theorem winsStep_congr (m : MatchRec) (a b : GroupStanding)
    (hp : a.player = b.player) (hpa : a.partner = b.partner) :
    winsStep m a = winsStep m b := by
  unfold winsStep
  rw [onSide1_congr m a b hp hpa]

/-- Closed form of one row's reset-then-replay: counters are the loop's
accounting over the played matches, all other columns are untouched. -/
theorem replayOne_eq (gms : List MatchRec) (s : GroupStanding) :
    gms.foldl stepStanding (resetStanding s) = { s with
      matchesPlayed := (gms.filter (fun m => plays m s)).length
      matchesWon := (gms.filter (fun m => plays m s && winsStep m s)).length
      matchesLost :=
        (gms.filter (fun m => plays m s && !winsStep m s)).length
      points :=
        3 * (gms.filter (fun m => plays m s && winsStep m s)).length +
        (gms.filter (fun m => plays m s && !winsStep m s)).length
      setsWon := ((gms.filter (fun m => plays m s)).map
        (fun m => (setTally m s).1)).sum
      setsLost := ((gms.filter (fun m => plays m s)).map
        (fun m => (setTally m s).2)).sum } := by
  rw [foldl_stepStanding_eq]
  have hps : ∀ m, plays m (resetStanding s) = plays m s :=
    fun m => plays_congr m _ s rfl rfl
  have hws : ∀ m, winsStep m (resetStanding s) = winsStep m s :=
    fun m => winsStep_congr m _ s rfl rfl
  have hts : ∀ m, setTally m (resetStanding s) = setTally m s :=
    fun m => setTally_congr m _ s rfl rfl
  simp only [hps, hws, hts]
  cases s
  simp [resetStanding, GroupStanding.mk.injEq, Nat.zero_add]

/-- The replay phase of the calculation in pointwise form. -/
theorem replayed_eq (ms : List MatchRec) (g : TournamentGroup)
    (hwf : GroupWF ms g) :
    (groupMatches ms g.groupNumber).foldl replayMatch
        (g.standings.map resetStanding)
      = g.standings.map
          (fun s => (groupMatches ms g.groupNumber).foldl stepStanding
            (resetStanding s)) := by
  obtain ⟨hnd, hm⟩ := hwf
  have hnd' : ((g.standings.map resetStanding).map
      (fun s => s.player)).Nodup := by
    rw [List.map_map]
    have hcmp : ((fun s : GroupStanding => s.player) ∘ resetStanding)
        = fun s : GroupStanding => s.player := funext fun s => rfl
    rw [hcmp]
    exact hnd
  have hex' : ∀ m ∈ groupMatches ms g.groupNumber,
      (∃ s ∈ g.standings.map resetStanding, onSide1 m s = true) ∧
      (∃ s ∈ g.standings.map resetStanding, onSide2 m s = true) ∧
      m.player1 ≠ m.player2 := by
    intro m hmem
    obtain ⟨⟨s1, hs1, hp1⟩, ⟨s2, hs2, hp2⟩, hnep, -⟩ := hm m hmem
    refine ⟨⟨resetStanding s1, List.mem_map_of_mem _ hs1, ?_⟩,
      ⟨resetStanding s2, List.mem_map_of_mem _ hs2, ?_⟩, hnep⟩
    · rw [onSide1_congr m (resetStanding s1) s1 rfl rfl]
      exact hp1
    · rw [onSide2_congr m (resetStanding s2) s2 rfl rfl]
      exact hp2
  rw [foldl_replayMatch_eq _ _ hnd' hex', List.map_map]
  rfl

/-- The positions assigned by the enumeration are sequential. -/
theorem numberFrom_positions :
    ∀ (l : List GroupStanding) (k : Nat),
      (numberFrom k l).map (fun s => s.positionInGroup)
        = (List.range l.length).map (fun i => some (k + i)) := by
  intro l
  induction l with
  | nil =>
    intro k
    rfl
  | cons s t ih =>
    intro k
    simp only [numberFrom, List.map_cons, List.length_cons]
    rw [List.range_succ_eq_map, List.map_cons, List.map_map, ih (k + 1)]
    refine congrArg₂ List.cons (by rw [Nat.add_zero]) ?_
    refine List.map_congr_left ?_
    intro i _
    simp only [Function.comp_apply]
    congr 1
    omega

/-- Re-enumerating already enumerated rows (with possibly rewritten global
positions) changes nothing. -/
theorem numberFrom_gpos_id (u : GroupStanding → Option Nat) :
    ∀ (l : List GroupStanding) (k : Nat),
      numberFrom k ((numberFrom k l).map
        (fun s => { s with globalPosition := u s }))
      = (numberFrom k l).map (fun s => { s with globalPosition := u s }) := by
  intro l
  induction l with
  | nil =>
    intro k
    rfl
  | cons s t ih =>
    intro k
    simp only [numberFrom, List.map_cons]
    rw [ih (k + 1)]

/-- Pointwise related rows have identical player–partner projections. -/
theorem forall2_map_pair {l l' : List GroupStanding}
    (h : List.Forall₂ SameRow l l') :
    l.map (fun s => (s.player, s.partner))
      = l'.map (fun s => (s.player, s.partner)) := by
  induction h with
  | nil => rfl
  | cons hR htl ih =>
    simp only [List.map_cons, ih, List.cons.injEq, and_true]
    rw [hR.1, hR.2.1]

/-- Enumeration preserves length. -/
theorem numberFrom_length :
    ∀ (l : List GroupStanding) (k : Nat),
      (numberFrom k l).length = l.length := by
  intro l
  induction l with
  | nil =>
    intro k
    rfl
  | cons s t ih =>
    intro k
    simp only [numberFrom, List.length_cons, ih (k + 1)]

/-- Identity and position columns of one reset-then-replayed row. -/
theorem replayOne_fields (gms : List MatchRec) (s : GroupStanding) :
    (gms.foldl stepStanding (resetStanding s)).player = s.player ∧
    (gms.foldl stepStanding (resetStanding s)).partner = s.partner ∧
    (gms.foldl stepStanding (resetStanding s)).positionInGroup
      = s.positionInGroup ∧
    (gms.foldl stepStanding (resetStanding s)).globalPosition
      = s.globalPosition := by
  rw [replayOne_eq]
  exact ⟨rfl, rfl, rfl, rfl⟩

/-- The group calculation, with its replay phase in pointwise form. -/
theorem calcGroupStandings_eq (ms : List MatchRec) (g : TournamentGroup)
    (hwf : GroupWF ms g) :
    calcGroupStandings ms g
      = numberFrom 1 (tiePass (groupMatches ms g.groupNumber)
          (stableSortBy (fun a b => keyLT (sortKey a) (sortKey b))
            (g.standings.map (fun s =>
              (groupMatches ms g.groupNumber).foldl stepStanding
                (resetStanding s))))) := by
  simp only [calcGroupStandings]
  rw [replayed_eq ms g hwf]

/-- Players of the replayed rows are those of the group's rows. -/
theorem replayed_players_nodup (ms : List MatchRec) (g : TournamentGroup)
    (hwf : GroupWF ms g) :
    ((g.standings.map (fun s =>
        (groupMatches ms g.groupNumber).foldl stepStanding
          (resetStanding s))).map (fun s => s.player)).Nodup := by
  rw [List.map_map]
  have hcmp : ((fun s : GroupStanding => s.player) ∘ (fun s =>
      (groupMatches ms g.groupNumber).foldl stepStanding
        (resetStanding s))) = fun s : GroupStanding => s.player :=
    funext fun s => (replayOne_fields _ s).1
  rw [hcmp]
  exact hwf.1

/-- The calculated standings are sorted by the sort tuple. -/
theorem calcGroup_sorted (ms : List MatchRec) (g : TournamentGroup)
    (hwf : GroupWF ms g) :
    (calcGroupStandings ms g).Pairwise
      (fun x y => keyLT (sortKey y) (sortKey x) = false) := by
  rw [calcGroupStandings_eq ms g hwf]
  refine forall2_pairwise_key (numberFrom_forall2 _ 1) ?_
  simp only [tiePass]
  refine tiePassFuel_pairwise _ _ _ (le_refl _) ?_
  exact stableSortBy_pairwise (fun a b => keyLT (sortKey a) (sortKey b))
    (fun x y z hx hy => keyLT_trans _ _ _ hx hy)
    (fun x y hx => keyLT_asymm _ _ hx) _

/-- The calculated standings are tie-resolved. -/
theorem calcGroup_tieResolved (ms : List MatchRec) (g : TournamentGroup)
    (hwf : GroupWF ms g) :
    TieResolved (groupMatches ms g.groupNumber)
      (calcGroupStandings ms g) := by
  rw [calcGroupStandings_eq ms g hwf]
  refine forall2_tieResolved _ (numberFrom_forall2 _ 1) ?_
  simp only [tiePass]
  refine tiePassFuel_tieResolved _ ?_ _ _ (le_refl _) ?_
  · intro m hm
    exact ⟨(hwf.2 m hm).2.2.1, (hwf.2 m hm).2.2.2⟩
  · have hpermS := stableSortBy_perm
      (fun a b => keyLT (sortKey a) (sortKey b))
      (g.standings.map (fun s =>
        (groupMatches ms g.groupNumber).foldl stepStanding
          (resetStanding s)))
    exact ((hpermS.map (fun s => s.player)).nodup_iff).mpr
      (replayed_players_nodup ms g hwf)

/-- The calculated standings carry 1-based sequential positions. -/
theorem calcGroup_positions (ms : List MatchRec) (g : TournamentGroup)
    (hwf : GroupWF ms g) :
    (calcGroupStandings ms g).map (fun s => s.positionInGroup)
      = (List.range (calcGroupStandings ms g).length).map
          (fun i => some (1 + i)) := by
  rw [calcGroupStandings_eq ms g hwf, numberFrom_positions,
    numberFrom_length]

/-- The calculated standings are the group's competitors. -/
theorem calcGroup_pairs_perm (ms : List MatchRec) (g : TournamentGroup)
    (hwf : GroupWF ms g) :
    ((calcGroupStandings ms g).map (fun s => (s.player, s.partner))).Perm
      (g.standings.map (fun s => (s.player, s.partner))) := by
  rw [calcGroupStandings_eq ms g hwf,
    ← forall2_map_pair (numberFrom_forall2 _ 1)]
  have h1 := tiePassFuel_perm (groupMatches ms g.groupNumber)
    (stableSortBy (fun a b => keyLT (sortKey a) (sortKey b))
      (g.standings.map (fun s =>
        (groupMatches ms g.groupNumber).foldl stepStanding
          (resetStanding s)))).length _ (le_refl _)
  have h2 := stableSortBy_perm (fun a b => keyLT (sortKey a) (sortKey b))
    (g.standings.map (fun s =>
      (groupMatches ms g.groupNumber).foldl stepStanding
        (resetStanding s)))
  have h3 : (g.standings.map (fun s =>
      (groupMatches ms g.groupNumber).foldl stepStanding
        (resetStanding s))).map (fun s => (s.player, s.partner))
      = g.standings.map (fun s => (s.player, s.partner)) := by
    rw [List.map_map]
    refine List.map_congr_left ?_
    intro s _
    simp only [Function.comp_apply]
    rw [(replayOne_fields _ s).1, (replayOne_fields _ s).2.1]
  simp only [tiePass]
  refine ((h1.map (fun s => (s.player, s.partner))).trans
    (h2.map (fun s => (s.player, s.partner)))).trans ?_
  rw [h3]

/-- Counters of every calculated standing, in the loop's accounting. -/
theorem calcGroup_counters (ms : List MatchRec) (g : TournamentGroup)
    (hwf : GroupWF ms g) :
    ∀ s ∈ calcGroupStandings ms g,
      s.matchesWon = ((groupMatches ms g.groupNumber).filter
        (fun m => plays m s && winsStep m s)).length ∧
      s.matchesLost = ((groupMatches ms g.groupNumber).filter
        (fun m => plays m s && !winsStep m s)).length ∧
      s.matchesPlayed = ((groupMatches ms g.groupNumber).filter
        (fun m => plays m s)).length ∧
      s.points = 3 * ((groupMatches ms g.groupNumber).filter
        (fun m => plays m s && winsStep m s)).length +
        ((groupMatches ms g.groupNumber).filter
          (fun m => plays m s && !winsStep m s)).length ∧
      s.setsWon = (((groupMatches ms g.groupNumber).filter
        (fun m => plays m s)).map (fun m => (setTally m s).1)).sum ∧
      s.setsLost = (((groupMatches ms g.groupNumber).filter
        (fun m => plays m s)).map (fun m => (setTally m s).2)).sum := by
  intro s hs
  rw [calcGroupStandings_eq ms g hwf] at hs
  obtain ⟨x, hx, hR⟩ := forall2_mem_right (numberFrom_forall2 _ 1) s hs
  have h1 := tiePassFuel_perm (groupMatches ms g.groupNumber)
    (stableSortBy (fun a b => keyLT (sortKey a) (sortKey b))
      (g.standings.map (fun s =>
        (groupMatches ms g.groupNumber).foldl stepStanding
          (resetStanding s)))).length _ (le_refl _)
  have h2 := stableSortBy_perm (fun a b => keyLT (sortKey a) (sortKey b))
    (g.standings.map (fun s =>
      (groupMatches ms g.groupNumber).foldl stepStanding
        (resetStanding s)))
  rw [show tiePass (groupMatches ms g.groupNumber)
      (stableSortBy (fun a b => keyLT (sortKey a) (sortKey b))
        (g.standings.map (fun s =>
          (groupMatches ms g.groupNumber).foldl stepStanding
            (resetStanding s))))
      = tiePassFuel (groupMatches ms g.groupNumber)
        (stableSortBy (fun a b => keyLT (sortKey a) (sortKey b))
          (g.standings.map (fun s =>
            (groupMatches ms g.groupNumber).foldl stepStanding
              (resetStanding s)))).length
        (stableSortBy (fun a b => keyLT (sortKey a) (sortKey b))
          (g.standings.map (fun s =>
            (groupMatches ms g.groupNumber).foldl stepStanding
              (resetStanding s)))) from rfl] at hx
  have hxR := (h1.trans h2).mem_iff.mp hx
  obtain ⟨s0, hs0, hxeq⟩ := List.mem_map.mp hxR
  subst hxeq
  obtain ⟨hpl, hpa, hmp, hmw, hml, hsw, hsl, hpts⟩ := hR
  have hplayer : s0.player = s.player := by
    rw [← (replayOne_fields (groupMatches ms g.groupNumber) s0).1]
    exact hpl
  have hpartner : s0.partner = s.partner := by
    rw [← (replayOne_fields (groupMatches ms g.groupNumber) s0).2.1]
    exact hpa
  have hfp : (fun m => plays m s0) = fun m => plays m s :=
    funext fun m => plays_congr m s0 s hplayer hpartner
  have hfw : (fun m => plays m s0 && winsStep m s0)
      = fun m => plays m s && winsStep m s :=
    funext fun m => by
      rw [plays_congr m s0 s hplayer hpartner,
        winsStep_congr m s0 s hplayer hpartner]
  have hfl : (fun m => plays m s0 && !winsStep m s0)
      = fun m => plays m s && !winsStep m s :=
    funext fun m => by
      rw [plays_congr m s0 s hplayer hpartner,
        winsStep_congr m s0 s hplayer hpartner]
  have hft : (fun m => (setTally m s0).1) = fun m => (setTally m s).1 :=
    funext fun m => by rw [setTally_congr m s0 s hplayer hpartner]
  have hft2 : (fun m => (setTally m s0).2) = fun m => (setTally m s).2 :=
    funext fun m => by rw [setTally_congr m s0 s hplayer hpartner]
  refine ⟨?_, ?_, ?_, ?_, ?_, ?_⟩
  · rw [← hmw, replayOne_eq, ← hfw]
  · rw [← hml, replayOne_eq, ← hfl]
  · rw [← hmp, replayOne_eq, ← hfp]
  · rw [← hpts, replayOne_eq, ← hfw, ← hfl]
  · rw [← hsw, replayOne_eq, ← hfp, ← hft]
  · rw [← hsl, replayOne_eq, ← hfp, ← hft2]

/-- On well-formed matches, the loop's winner flag agrees with the
specification's "the standing's side is the winner's side". -/
theorem winsStep_eq_winsMatch (m : MatchRec) (s : GroupStanding)
    (hne : m.player1 ≠ m.player2)
    (hwin : m.winner = m.player1 ∨ m.winner = m.player2) :
    (plays m s && winsStep m s) = (plays m s && winsMatch m s) ∧
    (plays m s && !winsStep m s) = (plays m s && !winsMatch m s) := by
  rcases hpl : plays m s with _ | _
  · simp
  · have hor : onSide1 m s = true ∨
        (onSide1 m s = false ∧ onSide2 m s = true) := by
      unfold plays at hpl
      rcases h1 : onSide1 m s with _ | _
      · rw [h1] at hpl
        rcases h2 : onSide2 m s with _ | _
        · rw [h2] at hpl
          simp at hpl
        · exact Or.inr ⟨rfl, rfl⟩
      · exact Or.inl rfl
    suffices hws : winsStep m s = winsMatch m s by
      rw [hws]
      exact ⟨rfl, rfl⟩
    rcases hor with h1 | ⟨h1, h2⟩
    · have h2 : onSide2 m s = false := by
        rcases hq : onSide2 m s with _ | _
        · rfl
        · exfalso
          unfold onSide1 at h1
          unfold onSide2 at hq
          rw [decide_eq_true_eq] at h1 hq
          exact hne (h1.1.trans hq.1.symm)
      unfold winsStep winsMatch
      rw [h1, h2]
      simp
    · unfold winsStep winsMatch
      rw [h1, h2]
      simp only [Bool.false_eq_true, if_false, Bool.false_and,
        Bool.true_and, Bool.false_or]
      rw [winner_beq_flip m.winner m.player1 m.player2 hne hwin,
        Bool.not_not]

/-- Filtered length splits along a second Boolean condition. -/
theorem filter_length_split {α : Type _} (p q : α → Bool) (l : List α) :
    (l.filter p).length = (l.filter (fun a => p a && q a)).length +
      (l.filter (fun a => p a && !q a)).length := by
  induction l with
  | nil => rfl
  | cons a t ih =>
    rcases hp : p a with _ | _ <;> rcases hq : q a with _ | _ <;>
      simp [List.filter_cons, hp, hq] <;> omega

/-- C6 — Standings calculation for a group: the output rows are exactly
the group's competitors; each row's counters replay the completed group
matches, awarding the winner 3 points and a win, the loser 1 point and a
loss, and accumulating per-side set tallies; the rows are sorted ascending
by `(-points, -sets_difference, -sets_won)`; `position_in_group` is the
1-based rank; and every maximal tie of exactly two rows is ordered so the
second did not win the head-to-head (larger ties are left in sort order,
which the tie pass does not alter). -/
theorem group_standings_calculation (ms : List MatchRec)
    (g : TournamentGroup) (hwf : GroupWF ms g) :
    ((calcGroupStandings ms g).map (fun s => (s.player, s.partner))).Perm
        (g.standings.map (fun s => (s.player, s.partner))) ∧
    (∀ s ∈ calcGroupStandings ms g,
      s.matchesWon = ((groupMatches ms g.groupNumber).filter
        (fun m => plays m s && winsMatch m s)).length ∧
      s.matchesLost = ((groupMatches ms g.groupNumber).filter
        (fun m => plays m s && !winsMatch m s)).length ∧
      s.matchesPlayed = s.matchesWon + s.matchesLost ∧
      s.points = 3 * s.matchesWon + s.matchesLost ∧
      s.setsWon = (((groupMatches ms g.groupNumber).filter
        (fun m => plays m s)).map (fun m => (setTally m s).1)).sum ∧
      s.setsLost = (((groupMatches ms g.groupNumber).filter
        (fun m => plays m s)).map (fun m => (setTally m s).2)).sum) ∧
    (calcGroupStandings ms g).Pairwise
      (fun x y => keyLT (sortKey y) (sortKey x) = false) ∧
    (calcGroupStandings ms g).map (fun s => s.positionInGroup)
      = (List.range (calcGroupStandings ms g).length).map
          (fun i => some (1 + i)) ∧
    TieResolved (groupMatches ms g.groupNumber)
      (calcGroupStandings ms g) := by
  refine ⟨calcGroup_pairs_perm ms g hwf, ?_, calcGroup_sorted ms g hwf,
    calcGroup_positions ms g hwf, calcGroup_tieResolved ms g hwf⟩
  intro s hs
  obtain ⟨hmw, hml, hmp, hpts, hsw, hsl⟩ := calcGroup_counters ms g hwf s hs
  have heqW : (groupMatches ms g.groupNumber).filter
      (fun m => plays m s && winsStep m s)
      = (groupMatches ms g.groupNumber).filter
        (fun m => plays m s && winsMatch m s) := by
    refine List.filter_congr ?_
    intro m hm
    exact (winsStep_eq_winsMatch m s (hwf.2 m hm).2.2.1
      (hwf.2 m hm).2.2.2).1
  have heqL : (groupMatches ms g.groupNumber).filter
      (fun m => plays m s && !winsStep m s)
      = (groupMatches ms g.groupNumber).filter
        (fun m => plays m s && !winsMatch m s) := by
    refine List.filter_congr ?_
    intro m hm
    exact (winsStep_eq_winsMatch m s (hwf.2 m hm).2.2.1
      (hwf.2 m hm).2.2.2).2
  refine ⟨hmw.trans (congrArg List.length heqW),
    hml.trans (congrArg List.length heqL), ?_, ?_, hsw, hsl⟩
  · rw [hmp, hmw, hml]
    exact filter_length_split _ (fun m => winsStep m s) _
  · rw [hpts, hmw, hml]

/-- C6 witness: the characterization instantiated on a three-player group
with three completed matches. -/
theorem group_standings_calculation_witness :
    GroupWF c6Matches c6Group ∧
    (((calcGroupStandings c6Matches c6Group).map
        (fun s => (s.player, s.partner))).Perm
        (c6Group.standings.map (fun s => (s.player, s.partner))) ∧
      (∀ s ∈ calcGroupStandings c6Matches c6Group,
        s.matchesWon = ((groupMatches c6Matches c6Group.groupNumber).filter
          (fun m => plays m s && winsMatch m s)).length ∧
        s.matchesLost =
          ((groupMatches c6Matches c6Group.groupNumber).filter
            (fun m => plays m s && !winsMatch m s)).length ∧
        s.matchesPlayed = s.matchesWon + s.matchesLost ∧
        s.points = 3 * s.matchesWon + s.matchesLost ∧
        s.setsWon = (((groupMatches c6Matches c6Group.groupNumber).filter
          (fun m => plays m s)).map (fun m => (setTally m s).1)).sum ∧
        s.setsLost = (((groupMatches c6Matches c6Group.groupNumber).filter
          (fun m => plays m s)).map (fun m => (setTally m s).2)).sum) ∧
      (calcGroupStandings c6Matches c6Group).Pairwise
        (fun x y => keyLT (sortKey y) (sortKey x) = false) ∧
      (calcGroupStandings c6Matches c6Group).map
          (fun s => s.positionInGroup)
        = (List.range (calcGroupStandings c6Matches c6Group).length).map
            (fun i => some (1 + i)) ∧
      TieResolved (groupMatches c6Matches c6Group.groupNumber)
        (calcGroupStandings c6Matches c6Group)) :=
  ⟨by decide, group_standings_calculation c6Matches c6Group (by decide)⟩

/-- A row whose counters already equal the replay accounting is a fixed
point of reset-then-replay. -/
theorem replayOne_fixpoint (gms : List MatchRec) (s : GroupStanding)
    (h1 : s.matchesWon = (gms.filter
      (fun m => plays m s && winsStep m s)).length)
    (h2 : s.matchesLost = (gms.filter
      (fun m => plays m s && !winsStep m s)).length)
    (h3 : s.matchesPlayed = (gms.filter (fun m => plays m s)).length)
    (h4 : s.points = 3 * (gms.filter
      (fun m => plays m s && winsStep m s)).length +
      (gms.filter (fun m => plays m s && !winsStep m s)).length)
    (h5 : s.setsWon = ((gms.filter (fun m => plays m s)).map
      (fun m => (setTally m s).1)).sum)
    (h6 : s.setsLost = ((gms.filter (fun m => plays m s)).map
      (fun m => (setTally m s).2)).sum) :
    gms.foldl stepStanding (resetStanding s) = s := by
  rw [replayOne_eq]
  cases s
  simp only [GroupStanding.mk.injEq, eq_self_iff_true, true_and, and_true]
  exact ⟨h3.symm, h1.symm, h2.symm, h5.symm, h6.symm, h4.symm⟩

/-- Insertion commutes with a comparison-preserving row rewrite. -/
theorem insortBy_map_comm {α : Type _} (lt : α → α → Bool) (f : α → α)
    (hcomm : ∀ a b, lt (f a) (f b) = lt a b) (a : α) :
    ∀ acc : List α,
      insortBy lt (f a) (acc.map f) = (insortBy lt a acc).map f := by
  intro acc
  induction acc with
  | nil => rfl
  | cons b t ih =>
    simp only [List.map_cons, insortBy, hcomm a b]
    rcases h : lt a b with _ | _
    · simp only [Bool.false_eq_true, if_false, List.map_cons,
        List.cons.injEq, true_and]
      exact ih
    · simp only [if_true, List.map_cons]

/-- The stable sort commutes with a comparison-preserving row rewrite. -/
theorem stableSortBy_map_comm {α : Type _} (lt : α → α → Bool) (f : α → α)
    (hcomm : ∀ a b, lt (f a) (f b) = lt a b) (l : List α) :
    stableSortBy lt (l.map f) = (stableSortBy lt l).map f := by
  suffices hs : ∀ (l acc : List α),
      (l.map f).foldl (fun acc a => insortBy lt a acc) (acc.map f)
        = (l.foldl (fun acc a => insortBy lt a acc) acc).map f by
    simpa using hs l []
  intro l
  induction l with
  | nil =>
    intro acc
    rfl
  | cons a t ih =>
    intro acc
    simp only [List.map_cons, List.foldl_cons]
    rw [insortBy_map_comm lt f hcomm a acc, ih (insortBy lt a acc)]

/-- Rewriting only the global position relates rows pointwise. -/
theorem gposRewrite_forall2 (u : GroupStanding → Option Nat) :
    ∀ l : List GroupStanding,
      List.Forall₂ SameRow l (l.map (gposRewrite u)) := by
  intro l
  induction l with
  | nil => exact List.Forall₂.nil
  | cons s t ih =>
    exact List.Forall₂.cons ⟨rfl, rfl, rfl, rfl, rfl, rfl, rfl, rfl⟩ ih

/-- Global enumeration absorbs a prior rewrite of global positions. -/
theorem numberGlobalFrom_map_gpos (u : GroupStanding → Option Nat) :
    ∀ (l : List GroupStanding) (k : Nat),
      numberGlobalFrom k (l.map (gposRewrite u)) = numberGlobalFrom k l := by
  intro l
  induction l with
  | nil =>
    intro k
    rfl
  | cons s t ih =>
    intro k
    simp only [List.map_cons, numberGlobalFrom]
    rw [ih (k + 1)]
    rfl

/-- Re-enumerating already enumerated rows (with possibly rewritten global
positions) changes nothing. -/
theorem numberFrom_gposRewrite_id (u : GroupStanding → Option Nat) :
    ∀ (l : List GroupStanding) (k : Nat),
      numberFrom k ((numberFrom k l).map (gposRewrite u))
        = (numberFrom k l).map (gposRewrite u) := by
  intro l
  induction l with
  | nil =>
    intro k
    rfl
  | cons s t ih =>
    intro k
    simp only [numberFrom, List.map_cons, gposRewrite]
    rw [ih (k + 1)]

/-- Recalculating a group over its own output (with arbitrarily rewritten
global positions, as the global pass leaves them) returns that output
unchanged: the per-group calculation is idempotent. -/
theorem calcGroup_idem (ms : List MatchRec) (g : TournamentGroup)
    (hwf : GroupWF ms g) (u : GroupStanding → Option Nat) :
    calcGroupStandings ms
      { g with standings := (calcGroupStandings ms g).map (gposRewrite u) }
      = (calcGroupStandings ms g).map (gposRewrite u) := by
  have hpairs := calcGroup_pairs_perm ms g hwf
  have hl2pairs : ((calcGroupStandings ms g).map (gposRewrite u)).map
        (fun s => (s.player, s.partner))
      = (calcGroupStandings ms g).map (fun s => (s.player, s.partner)) := by
    rw [List.map_map]
    exact List.map_congr_left (fun x _ => rfl)
  have hwf2 : GroupWF ms
      { g with standings := (calcGroupStandings ms g).map (gposRewrite u) } := by
    constructor
    · have hcomp : ((calcGroupStandings ms g).map (gposRewrite u)).map
          (fun s => s.player)
          = (calcGroupStandings ms g).map (fun s => s.player) := by
        rw [List.map_map]
        exact List.map_congr_left (fun x _ => rfl)
      have hpp : ((calcGroupStandings ms g).map
          (fun s => s.player)).Perm
          (g.standings.map (fun s => s.player)) := by
        simpa [Function.comp] using hpairs.map Prod.fst
      rw [show ({ g with standings := (calcGroupStandings ms g).map (gposRewrite u) } : TournamentGroup).standings = (calcGroupStandings ms g).map (gposRewrite u) from rfl, hcomp]
      exact hpp.nodup_iff.mpr hwf.1
    · intro m hm
      have hm2 : m ∈ groupMatches ms g.groupNumber := hm
      obtain ⟨⟨s1, hs1, hp1⟩, ⟨s2, hs2, hp2⟩, h3, h4⟩ := hwf.2 m hm2
      have hmem : ∀ s0 ∈ g.standings,
          ∃ x ∈ (calcGroupStandings ms g).map (gposRewrite u),
            x.player = s0.player ∧ x.partner = s0.partner := by
        intro s0 hs0
        have hx0 : (s0.player, s0.partner)
            ∈ ((calcGroupStandings ms g).map (gposRewrite u)).map
              (fun s => (s.player, s.partner)) := by
          rw [hl2pairs]
          exact hpairs.mem_iff.mpr (List.mem_map_of_mem _ hs0)
        obtain ⟨x, hx, hxe⟩ := List.mem_map.mp hx0
        rw [Prod.mk.injEq] at hxe
        exact ⟨x, hx, hxe.1, hxe.2⟩
      obtain ⟨x1, hx1, he1, he1p⟩ := hmem s1 hs1
      obtain ⟨x2, hx2, he2, he2p⟩ := hmem s2 hs2
      refine ⟨⟨x1, hx1, ?_⟩, ⟨x2, hx2, ?_⟩, h3, h4⟩
      · rw [onSide1_congr m x1 s1 he1 he1p]
        exact hp1
      · rw [onSide2_congr m x2 s2 he2 he2p]
        exact hp2
  rw [calcGroupStandings_eq ms _ hwf2]
  rw [show ({ g with standings := (calcGroupStandings ms g).map (gposRewrite u) } : TournamentGroup).groupNumber = g.groupNumber from rfl]
  rw [show ({ g with standings := (calcGroupStandings ms g).map (gposRewrite u) } : TournamentGroup).standings = (calcGroupStandings ms g).map (gposRewrite u) from rfl]
  have hreplay : ((calcGroupStandings ms g).map (gposRewrite u)).map
        (fun s => (groupMatches ms g.groupNumber).foldl stepStanding
          (resetStanding s))
      = (calcGroupStandings ms g).map (gposRewrite u) := by
    have hfix : ∀ s ∈ (calcGroupStandings ms g).map (gposRewrite u),
        (groupMatches ms g.groupNumber).foldl stepStanding
          (resetStanding s) = s := by
      intro s hs
      obtain ⟨x, hx, hxeq⟩ := List.mem_map.mp hs
      obtain ⟨h1, h2, h3, h4, h5, h6⟩ := calcGroup_counters ms g hwf x hx
      subst hxeq
      exact replayOne_fixpoint _ _ h1 h2 h3 h4 h5 h6
    rw [List.map_congr_left hfix, List.map_id']
  rw [hreplay]
  have hsorted2 : ((calcGroupStandings ms g).map (gposRewrite u)).Pairwise
      (fun x y => keyLT (sortKey y) (sortKey x) = false) :=
    forall2_pairwise_key (gposRewrite_forall2 u _)
      (calcGroup_sorted ms g hwf)
  rw [stableSortBy_sorted_id _ _ hsorted2]
  have htr2 : TieResolved (groupMatches ms g.groupNumber)
      ((calcGroupStandings ms g).map (gposRewrite u)) :=
    forall2_tieResolved _ (gposRewrite_forall2 u _)
      (calcGroup_tieResolved ms g hwf)
  rw [show tiePass (groupMatches ms g.groupNumber)
      ((calcGroupStandings ms g).map (gposRewrite u))
      = tiePassFuel (groupMatches ms g.groupNumber)
        ((calcGroupStandings ms g).map (gposRewrite u)).length
        ((calcGroupStandings ms g).map (gposRewrite u)) from rfl]
  rw [tiePassFuel_id (groupMatches ms g.groupNumber) _ _ (le_refl _)
    hsorted2 htr2]
  rw [calcGroupStandings_eq ms g hwf]
  exact numberFrom_gposRewrite_id u _ 1

/-- C10 — Idempotence of the standings calculation.  A second call with
the same completed matches reads each group's rows in the order the first
call persisted them: ordered by the freshly assigned 1-based
`position_in_group` (the model's ordering keys), that is, exactly the
first call's output list, with `global_position` values rewritten by the
first call's global pass (`u` ranges over any such rewrite).  The second
call then returns those rows unchanged — same counters, same
`position_in_group` — and the global recalculation over all groups
returns the identical global list with the same `global_position`
values. -/
theorem standings_idempotent (ms : List MatchRec)
    (gs : List TournamentGroup) (u : GroupStanding → Option Nat)
    (hwf : ∀ g ∈ gs, GroupWF ms g) :
    (∀ g ∈ gs, calcGroupStandings ms
        { g with standings := (calcGroupStandings ms g).map (gposRewrite u) }
      = (calcGroupStandings ms g).map (gposRewrite u)) ∧
    calcGlobalStandings ms (gs.map (fun g =>
        { g with standings :=
            (calcGroupStandings ms g).map (gposRewrite u) }))
      = calcGlobalStandings ms gs := by
  refine ⟨fun g hg => calcGroup_idem ms g (hwf g hg) u, ?_⟩
  unfold calcGlobalStandings
  have hmap : (gs.map (fun g =>
      { g with standings :=
          (calcGroupStandings ms g).map (gposRewrite u) })).map
      (fun g => calcGroupStandings ms g)
      = gs.map (fun g => (calcGroupStandings ms g).map (gposRewrite u)) := by
    rw [List.map_map]
    refine List.map_congr_left ?_
    intro g hg
    exact calcGroup_idem ms g (hwf g hg) u
  rw [hmap]
  have hfl : (gs.map (fun g =>
      (calcGroupStandings ms g).map (gposRewrite u))).flatten
      = ((gs.map (fun g => calcGroupStandings ms g)).flatten).map
        (gposRewrite u) := by
    rw [List.map_flatten, List.map_map]
    rfl
  rw [hfl, stableSortBy_map_comm
    (fun a b => keyLT (globalSortKey a) (globalSortKey b))
    (gposRewrite u) (fun a b => rfl) _, numberGlobalFrom_map_gpos]

/-- C10 witness: idempotence instantiated on the three-player group, with
the global pass's rewrite taken to be the player number itself. -/
theorem standings_idempotent_witness :
    (∀ g ∈ [c6Group], GroupWF c6Matches g) ∧
    ((∀ g ∈ [c6Group], calcGroupStandings c6Matches
        { g with standings := (calcGroupStandings c6Matches g).map (gposRewrite c10u) }
      = (calcGroupStandings c6Matches g).map (gposRewrite c10u)) ∧
    calcGlobalStandings c6Matches ([c6Group].map (fun g =>
        { g with standings := (calcGroupStandings c6Matches g).map (gposRewrite c10u) }))
      = calcGlobalStandings c6Matches [c6Group]) :=
  ⟨by decide, standings_idempotent c6Matches [c6Group] c10u (by decide)⟩

/-- C7 — counterexample.  The resolver completes a match whose winning
side's slot is empty and records a null winner: a pending match with
`player1 = NULL`, `player2 = 5`, `max_sets = 3` receives two 15–3/15–7-style
sets won by the player-1 side; `calculate_winner` returns the slot contents
`(None, None)`, a truthy Python tuple, so `update_match_status` marks the
match completed with `winner = NULL`, violating the claimed invariant. -/
theorem resolver_completes_with_null_winner :
    (matchScoreExec [cexMatch7] 0 [(1, 15, 0), (2, 15, 0)]).toOption.map
        (fun l => l.map (fun m => (m.status, m.winner, m.player1, m.player2)))
      = some [(MStatus.completed, none, none, some 5)] := by decide

/-- C7 — amended.  The original claim fails on matches with an empty slot
(see the counterexample): `calculate_winner` returns the winning side's
slot contents and the tuple `(None, None)` is truthy, so the resolver can
complete a match with a null winner.  Amended invariant over the exposed
operations: (a) both bracket builders create every match pending with a
null winner; (b) the generic match update cannot touch `status` or
`winner` (they are not serializer fields) and rejects completed matches;
(c) the scheduler preserves `status` and `winner` of every match; (d) the
score resolver preserves "completed implies non-null winner" provided the
scored match has both player slots non-null. -/
theorem completed_match_has_winner_amended
    (cfg : BracketConfig) (ps : List Participant)
    (m : MatchRec) (d : MatchUpdateData) (mu : MatchRec)
    (ms : List MatchRec) (p : SchedParams)
    (arena : List MatchRec) (i : Nat) (sd : List SetData)
    (arena' : List MatchRec)
    (hup : matchUpdateExec m d = .ok mu)
    (hok : matchScoreExec arena i sd = .ok arena')
    (hinv : ∀ x ∈ arena, x.status = MStatus.completed → x.winner ≠ none)
    (hslots : ∀ mi, arena[i]? = some mi →
      mi.player1 ≠ none ∧ mi.player2 ≠ none) :
    ArenaOK (generateSingleEliminationBracket cfg ps) ∧
    ArenaOK (genDE cfg ps).arena ∧
    (mu.status = m.status ∧ mu.winner = m.winner ∧
      m.status ≠ MStatus.completed) ∧
    (∀ x ∈ scheduleMatches ms p,
      ∃ y ∈ ms, x.status = y.status ∧ x.winner = y.winner) ∧
    (∀ x ∈ arena', x.status = MStatus.completed → x.winner ≠ none) := by
  refine ⟨?_, arenaOK_genDE cfg ps, matchUpdateExec_frame m d mu hup,
    scheduleMatches_frame ms p,
    matchScoreExec_winner_inv arena i sd arena' hok hinv hslots⟩
  exact arenaOK_genSE cfg ps {} (fun x hx => absurd hx (List.not_mem_nil x))

/-- C7 witness: the amended invariant instantiated on concrete data — a
two-participant bracket, an empty update payload on a pending match, an
empty scheduling batch, and a fully-populated match scored 15–3, 15–7. -/
theorem completed_match_has_winner_amended_witness :
    matchUpdateExec wUpd7 {} = .ok (applyUpdate wUpd7 {}) ∧
    matchScoreExec wArena7 0 wSets7 = .ok wOut7 ∧
    (∀ x ∈ wArena7, x.status = MStatus.completed → x.winner ≠ none) ∧
    (∀ mi, wArena7[0]? = some mi →
      mi.player1 ≠ none ∧ mi.player2 ≠ none) ∧
    (ArenaOK (generateSingleEliminationBracket {} [⟨1, none⟩, ⟨2, none⟩]) ∧
      ArenaOK (genDE {} [⟨1, none⟩, ⟨2, none⟩]).arena ∧
      ((applyUpdate wUpd7 {}).status = wUpd7.status ∧
        (applyUpdate wUpd7 {}).winner = wUpd7.winner ∧
        wUpd7.status ≠ MStatus.completed) ∧
      (∀ x ∈ scheduleMatches [] wParams7,
        ∃ y ∈ ([] : List MatchRec),
          x.status = y.status ∧ x.winner = y.winner) ∧
      (∀ x ∈ wOut7, x.status = MStatus.completed → x.winner ≠ none)) :=
  ⟨rfl, rfl, by decide,
    (by
      intro mi hmi
      have h := Option.some.inj (show some wMatch7 = some mi from hmi)
      subst h
      exact ⟨by decide, by decide⟩),
    completed_match_has_winner_amended {} [⟨1, none⟩, ⟨2, none⟩]
      wUpd7 {} (applyUpdate wUpd7 {}) [] wParams7 wArena7 0 wSets7 wOut7
      rfl rfl (by decide)
      (by
        intro mi hmi
        have h := Option.some.inj (show some wMatch7 = some mi from hmi)
        subst h
        exact ⟨by decide, by decide⟩)⟩

end RTMS
